import Mathlib

/-!
# KitBash 2: the cockpit splicer of `kitbash.cxx`

A shallow embedding of the text-level routines of `kitbash.cxx` and of the
two passes of `xp_cockpit_file` (`analyze_xp_cockpit_file`,
`read_xp_cockpit_file`), followed by theorems about them.

Conventions of the embedding.

* A `std::string` is a `List Char` (`Str`); a `vector<string>` is a `List Str`.
  A file is the list of lines `getline` yields (without the line terminator);
  every element of `xp_cockpit_lines` carries its own trailing newline, as in
  the source.
* `int` data read from the files (`stoi`, the header counts, the re-based
  indices) are `Int` values kept in the 32-bit range by `wrapInt`; line
  counters count lines held in memory and are `Nat`.
* An uncaught C++ exception (`stoi` on a non-number) or an out-of-range
  `vector::operator[]` ends the run without output: `none`.
-/

namespace KitBash

/-- A `std::string`, as its sequence of characters. -/
abbrev Str := List Char

/-! ## Library routines used by the source -/

/-- `s.find(p)`: position of the first occurrence of `p` in `s`, `none` for `npos`. -/
def find : Str → Str → Option Nat
  | [], p => if p.isEmpty then some 0 else none
  | c :: cs, p =>
    if p.isPrefixOf (c :: cs) then some 0
    else (find cs p).map (· + 1)

/-- `s.find(p) != string::npos`. -/
def contains (s p : Str) : Bool := (find s p).isSome

/-- `s.find(p) == 0`. -/
def startsWith (s p : Str) : Bool := find s p == some 0

/-- The characters the regular expression class `\s` matches (C `isspace`). -/
def isSpace (c : Char) : Bool :=
  c == ' ' || c == '\t' || c == '\n' || c == '\x0b' || c == '\x0c' || c == '\r'

/-- The characters `trim` removes: `isSpace` and NUL. -/
def isTrimChar (c : Char) : Bool :=
  c == ' ' || c == '\t' || c == '\n' || c == '\x0b' || c == '\x0c' || c == '\r' || c == '\x00'

/-- `regex_replace(source, regex("\\s+"), delimeter)`: every maximal run of
white space becomes one `delimeter`.  The flag says that the previous
character belonged to a run that has been replaced already. -/
def regex_replace_ws (delimeter : Str) : Bool → Str → Str
  | _, [] => []
  | inRun, c :: cs =>
    if isSpace c then
      if inRun then regex_replace_ws delimeter true cs
      else delimeter ++ regex_replace_ws delimeter true cs
    else c :: regex_replace_ws delimeter false cs

/-- Value of the decimal digits `ds`, most significant first. -/
def digitsValue (ds : Str) : Nat :=
  ds.foldl (fun acc c => 10 * acc + (c.toNat - 48)) 0

/-- The conversion at the end of `std::stoi`, from the sign and the digits
read: `none` stands for the exception thrown when there is no digit
(`invalid_argument`) or the value does not fit an `int` (`out_of_range`). -/
def stoi_digits (neg : Bool) (ds : Str) : Option Int :=
  if ds.isEmpty then none
  else
    let n : Int := digitsValue ds
    let v : Int := if neg then -n else n
    if -2147483648 ≤ v ∧ v ≤ 2147483647 then some v else none

/-- `std::stoi`: skips leading white space, reads an optional sign and the
longest run of decimal digits, and converts them. -/
def stoi (s : Str) : Option Int :=
  let s1 := s.dropWhile isSpace
  let s2 := if s1.head? == some '-' || s1.head? == some '+' then s1.tail else s1
  stoi_digits (s1.head? == some '-') (s2.takeWhile Char.isDigit)

/-- `ostream << int`: the decimal rendering of an `int`. -/
def showInt (n : Int) : Str :=
  if n < 0 then '-' :: Nat.toDigits 10 n.natAbs else Nat.toDigits 10 n.toNat

/-- Two's-complement reduction of an integer to the range of a 32-bit `int`:
the value an `int` addition leaves in the register. -/
def wrapInt (n : Int) : Int := (n + 2147483648) % 4294967296 - 2147483648

/-! ## Free functions of `kitbash.cxx` -/

/-- The loop of `split_string`: each round cuts the text before the first
`delimeter` off `source`; the fuel bounds the number of rounds. -/
def split_string_loop (delimeter : Str) : Nat → Str → List Str
  | 0, source => [source]
  | fuel + 1, source =>
    match find source delimeter with
    | some tPos =>
      source.take tPos :: split_string_loop delimeter fuel (source.drop (tPos + delimeter.length))
    | none => [source]

/-- `split_string (source, delimeter)`. Every round erases at least one
character when the delimiter is not empty, so `source.length + 1` rounds
are enough. -/
def split_string (source delimeter : Str) : List Str :=
  split_string_loop delimeter (source.length + 1) source

/-- First loop of `trim`: `a` advances over leading white space. -/
def trimFront : Str → Nat → Nat
  | [], a => a
  | c :: cs, a => if isTrimChar c then trimFront cs (a + 1) else a

/-- Second loop of `trim`: `b` steps down from `l - 1` while `b > a` and
`s.at(b)` is white space.  `b` is an `int` in the source (it is `-1` for the
empty string). -/
def trimBack (s : Str) (a : Int) : Nat → Int → Int
  | 0, b => b
  | fuel + 1, b =>
    if b > a ∧ isTrimChar (s.getD b.toNat ' ') then trimBack s a fuel (b - 1) else b

/-- `trim (s)`: `s.substr(a, 1+b-a)`. -/
def trim (s : Str) : Str :=
  let a := trimFront s 0
  let b := trimBack s a s.length ((s.length : Int) - 1)
  (s.drop a).take (1 + b - (a : Int)).toNat

/-- `strip_delimit_string (source, delimeter)`. -/
def strip_delimit_string (source : Str) (delimeter : Str) : Str :=
  regex_replace_ws delimeter false (trim source)

/-! ## The fragment, as `read_xp_cockpit_file` sees it -/

/-- The members of `xp_manip_file` that `read_xp_cockpit_file` reads through
`get_vt_count`, `get_idx_count`, `get_vt_lines`, `get_idx_lines` and
`get_anim_footer`. -/
structure xp_manip_file where
  vt_count : Int
  idx_count : Int
  xp_vt_lines : List Str
  xp_idx_lines : List Str
  xp_anim_footer : List Str
deriving DecidableEq

/-! ## `xp_cockpit_file` -/

/-- The members of `xp_cockpit_file` and the locals of `read_xp_cockpit_file`
that its loop reads or writes. -/
structure CockpitState where
  xp_cockpit_lines : List Str
  orig_vt_count : Int
  orig_tris_count : Int
  orig_vt_end_index : Nat
  orig_idx_end_index : Nat
  line_num : Nat
  found_vts : Bool
  found_idx : Bool
  ignoring_vt_lines : Bool

/-- The test of pass 1 for a vertex line: `trim(tLine).find("VT") == 0`. -/
def isVtLine (tLine : Str) : Bool := startsWith (trim tLine) "VT".toList

/-- The test of pass 1 for an index line: `trim(tLine).find("IDX") == 0`. -/
def isIdxLine (tLine : Str) : Bool := startsWith (trim tLine) "IDX".toList

/-- The loop of `analyze_xp_cockpit_file`: `linenum` is the number of the
line read last, the triple is (`orig_vt_end_index`, `orig_idx_end_index`,
`orig_vt_count`). -/
def analyze_loop : List Str → Nat → Nat × Nat × Int → Nat × Nat × Int
  | [], _, r => r
  | tLine :: rest, linenum, (vtEnd, idxEnd, vtCount) =>
    let vtEnd1 := if isVtLine tLine then linenum + 1 else vtEnd
    let vtCount1 := if isVtLine tLine then wrapInt (vtCount + 1) else vtCount
    let idxEnd1 := if isIdxLine tLine then linenum + 1 else idxEnd
    analyze_loop rest (linenum + 1) (vtEnd1, idxEnd1, vtCount1)

/-- `analyze_xp_cockpit_file` on a file that opens, for an object whose
members hold `vtEnd`, `idxEnd` and `vtCount` on entry. -/
def analyze_xp_cockpit_file (target : List Str) (r : Nat × Nat × Int) : Nat × Nat × Int :=
  analyze_loop target 0 r

/-- The summary comment pushed just ahead of the rewritten header. -/
def summary_line (pObj_name : Str) (m : xp_manip_file) : Str :=
  "# KITBASH - ".toList ++ pObj_name ++ " VTs: ".toList ++ showInt m.vt_count
    ++ " TRIs: ".toList ++ showInt m.idx_count ++ "\n".toList

/-- A marker: `"# KITBASH - " + pObj_name + what`. -/
def marker (pObj_name : Str) (what : String) : Str :=
  "# KITBASH - ".toList ++ pObj_name ++ what.toList

/-- The last line pushed by `read_xp_cockpit_file`. -/
def attribution_line : Str :=
  "# KITBASH 2.0 by Jemma Studios.  Donations are motivation. https://paypal.me/JemmaStudios\n".toList

/-- `xp_cockpit_lines.push_back(s); line_num++`. -/
def push_line (st : CockpitState) (s : Str) : CockpitState :=
  { st with xp_cockpit_lines := st.xp_cockpit_lines ++ [s], line_num := st.line_num + 1 }

/-- The `POINT_COUNTS` block (lines 577-595): the state after it and the
new value of `tLine`. -/
def header_step (pObj_name : Str) (m : xp_manip_file) (st : CockpitState) (tLine : Str) :
    Option (CockpitState × Str) :=
  if contains tLine "POINT_COUNTS".toList then
    let pc_parts := split_string (strip_delimit_string tLine " ".toList) " ".toList
    match pc_parts[1]?, pc_parts[2]?, pc_parts[3]?, pc_parts[4]? with
    | some p1, some p2, some p3, some p4 =>
      match stoi p1, stoi p4 with
      | some v, some t =>
        let st1 := push_line st (summary_line pObj_name m)
        let st2 := { st1 with
          orig_vt_count := v
          orig_tris_count := t
          orig_vt_end_index := st1.orig_vt_end_index + 1
          orig_idx_end_index := st1.orig_idx_end_index + 1 }
        some (st2, "POINT_COUNTS ".toList ++ showInt (wrapInt (v + m.vt_count)) ++ " ".toList ++ p2
          ++ " ".toList ++ p3 ++ " ".toList ++ showInt (wrapInt (t + m.idx_count)))
      | _, _ => none
    | _, _, _, _ => none
  else some (st, tLine)

/-- One round of the loop over `manip_vt_lines` (lines 605-610). -/
def vt_push (st : CockpitState) (vtString : Str) : CockpitState :=
  let st1 := push_line st vtString
  { st1 with
    orig_idx_end_index := st1.orig_idx_end_index + 1
    orig_vt_end_index := st1.orig_vt_end_index + 1 }

/-- The vertex block (lines 596-616). -/
def vt_step (pObj_name : Str) (m : xp_manip_file) (st : CockpitState) : CockpitState :=
  if st.line_num = st.orig_vt_end_index + 1 ∧ st.found_vts = false then
    let st1 := push_line { st with found_vts := true } (marker pObj_name " start VT section\n")
    let st2 := { st1 with orig_vt_end_index := st1.orig_vt_end_index + 1 }
    let st3 := m.xp_vt_lines.foldl vt_push st2
    let st4 := push_line st3 (marker pObj_name " end VT section\n")
    { st4 with
      orig_vt_end_index := st4.orig_vt_end_index + 1
      orig_idx_end_index := st4.orig_idx_end_index + 1 }
  else st

/-- The inner loop of the index block (lines 632-635): the text streamed
after `idx_parts[0]`. -/
def rebase_tokens (orig_vt_count : Int) : List Str → Option Str
  | [] => some []
  | p :: ps =>
    match stoi p with
    | some k =>
      (rebase_tokens orig_vt_count ps).map
        (fun r => " ".toList ++ showInt (wrapInt (k + orig_vt_count)) ++ r)
    | none => none

/-- The line pushed for one fragment index line (lines 627-637). -/
def rebase_idx_line (orig_vt_count : Int) (idxString : Str) : Option Str :=
  match split_string (strip_delimit_string idxString " ".toList) " ".toList with
  | [] => none
  | tag :: ps => (rebase_tokens orig_vt_count ps).map (fun r => tag ++ r ++ "\n".toList)

/-- One round of the loop over `manip_idx_lines` (lines 626-640). -/
def idx_push (st : CockpitState) (idxString : Str) : Option CockpitState :=
  (rebase_idx_line st.orig_vt_count idxString).map (fun s =>
    let st1 := push_line st s
    { st1 with orig_idx_end_index := st1.orig_idx_end_index + 1 })

/-- The loop over `manip_idx_lines`. -/
def idx_loop : List Str → CockpitState → Option CockpitState
  | [], st => some st
  | idxString :: rest, st =>
    match idx_push st idxString with
    | some st1 => idx_loop rest st1
    | none => none

/-- The index block (lines 617-645). -/
def idx_step (pObj_name : Str) (m : xp_manip_file) (st : CockpitState) : Option CockpitState :=
  if st.line_num = st.orig_idx_end_index + 1 ∧ st.found_idx = false then
    let st1 := push_line { st with found_idx := true } (marker pObj_name " start IDX section\n")
    let st2 := { st1 with orig_idx_end_index := st1.orig_idx_end_index + 1 }
    match idx_loop m.xp_idx_lines st2 with
    | some st3 =>
      let st4 := push_line st3 (marker pObj_name " end IDX section\n")
      some { st4 with orig_idx_end_index := st4.orig_idx_end_index + 1 }
    | none => none
  else some st

/-- The body of the `while (getline ...)` loop of `read_xp_cockpit_file`
(lines 568-649). -/
def read_line (pObj_name : Str) (m : xp_manip_file) (st : CockpitState) (tLine : Str) :
    Option CockpitState :=
  if st.ignoring_vt_lines then
    if contains tLine (marker pObj_name " end VT section") then
      some { st with ignoring_vt_lines := false }
    else some st
  else
    match header_step pObj_name m st tLine with
    | some (st1, tLine1) =>
      match idx_step pObj_name m (vt_step pObj_name m st1) with
      | some st3 => some (push_line st3 (tLine1 ++ "\n".toList))
      | none => none
    | none => none

/-- The `while (getline ...)` loop of `read_xp_cockpit_file`. -/
def read_loop (pObj_name : Str) (m : xp_manip_file) : List Str → CockpitState → Option CockpitState
  | [], st => some st
  | tLine :: rest, st =>
    match read_line pObj_name m st tLine with
    | some st1 => read_loop pObj_name m rest st1
    | none => none

/-- The line pushed for one footer line of the fragment (lines 657-667). -/
def anim_line (orig_tris_count : Int) (animString : Str) : Option Str :=
  if contains animString "TRIS".toList then
    let anim_parts := split_string (strip_delimit_string animString " ".toList) " ".toList
    match anim_parts[0]?, anim_parts[1]?, anim_parts[2]? with
    | some p0, some p1, some p2 =>
      match stoi p1 with
      | some k =>
        some (p0 ++ " ".toList ++ showInt (wrapInt (k + orig_tris_count)) ++ " ".toList ++ p2
          ++ "\n".toList)
      | none => none
    | _, _, _ => none
  else some animString

/-- The loop over `manip_anim_footer` (lines 656-669). -/
def anim_loop (orig_tris_count : Int) : List Str → CockpitState → Option CockpitState
  | [], st => some st
  | animString :: rest, st =>
    match anim_line orig_tris_count animString with
    | some s => anim_loop orig_tris_count rest (push_line st s)
    | none => none

/-- What `read_xp_cockpit_file` does after the loop, up to line 675. -/
def read_finish (pObj_name : Str) (m : xp_manip_file) (st : CockpitState) : Option CockpitState :=
  let st1 := push_line st (marker pObj_name " start ANIM section\n")
  match anim_loop st1.orig_tris_count m.xp_anim_footer st1 with
  | some st2 =>
    some (push_line (push_line st2 (marker pObj_name " end ANIM section\n")) attribution_line)
  | none => none

/-- The state in which the loop of `read_xp_cockpit_file` starts, on an
object that has not been analyzed before: pass 1 has run from the initial
members (`orig_vt_end_index = orig_idx_end_index = 0`), `vt0` and `tris0`
are what the uninitialised members `orig_vt_count` and `orig_tris_count`
hold. -/
def read_start (target : List Str) (vt0 tris0 : Int) : CockpitState :=
  let r := analyze_xp_cockpit_file target (0, 0, vt0)
  { xp_cockpit_lines := []
    orig_vt_count := r.2.2
    orig_tris_count := tris0
    orig_vt_end_index := r.1
    orig_idx_end_index := r.2.1
    line_num := 0
    found_vts := false
    found_idx := false
    ignoring_vt_lines := false }

/-- The content of `xp_cockpit_lines` when `read_xp_cockpit_file` reaches the
backup step (line 680), for a target file that opens in both passes and
holds the lines `target`; `none` when the run ends in an exception. -/
def read_xp_cockpit_file (pObj_name : Str) (m : xp_manip_file) (target : List Str)
    (vt0 tris0 : Int) : Option (List Str) :=
  match read_loop pObj_name m target (read_start target vt0 tris0) with
  | some st =>
    match read_finish pObj_name m st with
    | some st1 => some st1.xp_cockpit_lines
    | none => none
  | none => none

/-! ## Notions used to state the properties -/

/-- The fragment index lines re-based one by one (`none` when one of them
makes `stoi` throw). -/
def rebase_all (orig_vt_count : Int) : List Str → Option (List Str)
  | [] => some []
  | l :: ls =>
    match rebase_idx_line orig_vt_count l, rebase_all orig_vt_count ls with
    | some r, some rs => some (r :: rs)
    | _, _ => none

/-- The fragment footer lines as line 667 pushes them (`none` when one of
them ends the run). -/
def anim_all (orig_tris_count : Int) : List Str → Option (List Str)
  | [] => some []
  | l :: ls =>
    match anim_line orig_tris_count l, anim_all orig_tris_count ls with
    | some r, some rs => some (r :: rs)
    | _, _ => none

/-- Every line gets the `"\n"` of line 647. -/
def withNewlines (ls : List Str) : List Str := ls.map (fun l => l ++ "\n".toList)

/-- The inserted vertex block. -/
def vt_block (pObj_name : Str) (m : xp_manip_file) : List Str :=
  marker pObj_name " start VT section\n" :: (m.xp_vt_lines ++ [marker pObj_name " end VT section\n"])

/-- The inserted index block, given the re-based lines. -/
def idx_block (pObj_name : Str) (rs : List Str) : List Str :=
  marker pObj_name " start IDX section\n" :: (rs ++ [marker pObj_name " end IDX section\n"])

/-- The lines pushed after the loop, given the footer lines as pushed. -/
def anim_block (pObj_name : Str) (fs : List Str) : List Str :=
  marker pObj_name " start ANIM section\n" ::
    (fs ++ [marker pObj_name " end ANIM section\n", attribution_line])

/-- The four fields the `POINT_COUNTS` block reads off a header line:
`stoi(pc_parts[1])`, `pc_parts[2]`, `pc_parts[3]`, `stoi(pc_parts[4])`. -/
def point_counts (tLine : Str) : Option (Int × Str × Str × Int) :=
  let pc_parts := split_string (strip_delimit_string tLine " ".toList) " ".toList
  match pc_parts[1]?, pc_parts[2]?, pc_parts[3]?, pc_parts[4]? with
  | some p1, some p2, some p3, some p4 =>
    match stoi p1, stoi p4 with
    | some v, some t => some (v, p2, p3, t)
    | _, _ => none
  | _, _, _, _ => none

/-- The text `POINT_COUNTS a b c d` with the counts given as numbers. -/
def header_text (a : Int) (b c : Str) (d : Int) : Str :=
  "POINT_COUNTS ".toList ++ showInt a ++ " ".toList ++ b ++ " ".toList ++ c ++ " ".toList
    ++ showInt d

/-- The lines the loop of `read_xp_cockpit_file` leaves for a target laid
out as preamble, header, vertex lines, index lines, footer. -/
def layout_lines (pObj_name : Str) (m : xp_manip_file) (pre : List Str) (newHeader : Str)
    (vts : List Str) (i1 : Str) (ixs : List Str) (foot : List Str) (rs : List Str) : List Str :=
  withNewlines pre ++ summary_line pObj_name m :: (newHeader ++ "\n".toList) ::
    (withNewlines vts ++ (i1 ++ "\n".toList) :: (vt_block pObj_name m ++ (withNewlines ixs ++
      (idx_block pObj_name rs ++ withNewlines foot))))

/-- The tokens the source cuts a line into: `split_string` of the line after
`strip_delimit_string`. -/
def line_tokens (l : Str) : List Str :=
  split_string (strip_delimit_string l " ".toList) " ".toList

/-- Tokens joined by single spaces, as the streams of the source write them. -/
def join_tokens : List Str → Str
  | [] => []
  | t :: ts => t ++ (ts.map (fun x => ' ' :: x)).flatten

/-- A target line on which the `POINT_COUNTS` block does not end the run: it
does not contain `POINT_COUNTS`, or it has five tokens of which the second
and the fifth are numbers. -/
def header_ok (l : Str) : Bool :=
  !contains l "POINT_COUNTS".toList || (point_counts l).isSome

/-- A fragment index line on which the index block does not end the run:
every token after the first is a number. -/
def idx_line_ok (l : Str) : Bool :=
  (line_tokens l).tail.all (fun p => (stoi p).isSome)

/-- A fragment footer line on which line 662 does not end the run: it does
not contain `TRIS`, or it has three tokens of which the second is a number. -/
def anim_line_ok (l : Str) : Bool :=
  !contains l "TRIS".toList ||
    match line_tokens l with
    | _ :: p1 :: _ :: _ => (stoi p1).isSome
    | _ => false

/-- The line pushed at line 648 for the target line `l`: the line itself,
or the rewritten header when it contains `POINT_COUNTS`. -/
def kept_line (m : xp_manip_file) (l : Str) : Str :=
  if contains l "POINT_COUNTS".toList then
    match point_counts l with
    | some (v, b, c, t) =>
      header_text (wrapInt (v + m.vt_count)) b c (wrapInt (t + m.idx_count)) ++ "\n".toList
    | none => l ++ "\n".toList
  else l ++ "\n".toList

/-- The lines `ls` in order, each preceded by the lines inserted ahead of it. -/
def weave : List (List Str) → List Str → List Str
  | ins :: inss, l :: ls => ins ++ l :: weave inss ls
  | _, _ => []

/-- A line the loop of `read_xp_cockpit_file` inserts: the summary comment,
a line of the vertex block, or a line of the index block. -/
def Inserted (pObj_name : Str) (m : xp_manip_file) (x : Str) : Prop :=
  x = summary_line pObj_name m ∨ x ∈ vt_block pObj_name m ∨
    ∃ (V : Int) (rs : List Str), rebase_all V m.xp_idx_lines = some rs ∧ x ∈ idx_block pObj_name rs

/-- The values an `int` can hold. -/
def inIntRange (n : Int) : Prop := -2147483648 ≤ n ∧ n ≤ 2147483647

instance (n : Int) : Decidable (inIntRange n) := by
  unfold inIntRange
  infer_instance

/-! ## Sample data -/

/-- The attachment name of the examples. -/
def sample_name : Str := "wiper1".toList

/-- A fragment as `transform_vts` leaves it: four vertices, two index lines,
a footer with a `TRIS` command. -/
def sample_fragment : xp_manip_file :=
  { vt_count := 4
    idx_count := 2
    xp_vt_lines :=
      [ "VT\t0.00000000\t0.00000000\t0.00000000\t0.00000000\t1.00000000\t0.00000000\t0.00000000\t0.00000000\n".toList,
        "VT\t1.00000000\t0.00000000\t0.00000000\t0.00000000\t1.00000000\t0.00000000\t1.00000000\t0.00000000\n".toList,
        "VT\t1.00000000\t0.00000000\t1.00000000\t0.00000000\t1.00000000\t0.00000000\t1.00000000\t1.00000000\n".toList,
        "VT\t0.00000000\t0.00000000\t1.00000000\t0.00000000\t1.00000000\t0.00000000\t0.00000000\t1.00000000\n".toList ]
    xp_idx_lines := ["IDX 0\n".toList, "IDX 3\n".toList]
    xp_anim_footer := ["ANIM_begin\n".toList, "TRIS 0 2\n".toList, "ANIM_end\n".toList] }

/-- A target with its header first, then two vertex lines, two index lines
and a one-line footer. -/
def sample_target : List Str :=
  [ "POINT_COUNTS 100 0 0 50".toList,
    "VT 0 0 0 0 1 0 0 0".toList,
    "VT 1 0 0 0 1 0 1 0".toList,
    "IDX10 0 1 0 1 0 1 0 1 0 1".toList,
    "IDX 1".toList,
    "TRIS 0 50".toList ]

/-- A target laid out as preamble `pre`, header line `hdr`, the lines `vts`
up to and including the last vertex line, the lines `i1 :: ixs` up to and
including the last index line (none of them a vertex line), and the footer
`f1 :: fs` (no vertex or index line); only `hdr` contains `POINT_COUNTS`. -/
def StandardLayout (pre : List Str) (hdr : Str) (vts : List Str) (i1 : Str) (ixs : List Str)
    (f1 : Str) (fs : List Str) : Prop :=
  (∀ l ∈ pre, contains l "POINT_COUNTS".toList = false) ∧
  contains hdr "POINT_COUNTS".toList = true ∧
  (∀ l ∈ vts, contains l "POINT_COUNTS".toList = false) ∧
  (∀ l ∈ i1 :: ixs, contains l "POINT_COUNTS".toList = false) ∧
  (∀ l ∈ f1 :: fs, contains l "POINT_COUNTS".toList = false) ∧
  vts.getLast?.map isVtLine = some true ∧
  (∀ l ∈ i1 :: ixs, isVtLine l = false) ∧
  (i1 :: ixs).getLast?.map isIdxLine = some true ∧
  (∀ l ∈ f1 :: fs, isVtLine l = false ∧ isIdxLine l = false)

instance (pre : List Str) (hdr : Str) (vts : List Str) (i1 : Str) (ixs : List Str)
    (f1 : Str) (fs : List Str) : Decidable (StandardLayout pre hdr vts i1 ixs f1 fs) := by
  unfold StandardLayout
  infer_instance

/-- A fragment with three vertices, three indices and a `TRIS` command. -/
def tri_fragment : xp_manip_file :=
  { vt_count := 3
    idx_count := 3
    xp_vt_lines :=
      [ "VT\t0.00000000\t0.00000000\t0.00000000\t0.00000000\t1.00000000\t0.00000000\t0.00000000\t0.00000000\n".toList,
        "VT\t1.00000000\t0.00000000\t0.00000000\t0.00000000\t1.00000000\t0.00000000\t1.00000000\t0.00000000\n".toList,
        "VT\t1.00000000\t0.00000000\t1.00000000\t0.00000000\t1.00000000\t0.00000000\t1.00000000\t1.00000000\n".toList ]
    xp_idx_lines := ["IDX 0\n".toList, "IDX 1\n".toList, "IDX 2\n".toList]
    xp_anim_footer := ["TRIS 0 3\n".toList] }

/-- A target with its header, three vertex lines, three index lines and one
footer line; the counts of the header are those of the file. -/
def tri_target : List Str :=
  [ "POINT_COUNTS 3 0 0 3".toList,
    "VT 0 0 0 0 1 0 0 0".toList,
    "VT 1 0 0 0 1 0 1 0".toList,
    "VT 1 0 1 0 1 0 1 1".toList,
    "IDX 0".toList,
    "IDX 1".toList,
    "IDX 2".toList,
    "TRIS 0 3".toList ]

/-- A target with its header, four vertex lines, a single index line and
one footer line. -/
def one_index_line_target : List Str :=
  [ "POINT_COUNTS 4 0 0 10".toList,
    "VT 0 0 0 0 1 0 0 0".toList,
    "VT 1 0 0 0 1 0 1 0".toList,
    "VT 1 0 1 0 1 0 1 1".toList,
    "VT 0 0 1 0 1 0 0 1".toList,
    "IDX10 0 1 1 2 2 3 3 0 0 2".toList,
    "LINES 0 10".toList ]

/-- A target that ends with its index region: header, three vertex lines,
three index lines, nothing after them. -/
def no_footer_target : List Str :=
  [ "POINT_COUNTS 3 0 0 3".toList,
    "VT 0 0 0 0 1 0 0 0".toList,
    "VT 1 0 0 0 1 0 1 0".toList,
    "VT 1 0 1 0 1 0 1 1".toList,
    "IDX 0".toList,
    "IDX 1".toList,
    "IDX 2".toList ]

/-- A target whose last vertex line is followed by one line only. -/
def short_target : List Str :=
  [ "POINT_COUNTS 3 0 0 1".toList,
    "VT 0 0 0 0 1 0 0 0".toList,
    "VT 1 0 0 0 1 0 1 0".toList,
    "VT 1 0 1 0 1 0 1 1".toList,
    "IDX 0".toList ]

/-- A word: a non-empty string without white space. -/
def IsWord (w : Str) : Prop := w ≠ [] ∧ ∀ c ∈ w, isSpace c = false

/-- A string that neither starts nor ends with a character `trim` removes
(in particular it is not empty). -/
def Tight (s : Str) : Prop :=
  s.head?.map isTrimChar = some false ∧ s.getLast?.map isTrimChar = some false

/-! ## `xp_vt` -/

/-- The members of `xp_vt`.  A `double` is an element of the field `R`: the
arithmetic is exact, rounding is not modelled. -/
structure xp_vt (R : Type) where
  x : R
  y : R
  z : R
  nx : R
  ny : R
  nz : R
  u : R
  v : R
  psi : R
  theta : R
  phi : R
  off_x : R
  off_y : R
  off_z : R
deriving DecidableEq

/-- The functions `cos` and `sin` of `<cmath>`. -/
structure Trig (R : Type) where
  cos : R → R
  sin : R → R

/-- The constant of `#define PI 3.14159265`. -/
def PI {R : Type} [Field R] : R := 314159265 / 100000000

/-- `xp_vt::set_rotation_axis`. -/
def xp_vt.set_rotation_axis {R : Type} (vt : xp_vt R) (tPsi tTheta tPhi : R) : xp_vt R :=
  { vt with psi := tPsi, theta := tTheta, phi := tPhi }

/-- `xp_vt::set_xyz_offsets`. -/
def xp_vt.set_xyz_offsets {R : Type} (vt : xp_vt R) (xx yy zz : R) : xp_vt R :=
  { vt with off_x := xx, off_y := yy, off_z := zz }

/-- `xp_vt::rotation_transform`: the object after the call (the returned map
holds its new `x`, `y`, `z`). -/
def xp_vt.rotation_transform {R : Type} [Field R] (T : Trig R) (vt : xp_vt R) : xp_vt R :=
  let rad_phi := vt.phi * PI / 180
  let rad_theta := vt.theta * PI / 180
  let rad_psi := vt.psi * PI / 180
  let x_phi := (T.cos rad_phi * vt.x) + (T.sin rad_phi * vt.y)
  let y_phi := (-T.sin rad_phi * vt.x) + (T.cos rad_phi * vt.y)
  let z_phi := vt.z
  let x_theta := x_phi
  let y_theta := (T.cos rad_theta * y_phi) + (-T.sin rad_theta * z_phi)
  let z_theta := (T.sin rad_theta * y_phi) + (T.cos rad_theta * z_phi)
  let x_psi := (T.cos rad_psi * x_theta) + (-T.sin rad_psi * z_theta)
  let y_psi := y_theta
  let z_psi := (T.sin rad_psi * x_theta) + (T.cos rad_psi * z_theta)
  { vt with x := x_psi, y := y_psi, z := z_psi }

/-- `xp_vt::offset_tranform`: the object after the call. -/
def xp_vt.offset_tranform {R : Type} [Field R] (vt : xp_vt R) : xp_vt R :=
  { vt with x := vt.x + vt.off_x, y := vt.y + vt.off_y, z := vt.z + vt.off_z }

/-- `xp_vt::transform`. -/
def xp_vt.transform {R : Type} [Field R] [DecidableEq R] (T : Trig R) (vt : xp_vt R)
    (tPsi tTheta tPhi xx yy zz : R) : xp_vt R :=
  let vt1 := (vt.set_rotation_axis tPsi tTheta tPhi).set_xyz_offsets xx yy zz
  let vt2 := if tPsi ≠ 0 ∨ tTheta ≠ 0 ∨ tPhi ≠ 0 then vt1.rotation_transform T else vt1
  if xx ≠ 0 ∨ yy ≠ 0 ∨ zz ≠ 0 then vt2.offset_tranform else vt2

/-! ### The rotation matrices as the specification words them -/

/-- Degrees to radians, with the constant of the source. -/
def radians {R : Type} [Field R] (deg : R) : R := deg * PI / 180

/-- Roll about Z by the angle `a` (radians): `x·cos a + y·sin a`,
`−x·sin a + y·cos a`, `z`. -/
def spec_roll {R : Type} [Field R] (T : Trig R) (a : R) (p : R × R × R) : R × R × R :=
  (p.1 * T.cos a + p.2.1 * T.sin a, -p.1 * T.sin a + p.2.1 * T.cos a, p.2.2)

/-- Pitch about X by the angle `a` (radians): `x`, `y·cos a − z·sin a`,
`y·sin a + z·cos a`. -/
def spec_pitch {R : Type} [Field R] (T : Trig R) (a : R) (p : R × R × R) : R × R × R :=
  (p.1, p.2.1 * T.cos a - p.2.2 * T.sin a, p.2.1 * T.sin a + p.2.2 * T.cos a)

/-- Yaw about Y by the angle `a` (radians): `x·cos a − z·sin a`, `y`,
`x·sin a + z·cos a`. -/
def spec_yaw {R : Type} [Field R] (T : Trig R) (a : R) (p : R × R × R) : R × R × R :=
  (p.1 * T.cos a - p.2.2 * T.sin a, p.2.1, p.1 * T.sin a + p.2.2 * T.cos a)

/-- Translation by the offset `o`. -/
def spec_translate {R : Type} [Field R] (o : R × R × R) (p : R × R × R) : R × R × R :=
  (p.1 + o.1, p.2.1 + o.2.1, p.2.2 + o.2.2)

/-- The position of a vertex. -/
def xp_vt.position {R : Type} (vt : xp_vt R) : R × R × R := (vt.x, vt.y, vt.z)

/-! ## `xp_acf_file` -/

/-- `string_to_lower`: `::tolower` on every character. -/
def string_to_lower (tString : Str) : Str := tString.map Char.toLower

/-- The members of `xp_acf_file`.  The six `double`s are not initialized by
the class: before `set_pObj_fName` they hold whatever the object was created
with. -/
structure xp_acf_file (R : Type) where
  xp_acf_fName : Str
  xp_pObj_fName : Str
  pObj_i_String : Str
  pObj_offset_x : R
  pObj_offset_y : R
  pObj_offset_z : R
  pObj_rotation_psi : R
  pObj_rotation_theta : R
  pObj_rotation_phi : R
deriving DecidableEq

/-- The slot of a line that holds the name: `line_parts[1]` after
`line_parts = split_string (tLine, " ")` and
`line_parts = split_string (line_parts[1], "/")`. -/
def slot_of (tLine : Str) : Option Str :=
  match (split_string tLine " ".toList)[1]? with
  | none => none
  | some part => (split_string part "/".toList)[1]?

/-- The value of a key line: `stof (parts[2])` after
`parts = split_string (tLine, " ")`. -/
def key_value {R : Type} (stof : Str → Option R) (tLine : Str) : Option R :=
  match (split_string tLine " ".toList)[2]? with
  | none => none
  | some part => stof part

/-- The first part of the loop body of `set_pObj_fName`: a line that holds the
name sets `xp_pObj_fName`, `found_it` and `pObj_i_String`. -/
def match_line {R : Type} (tName : Str) (st : xp_acf_file R × Int) (tLine : Str) :
    Option (xp_acf_file R × Int) :=
  if contains tLine (string_to_lower tName) then
    match slot_of tLine with
    | none => none
    | some slot =>
      some ({ st.1 with xp_pObj_fName := tName,
                        pObj_i_String := "p _obja/".toList ++ slot ++ "/".toList }, 1)
  else some st

/-- One of the six look-ups of the loop body: when `tLine` holds
`pObj_i_String + key`, the value of the line is stored by `set`. -/
def read_key {R : Type} (stof : Str → Option R) (tLine key : Str)
    (set : xp_acf_file R → R → xp_acf_file R) (a : xp_acf_file R) : Option (xp_acf_file R) :=
  if contains tLine (a.pObj_i_String ++ key) then
    match key_value stof tLine with
    | none => none
    | some v => some (set a v)
  else some a

/-- The block under `if (found_it == 1)`: the six look-ups in the order of the
source. -/
def read_keys {R : Type} [Field R] (stof : Str → Option R) (tLine : Str) (a : xp_acf_file R) :
    Option (xp_acf_file R) :=
  (((((read_key stof tLine "_v10_att_phi_ref".toList
        (fun a v => { a with pObj_rotation_phi := v }) a).bind
      (read_key stof tLine "_v10_att_psi_ref".toList
        (fun a v => { a with pObj_rotation_psi := v }))).bind
      (read_key stof tLine "_v10_att_the_ref".toList
        (fun a v => { a with pObj_rotation_theta := v }))).bind
      (read_key stof tLine "_v10_att_x_acf_prt_ref".toList
        (fun a v => { a with pObj_offset_x := v * (3048 / 10000) }))).bind
      (read_key stof tLine "_v10_att_y_acf_prt_ref".toList
        (fun a v => { a with pObj_offset_y := v * (3048 / 10000) }))).bind
      (read_key stof tLine "_v10_att_z_acf_prt_ref".toList
        (fun a v => { a with pObj_offset_z := v * (3048 / 10000) }))

/-- The body of the `while (getline (xp_acf_file, tLine))` loop. -/
def set_pObj_fName_line {R : Type} [Field R] (stof : Str → Option R) (tName : Str)
    (st : xp_acf_file R × Int) (line : Str) : Option (xp_acf_file R × Int) :=
  let tLine := string_to_lower line
  match match_line tName st tLine with
  | none => none
  | some (a, found_it) =>
    if found_it = 1 then (read_keys stof tLine a).map (fun a1 => (a1, found_it))
    else some (a, found_it)

/-- The loop of `set_pObj_fName` over the lines of the file. -/
def set_pObj_fName_loop {R : Type} [Field R] (stof : Str → Option R) (tName : Str) :
    List Str → xp_acf_file R × Int → Option (xp_acf_file R × Int)
  | [], st => some st
  | line :: rest, st =>
    match set_pObj_fName_line stof tName st line with
    | none => none
    | some st1 => set_pObj_fName_loop stof tName rest st1

/-- `xp_acf_file::set_pObj_fName`: the object after the call and the value
returned.  `disk` gives the lines of a file that can be opened, by name. -/
def set_pObj_fName {R : Type} [Field R] (stof : Str → Option R)
    (disk : Str → Option (List Str)) (a : xp_acf_file R) (tName : Str) :
    Option (xp_acf_file R × Int) :=
  if a.xp_acf_fName = [] then some (a, 0)
  else
    match disk a.xp_acf_fName with
    | none => some (a, 0)
    | some lines => set_pObj_fName_loop stof tName lines (a, 0)
/-! ### Notions used to state the properties of the look-up -/

/-- The line holds the name: the test
`tLine.find (string_to_lower (tName)) != npos` on the lowered line. -/
def name_line (tName line : Str) : Bool :=
  contains (string_to_lower line) (string_to_lower tName)

/-- The six keys, in the order of the source. -/
def placement_keys : List Str :=
  [ "_v10_att_phi_ref".toList, "_v10_att_psi_ref".toList, "_v10_att_the_ref".toList,
    "_v10_att_x_acf_prt_ref".toList, "_v10_att_y_acf_prt_ref".toList,
    "_v10_att_z_acf_prt_ref".toList ]

/-- A line that the loop body can read: if it holds the name it has a slot,
and if it holds one of the six keys its third piece is a number for `stof`. -/
def line_ok {R : Type} (stof : Str → Option R) (tName line : Str) : Prop :=
  (name_line tName line = true → (slot_of (string_to_lower line)).isSome = true) ∧
  (placement_keys.any (fun key => contains (string_to_lower line) key) = true →
    (key_value stof (string_to_lower line)).isSome = true)

instance {R : Type} (stof : Str → Option R) (tName line : Str) :
    Decidable (line_ok stof tName line) := by
  unfold line_ok; infer_instance

/-- A descriptor that `set_pObj_fName` can read: every line from the first
one that holds the name on is `line_ok`. -/
def descriptor_ok {R : Type} (stof : Str → Option R) (tName : Str) (lines : List Str) : Prop :=
  ∀ l ∈ lines.dropWhile (fun l => !name_line tName l), line_ok stof tName l

instance {R : Type} (stof : Str → Option R) (tName : Str) (lines : List Str) :
    Decidable (descriptor_ok stof tName lines) := by
  unfold descriptor_ok; infer_instance

/-- The six assignments as the specification words them: each field whose key
follows the slot prefix on the line takes the value `v` of the line, an angle
as it is and an offset multiplied by 0.3048. -/
def assign_keys {R : Type} [Field R] (tLine : Str) (v : R) (a : xp_acf_file R) : xp_acf_file R :=
  { a with
    pObj_rotation_phi :=
      if contains tLine (a.pObj_i_String ++ "_v10_att_phi_ref".toList) then v
      else a.pObj_rotation_phi,
    pObj_rotation_psi :=
      if contains tLine (a.pObj_i_String ++ "_v10_att_psi_ref".toList) then v
      else a.pObj_rotation_psi,
    pObj_rotation_theta :=
      if contains tLine (a.pObj_i_String ++ "_v10_att_the_ref".toList) then v
      else a.pObj_rotation_theta,
    pObj_offset_x :=
      if contains tLine (a.pObj_i_String ++ "_v10_att_x_acf_prt_ref".toList) then v * (3048 / 10000)
      else a.pObj_offset_x,
    pObj_offset_y :=
      if contains tLine (a.pObj_i_String ++ "_v10_att_y_acf_prt_ref".toList) then v * (3048 / 10000)
      else a.pObj_offset_y,
    pObj_offset_z :=
      if contains tLine (a.pObj_i_String ++ "_v10_att_z_acf_prt_ref".toList) then v * (3048 / 10000)
      else a.pObj_offset_z }
/-! ### Sample descriptors -/

/-- What `std::stof` reads on a decimal numeral without exponent (optional
sign, digits, optional fraction), as a rational number; `none` when there is
no digit.  The numerals of the samples below are all of this form. -/
def sample_stof (s : Str) : Option ℚ :=
  let s1 := s.dropWhile isSpace
  let neg := s1.head? == some '-'
  let s2 := if s1.head? == some '-' || s1.head? == some '+' then s1.tail else s1
  let ip := s2.takeWhile Char.isDigit
  let fp := match s2.dropWhile Char.isDigit with
    | '.' :: f => f.takeWhile Char.isDigit
    | _ => []
  if ip.isEmpty && fp.isEmpty then none
  else
    let m : ℚ := (digitsValue ip : ℚ) + (digitsValue fp : ℚ) / (10 : ℚ) ^ fp.length
    some (if neg then -m else m)

/-- A descriptor object whose file name is set and whose six numbers are
still what the object was created with (here 0). -/
def sample_acf : xp_acf_file ℚ :=
  { xp_acf_fName := "plane.acf".toList, xp_pObj_fName := [], pObj_i_String := [],
    pObj_offset_x := 0, pObj_offset_y := 0, pObj_offset_z := 0,
    pObj_rotation_psi := 0, pObj_rotation_theta := 0, pObj_rotation_phi := 0 }

/-- A disk that holds the one file `plane.acf` with the given lines. -/
def sample_disk (lines : List Str) (name : Str) : Option (List Str) :=
  if name = "plane.acf".toList then some lines else none

/-- A descriptor with the name line of `wiper1` in slot 3 and only one of the
six keys. -/
def incomplete_descriptor : List Str :=
  [ "P _obja/3/_v10_att_file_stl wiper1.obj".toList,
    "P _obja/3/_v10_att_psi_ref 45.0".toList ]

/-- A descriptor in which two lines hold the name `wiper1`: slot 3
(`wiper1.obj`) and, later, slot 7 (`wiper10.obj`). -/
def two_slot_descriptor : List Str :=
  [ "P _obja/3/_v10_att_file_stl wiper1.obj".toList,
    "P _obja/7/_v10_att_file_stl wiper10.obj".toList,
    "P _obja/3/_v10_att_psi_ref 45.0".toList,
    "P _obja/7/_v10_att_psi_ref 90.0".toList ]

/-- A descriptor with the name line of `wiper1` in slot 3 and its six keys;
the lines of another slot come first. -/
def complete_descriptor : List Str :=
  [ "P _obja/2/_v10_att_file_stl Yoke.obj".toList,
    "P _obja/2/_v10_att_psi_ref 10.0".toList,
    "P _obja/3/_v10_att_file_stl Wiper1.obj".toList,
    "P _obja/3/_v10_att_phi_ref 0.0".toList,
    "P _obja/3/_v10_att_psi_ref 45.0".toList,
    "P _obja/3/_v10_att_the_ref -1.5".toList,
    "P _obja/3/_v10_att_x_acf_prt_ref 10.0".toList,
    "P _obja/3/_v10_att_y_acf_prt_ref 2.5".toList,
    "P _obja/3/_v10_att_z_acf_prt_ref -20.0".toList,
    "P _obja/4/_v10_att_psi_ref 90.0".toList ]

/-! ## The constructor and the printer of `xp_vt` -/

/-- The constructor `xp_vt::xp_vt (vt_string)`.  `init` is what the storage of the object
holds before the constructor runs: the members that the constructor does
not assign keep it.  `none` is the exception of `stof`. -/
def xp_vt.construct {R : Type} [Field R] (stof : Str → Option R) (init : xp_vt R)
    (vt_string : Str) : Option (xp_vt R) :=
  let vt_string := strip_delimit_string vt_string " ".toList
  let vt_parts := split_string vt_string " ".toList
  match vt_parts[0]? with
  | none => none
  | some tag =>
    if tag ≠ "VT".toList then
      some { init with x := 0, y := 0, z := 0, nx := 0, ny := 0, nz := 0, u := 0, v := 0 }
    else if vt_parts.length ≥ 9 then
      match stof (vt_parts.getD 1 []), stof (vt_parts.getD 2 []), stof (vt_parts.getD 3 []),
        stof (vt_parts.getD 4 []), stof (vt_parts.getD 5 []), stof (vt_parts.getD 6 []),
        stof (vt_parts.getD 7 []), stof (vt_parts.getD 8 []) with
      | some x, some y, some z, some nx, some ny, some nz, some u, some v =>
        some { init with x := x, y := y, z := z, nx := nx, ny := ny, nz := nz, u := u, v := v }
      | _, _, _, _, _, _, _, _ => none
    else some init

/-- `xp_vt::get_vt_string (end_line)`; `fmt` is the rendering of a `double`
by the stream after `fixed << setprecision (8)`. -/
def xp_vt.get_vt_string {R : Type} (fmt : R → Str) (vt : xp_vt R) (end_line : Str) : Str :=
  "VT\t".toList ++ fmt vt.x ++ "\t".toList ++ fmt vt.y ++ "\t".toList ++ fmt vt.z ++
    "\t".toList ++ fmt vt.nx ++ "\t".toList ++ fmt vt.ny ++ "\t".toList ++ fmt vt.nz ++
    "\t".toList ++ fmt vt.u ++ "\t".toList ++ fmt vt.v ++ end_line

/-! ## `xp_manip_file::transform_vts` -/

/-- The `POINT_COUNTS` part of the loop body: the line as it stands after
it, and the two counts when it read them. -/
def read_point_counts (tLine : Str) : Option (Str × Option (Int × Int)) :=
  if contains tLine "POINT_COUNTS".toList then
    let tLine := strip_delimit_string tLine " ".toList
    let pc_parts := split_string tLine " ".toList
    match pc_parts[1]?, pc_parts[4]? with
    | some p1, some p4 =>
      match stoi p1, stoi p4 with
      | some vt_count, some idx_count => some (tLine, some (vt_count, idx_count))
      | _, _ => none
    | _, _ => none
  else some (tLine, none)

/-- The `VT` part of the loop body: the line as it stands after it, and the
line it adds to `xp_vt_lines` when it adds one. -/
def read_vt {R : Type} [Field R] [DecidableEq R] (stof : Str → Option R) (fmt : R → Str)
    (T : Trig R) (init : xp_vt R) (acf : xp_acf_file R) (tLine : Str) :
    Option (Str × Option Str) :=
  if contains tLine "VT".toList then
    let tLine := strip_delimit_string tLine " ".toList
    match xp_vt.construct stof init tLine with
    | none => none
    | some tVt =>
      some (tLine, some ((tVt.transform T acf.pObj_rotation_psi acf.pObj_rotation_theta
        acf.pObj_rotation_phi acf.pObj_offset_x acf.pObj_offset_y
        acf.pObj_offset_z).get_vt_string fmt "\n".toList))
  else some (tLine, none)

/-- The body of the `while (getline (xp_manip_file, tLine))` loop; the state
is the object and the local `found_idx`. -/
def transform_vts_line {R : Type} [Field R] [DecidableEq R] (stof : Str → Option R)
    (fmt : R → Str) (T : Trig R) (init : xp_vt R) (acf : xp_acf_file R)
    (st : xp_manip_file × Bool) (line : Str) : Option (xp_manip_file × Bool) :=
  match read_point_counts line with
  | none => none
  | some (tLine1, counts) =>
    let m1 : xp_manip_file :=
      match counts with
      | some (vt_count, idx_count) => { st.1 with vt_count := vt_count, idx_count := idx_count }
      | none => st.1
    match read_vt stof fmt T init acf tLine1 with
    | none => none
    | some (tLine2, vt_line) =>
      let m2 : xp_manip_file :=
        match vt_line with
        | some l => { m1 with xp_vt_lines := m1.xp_vt_lines ++ [l] }
        | none => m1
      if contains tLine2 "IDX".toList then
        some ({ m2 with xp_idx_lines := m2.xp_idx_lines ++ [tLine2 ++ "\n".toList] }, true)
      else if st.2 then
        some ({ m2 with xp_anim_footer := m2.xp_anim_footer ++ [tLine2 ++ "\n".toList] }, st.2)
      else some (m2, st.2)

/-- The loop of `transform_vts` over the lines of the file. -/
def transform_vts_loop {R : Type} [Field R] [DecidableEq R] (stof : Str → Option R)
    (fmt : R → Str) (T : Trig R) (init : xp_vt R) (acf : xp_acf_file R) :
    List Str → xp_manip_file × Bool → Option (xp_manip_file × Bool)
  | [], st => some st
  | line :: rest, st =>
    match transform_vts_line stof fmt T init acf st line with
    | none => none
    | some st1 => transform_vts_loop stof fmt T init acf rest st1

/-- `xp_manip_file::transform_vts`: the object after the call.  `text` is
what opening `xp_manip_fName` gives: the lines of the file, or `none` when
it cannot be opened. -/
def transform_vts {R : Type} [Field R] [DecidableEq R] (stof : Str → Option R)
    (fmt : R → Str) (T : Trig R) (init : xp_vt R) (text : Option (List Str))
    (acf : xp_acf_file R) (m : xp_manip_file) : Option xp_manip_file :=
  match text with
  | none => some m
  | some lines => (transform_vts_loop stof fmt T init acf lines (m, false)).map Prod.fst

/-! ### Notions used to state the properties of `transform_vts` -/

/-- The line as it stands at the test `tLine.find ("IDX")`: a line that
holds `POINT_COUNTS` or `VT` has been replaced by its
`strip_delimit_string`. -/
def normalized_line (line : Str) : Str :=
  let tLine1 :=
    if contains line "POINT_COUNTS".toList then strip_delimit_string line " ".toList else line
  if contains tLine1 "VT".toList then strip_delimit_string tLine1 " ".toList else tLine1

/-- A line on which the first two parts of the loop body complete: the counts
of a `POINT_COUNTS` line and the numbers of a `VT` line can be read. -/
def line_readable {R : Type} [Field R] [DecidableEq R] (stof : Str → Option R)
    (fmt : R → Str) (T : Trig R) (init : xp_vt R) (acf : xp_acf_file R) (line : Str) : Bool :=
  match read_point_counts line with
  | none => false
  | some (tLine1, _) => (read_vt stof fmt T init acf tLine1).isSome

/-- The line holds `IDX`. -/
def idx_line (line : Str) : Bool := contains line "IDX".toList

/-! ### Sample fragments -/

/-- What the stream writes for a rational number after
`fixed << setprecision (8)`: sign, integer part, point, eight fractional
digits (rounded to the nearest).  The numbers of the samples below have at
most eight fractional digits. -/
def sample_fmt (q : ℚ) : Str :=
  let n : Nat := (Rat.floor ((if q < 0 then -q else q) * 100000000 + 1 / 2)).toNat
  let fp := Nat.toDigits 10 (n % 100000000)
  (if q < 0 then ['-'] else []) ++ Nat.toDigits 10 (n / 100000000) ++
    '.' :: (List.replicate (8 - fp.length) '0' ++ fp)

/-- The values of `cos` and `sin` at the angle 0.  The samples below place
the fragment with the three angles 0, so that `transform` does not call
`rotation_transform`. -/
def zero_angle_trig : Trig ℚ := ⟨fun _ => 1, fun _ => 0⟩

/-- The storage of a vertex before its constructor runs, in the samples. -/
def sample_init : xp_vt ℚ :=
  { x := 0, y := 0, z := 0, nx := 0, ny := 0, nz := 0, u := 0, v := 0,
    psi := 0, theta := 0, phi := 0, off_x := 0, off_y := 0, off_z := 0 }

/-- A placement without rotation that moves by `(10, 20, 30)`. -/
def sample_placement : xp_acf_file ℚ :=
  { sample_acf with pObj_offset_x := 10, pObj_offset_y := 20, pObj_offset_z := 30 }

/-- A fragment object before `transform_vts`: its three vectors are empty. -/
def empty_manip : xp_manip_file :=
  { vt_count := 0, idx_count := 0, xp_vt_lines := [], xp_idx_lines := [], xp_anim_footer := [] }

/-- The lines of a small fragment file: header, one vertex, index lines in
both variants, and an indented footer. -/
def sample_manip_text : List Str :=
  [ "A".toList, "800".toList, "OBJ".toList, "".toList,
    "POINT_COUNTS\t1 0 0 3".toList,
    "VT\t1 2 3\t0 1 0\t0.5 0.25".toList,
    "IDX10 0 0 0 0 0 0 0 0 0 0".toList,
    "IDX 0".toList,
    "ANIM_begin".toList,
    "\tTRIS 0 3".toList,
    "ANIM_end".toList ]

/-- A fragment whose footer has an indented line that holds the letters
`VT` inside a longer word. -/
def vtol_manip_text : List Str :=
  [ "VT 1 2 3 0 1 0 0.5 0.25".toList,
    "IDX 0".toList,
    "\tANIM_hide 0 1 sim/cockpit/VTOL_switch".toList ]

/-- A fragment with a comment that holds the word `VT`. -/
def comment_manip_text : List Str :=
  [ "# VT lines of the wiper".toList,
    "VT 1 2 3 0 1 0 0.5 0.25".toList,
    "IDX 0".toList ]

/-! ### Notions used to state the properties of pass 1 -/

/-- The number `k` is the 1-based number of the last line of `lines` that
passes the test `p`, or 0 when no line passes it. -/
def IsLastLine (p : Str → Bool) (lines : List Str) (k : Nat) : Prop :=
  (k = 0 ∧ ∀ l ∈ lines, p l = false) ∨
  (∃ (before : List Str) (v : Str) (after : List Str),
    lines = before ++ v :: after ∧ p v = true ∧ (∀ y ∈ after, p y = false) ∧
      k = before.length + 1)

/-- A vertex whose storage holds the number 7 in every member before the
constructor runs. -/
def stale_vt : xp_vt ℚ :=
  { x := 7, y := 7, z := 7, nx := 7, ny := 7, nz := 7, u := 7, v := 7,
    psi := 7, theta := 7, phi := 7, off_x := 7, off_y := 7, off_z := 7 }

/-- The square of the length of a vector. -/
def norm_sq {R : Type} [Field R] (p : R × R × R) : R := p.1 ^ 2 + p.2.1 ^ 2 + p.2.2 ^ 2

/-- The square of the distance between two points. -/
def dist_sq {R : Type} [Field R] (p q : R × R × R) : R :=
  (p.1 - q.1) ^ 2 + (p.2.1 - q.2.1) ^ 2 + (p.2.2 - q.2.2) ^ 2

/-! ## The files on disk -/

/-- The files that can be opened, by name, each as the lines that `getline`
yields. -/
abbrev Disk := Str → Option (List Str)

/-- The lines that `getline` yields on a text: the pieces that end at a
newline, and the piece after the last newline when it is not empty. -/
def getlines : Str → List Str
  | [] => []
  | c :: cs =>
    if c = '\n' then [] :: getlines cs
    else
      match getlines cs with
      | [] => [[c]]
      | l :: ls => (c :: l) :: ls

/-- The disk after `output_file.open (path)`, `output_file << tString` for
every string of `chunks`, and `output_file.close ()`. -/
def write_file (d : Disk) (path : Str) (chunks : List Str) : Disk :=
  fun p => if p = path then some (getlines chunks.flatten) else d p

/-- A `rename` that fails when the old name does not exist or the new name
is taken, and moves the file otherwise. -/
def rename_if_free (d : Disk) (old new : Str) : Option Disk :=
  match d old, d new with
  | some content, none =>
    some (fun p => if p = new then some content else if p = old then none else d p)
  | _, _ => none

/-! ## `backup_cockpit_file` -/

/-- The text `snprintf (ext_num, 4, "%03d", i)` leaves in `ext_num`: the
decimal digits of `i`, padded with zeros to three characters, of which the
buffer keeps three. -/
def ext_num (i : Nat) : Str :=
  let ds := Nat.toDigits 10 i
  (List.replicate (3 - ds.length) '0' ++ ds).take 3

/-- The name tried in round `i`: `xp_cockpit_fName + ".SAVE" + num_ext`. -/
def new_cockpit_fName (xp_cockpit_fName : Str) (i : Nat) : Str :=
  xp_cockpit_fName ++ ".SAVE".toList ++ ext_num i

/-- The `do ... while (is_done != 0)` loop of `backup_cockpit_file`, entered
with the value `i`; `rename` gives the disk after a call that returns 0 and
`none` for a call that fails; `tried` collects the names given to `rename`.
The fuel bounds the number of rounds. -/
def backup_loop (rename : Disk → Str → Str → Option Disk) (d : Disk) (xp_cockpit_fName : Str) :
    Nat → Nat → List Str → Bool × Disk × List Str
  | 0, _, tried => (false, d, tried)
  | fuel + 1, i, tried =>
    if i + 1 > 999 then (false, d, tried)
    else
      match rename d xp_cockpit_fName (new_cockpit_fName xp_cockpit_fName (i + 1)) with
      | some d1 => (true, d1, tried ++ [new_cockpit_fName xp_cockpit_fName (i + 1)])
      | none =>
        backup_loop rename d xp_cockpit_fName fuel (i + 1)
          (tried ++ [new_cockpit_fName xp_cockpit_fName (i + 1)])

/-- `backup_cockpit_file (xp_cockpit_fName)`: the value returned, the disk
after the call and the names given to `rename`, in order.  The loop runs at
most 1000 rounds. -/
def backup_cockpit_file (rename : Disk → Str → Str → Option Disk) (d : Disk)
    (xp_cockpit_fName : Str) : Bool × Disk × List Str :=
  backup_loop rename d xp_cockpit_fName 1000 0 []

/-! ## `read_xp_cockpit_file` with its files -/

/-- The members of `xp_cockpit_file` that outlive a call. -/
structure xp_cockpit_file where
  xp_cockpit_fName : Str
  orig_vt_count : Int
  orig_tris_count : Int
  orig_vt_end_index : Nat
  orig_idx_end_index : Nat
  is_analyzed : Bool

/-- What a call of `read_xp_cockpit_file` leaves: the value returned, the
disk, the names given to `rename`, and the strings written to the target
path when `output_file` was opened. -/
structure Outcome where
  status : Int
  disk : Disk
  tried : List Str
  written : Option (List Str)

/-- The state in which the loop of `read_xp_cockpit_file` starts, given the
members after lines 557-560. -/
def loop_start (c : xp_cockpit_file) (r : Nat × Nat × Int) : CockpitState :=
  { xp_cockpit_lines := []
    orig_vt_count := r.2.2
    orig_tris_count := c.orig_tris_count
    orig_vt_end_index := r.1
    orig_idx_end_index := r.2.1
    line_num := 0
    found_vts := false
    found_idx := false
    ignoring_vt_lines := false }

/-- `xp_cockpit_file::read_xp_cockpit_file (pObj_name, manip_file, ow_flag)`
on the disk `d`; `none` when the run ends in an exception. -/
def xp_cockpit_file.read_xp_cockpit_file (rename : Disk → Str → Str → Option Disk) (d : Disk)
    (c : xp_cockpit_file) (pObj_name : Str) (m : xp_manip_file) (_ow_flag : Bool) :
    Option Outcome :=
  let analyzed : Option (Nat × Nat × Int) :=
    if c.is_analyzed then some (c.orig_vt_end_index, c.orig_idx_end_index, c.orig_vt_count)
    else
      match d c.xp_cockpit_fName with
      | some target =>
        some (analyze_xp_cockpit_file target
          (c.orig_vt_end_index, c.orig_idx_end_index, c.orig_vt_count))
      | none => none
  match analyzed with
  | none => some { status := 4, disk := d, tried := [], written := none }
  | some r =>
    match d c.xp_cockpit_fName with
    | none => some { status := 1, disk := d, tried := [], written := none }
    | some target =>
      match read_loop pObj_name m target (loop_start c r) with
      | none => none
      | some st =>
        match read_finish pObj_name m st with
        | none => none
        | some st1 =>
          match backup_cockpit_file rename d c.xp_cockpit_fName with
          | (false, d1, tried) => some { status := 2, disk := d1, tried := tried, written := none }
          | (true, d1, tried) =>
            some { status := 0
                   disk := write_file d1 c.xp_cockpit_fName st1.xp_cockpit_lines
                   tried := tried
                   written := some st1.xp_cockpit_lines }
/-! ### Notions used to state the properties of the backup -/

/-- The three decimal digits of a number below 1000, zeros included. -/
def three_digits (k : Nat) : Str :=
  [Char.ofNat (48 + k / 100), Char.ofNat (48 + k / 10 % 10), Char.ofNat (48 + k % 10)]

/-- The names `<path>.SAVEnnn` for `nnn` from `first` on, `count` of them. -/
def save_names (path : Str) (first count : Nat) : List Str :=
  (List.range' first count).map (new_cockpit_fName path)

/-- A disk that holds `cockpit.obj` and an earlier backup
`cockpit.obj.SAVE001`. -/
def backup_disk : Disk := fun p =>
  if p = "cockpit.obj".toList then some sample_target
  else if p = "cockpit.obj.SAVE001".toList then some ["old".toList]
  else none

/-- A `rename` that always fails. -/
def rename_fails (_d : Disk) (_old _new : Str) : Option Disk := none

/-- A disk that holds the target `cockpit.obj` only. -/
def cockpit_disk : Disk := fun p =>
  if p = "cockpit.obj".toList then some sample_target else none

/-- A cockpit object that has not been analyzed: `set_cockpit_fName` has
stored the name, the two indices are 0, the two counts hold 0. -/
def sample_cockpit : xp_cockpit_file :=
  { xp_cockpit_fName := "cockpit.obj".toList, orig_vt_count := 0, orig_tris_count := 0,
    orig_vt_end_index := 0, orig_idx_end_index := 0, is_analyzed := false }

/-- The members after lines 557-560, for a target that opens: those of pass
1 when the object had not been analyzed, those the object holds otherwise. -/
def analyzed_members (c : xp_cockpit_file) (target : List Str) : Nat × Nat × Int :=
  if c.is_analyzed then (c.orig_vt_end_index, c.orig_idx_end_index, c.orig_vt_count)
  else analyze_xp_cockpit_file target (c.orig_vt_end_index, c.orig_idx_end_index, c.orig_vt_count)

/-- The lines of `cockpit.obj` after `sample_fragment` has been merged into
`sample_target` under the name `wiper1`: the target of a second run. -/
def merged_sample_target : List Str :=
  [ "# KITBASH - wiper1 VTs: 4 TRIs: 2".toList,
    "POINT_COUNTS 104 0 0 52".toList,
    "VT 0 0 0 0 1 0 0 0".toList,
    "VT 1 0 0 0 1 0 1 0".toList,
    "IDX10 0 1 0 1 0 1 0 1 0 1".toList,
    "# KITBASH - wiper1 start VT section".toList,
    "VT\t0.00000000\t0.00000000\t0.00000000\t0.00000000\t1.00000000\t0.00000000\t0.00000000\t0.00000000".toList,
    "VT\t1.00000000\t0.00000000\t0.00000000\t0.00000000\t1.00000000\t0.00000000\t1.00000000\t0.00000000".toList,
    "VT\t1.00000000\t0.00000000\t1.00000000\t0.00000000\t1.00000000\t0.00000000\t1.00000000\t1.00000000".toList,
    "VT\t0.00000000\t0.00000000\t1.00000000\t0.00000000\t1.00000000\t0.00000000\t0.00000000\t1.00000000".toList,
    "# KITBASH - wiper1 end VT section".toList,
    "IDX 1".toList,
    "# KITBASH - wiper1 start IDX section".toList,
    "IDX 100".toList,
    "IDX 103".toList,
    "# KITBASH - wiper1 end IDX section".toList,
    "TRIS 0 50".toList,
    "# KITBASH - wiper1 start ANIM section".toList,
    "ANIM_begin".toList,
    "TRIS 50 2".toList,
    "ANIM_end".toList,
    "# KITBASH - wiper1 end ANIM section".toList,
    "# KITBASH 2.0 by Jemma Studios.  Donations are motivation. https://paypal.me/JemmaStudios".toList ]

/-- A disk whose `cockpit.obj` holds the merged target. -/
def merged_disk : Disk := fun p =>
  if p = "cockpit.obj".toList then some merged_sample_target else none

/-! ### The form of the markers -/

/-- A marker line as the source writes it: `# KITBASH - `, the name, the word
`start` or `end`, the section name, the word `section`, and a newline. -/
def section_marker (pObj_name : Str) (word section_name : String) : Str :=
  "# KITBASH - ".toList ++ pObj_name ++ " ".toList ++ word.toList ++ " ".toList ++
    section_name.toList ++ " section\n".toList

/-- A marker line in the form `# KITBASH - <name> <section> <start|end>`:
the name, then the section name, then the word `start` or `end`. -/
def section_first_marker (pObj_name : Str) (section_name word : String) : Str :=
  "# KITBASH - ".toList ++ pObj_name ++ " ".toList ++ section_name.toList ++ " ".toList ++
    word.toList ++ "\n".toList

/-! ### Notions used to state the properties of a repeated merge -/

/-- The summary comment without its newline. -/
def summary_text (pObj_name : Str) (m : xp_manip_file) : Str :=
  "# KITBASH - ".toList ++ pObj_name ++ " VTs: ".toList ++ showInt m.vt_count
    ++ " TRIs: ".toList ++ showInt m.idx_count

/-- The attribution without its newline. -/
def attribution_text : Str :=
  "# KITBASH 2.0 by Jemma Studios.  Donations are motivation. https://paypal.me/JemmaStudios".toList

/-- The text holds no newline: `getline` yields it as one line. -/
def OneLine (l : Str) : Prop := '\n' ∉ l

instance (l : Str) : Decidable (OneLine l) := by
  unfold OneLine; infer_instance

/-- The vertex lines of `sample_fragment` without their newline. -/
def sample_vt_texts : List Str :=
  [ "VT\t0.00000000\t0.00000000\t0.00000000\t0.00000000\t1.00000000\t0.00000000\t0.00000000\t0.00000000".toList,
    "VT\t1.00000000\t0.00000000\t0.00000000\t0.00000000\t1.00000000\t0.00000000\t1.00000000\t0.00000000".toList,
    "VT\t1.00000000\t0.00000000\t1.00000000\t0.00000000\t1.00000000\t0.00000000\t1.00000000\t1.00000000".toList,
    "VT\t0.00000000\t0.00000000\t1.00000000\t0.00000000\t1.00000000\t0.00000000\t0.00000000\t1.00000000".toList ]

/-! ### Notions used to state the properties of `split_string` and `trim` -/

/-- The pieces put together again with the delimiter between them. -/
def join_pieces (delimeter : Str) : List Str → Str
  | [] => []
  | [p] => p
  | p :: q :: ps => p ++ delimeter ++ join_pieces delimeter (q :: ps)

/-- The characters that the claim about `trim` calls white space. -/
def trim_chars : List Char := [' ', '\t', '\n', '\x0b', '\x0c', '\r', '\x00']

/-! ## Decimal rendering and `stoi` -/

theorem digitChar_val (r : Nat) (h : r < 10) :
    (Nat.digitChar r).toNat - 48 = r ∧ (Nat.digitChar r).isDigit = true
      ∧ isSpace (Nat.digitChar r) = false ∧ Nat.digitChar r ≠ '-' ∧ Nat.digitChar r ≠ '+' := by
  interval_cases r <;> decide

theorem toDigitsCore_acc (fuel : Nat) : ∀ (n : Nat) (acc : List Char),
    Nat.toDigitsCore 10 fuel n acc = Nat.toDigitsCore 10 fuel n [] ++ acc := by
  induction fuel with
  | zero => intro n acc; simp [Nat.toDigitsCore]
  | succ fuel ih =>
    intro n acc
    simp only [Nat.toDigitsCore]
    by_cases h : n / 10 = 0
    · simp [h]
    · simp only [h, if_false]
      rw [ih (n / 10) (Nat.digitChar (n % 10) :: acc), ih (n / 10) [Nat.digitChar (n % 10)]]
      simp

theorem digitsValue_append (xs : List Char) (d : Char) :
    digitsValue (xs ++ [d]) = 10 * digitsValue xs + (d.toNat - 48) := by
  simp only [digitsValue, List.foldl_append, List.foldl_cons, List.foldl_nil]

theorem toDigitsCore_spec (fuel : Nat) : ∀ n : Nat, n < fuel →
    digitsValue (Nat.toDigitsCore 10 fuel n []) = n
      ∧ (∀ c ∈ Nat.toDigitsCore 10 fuel n [], c.isDigit = true)
      ∧ Nat.toDigitsCore 10 fuel n [] ≠ [] := by
  induction fuel with
  | zero => intro n h; omega
  | succ fuel ih =>
    intro n h
    have hd := digitChar_val (n % 10) (Nat.mod_lt _ (by decide))
    simp only [Nat.toDigitsCore]
    by_cases h0 : n / 10 = 0
    · simp only [h0, if_true]
      refine ⟨?_, ?_, by simp⟩
      · have e := digitsValue_append [] (Nat.digitChar (n % 10))
        simp only [List.nil_append] at e
        rw [e, hd.1]
        simp only [digitsValue, List.foldl_nil]
        omega
      · intro c hc; simp at hc; subst hc; exact hd.2.1
    · simp only [h0, if_false]
      rw [toDigitsCore_acc]
      obtain ⟨i1, i2, _⟩ := ih (n / 10) (by omega)
      refine ⟨?_, ?_, by simp⟩
      · rw [digitsValue_append, i1, hd.1]; omega
      · intro c hc
        rcases List.mem_append.mp hc with hc | hc
        · exact i2 c hc
        · simp at hc; subst hc; exact hd.2.1

theorem toDigits_spec (n : Nat) :
    digitsValue (Nat.toDigits 10 n) = n ∧ (∀ c ∈ Nat.toDigits 10 n, c.isDigit = true)
      ∧ Nat.toDigits 10 n ≠ [] :=
  toDigitsCore_spec (n + 1) n (Nat.lt_succ_self n)

theorem takeWhile_all {p : Char → Bool} (xs : List Char) (h : ∀ c ∈ xs, p c = true) :
    xs.takeWhile p = xs := by
  induction xs with
  | nil => rfl
  | cons x xs ih =>
    simp only [List.takeWhile, h x (List.mem_cons_self _ _)]
    rw [ih (fun c hc => h c (List.mem_cons_of_mem _ hc))]

theorem isDigit_facts (c : Char) (h : c.isDigit = true) :
    isSpace c = false ∧ c ≠ '-' ∧ c ≠ '+' := by
  refine ⟨?_, ?_, ?_⟩
  · cases hs : isSpace c with
    | false => rfl
    | true =>
      simp only [isSpace, Bool.or_eq_true, beq_iff_eq] at hs
      rcases hs with ((((rfl | rfl) | rfl) | rfl) | rfl) | rfl <;> exact absurd h (by decide)
  · rintro rfl; exact absurd h (by decide)
  · rintro rfl; exact absurd h (by decide)

theorem stoi_showInt (k : Int) (h1 : -2147483648 ≤ k) (h2 : k ≤ 2147483647) :
    stoi (showInt k) = some k := by
  by_cases hk : k < 0
  · obtain ⟨v, hds, hne⟩ := toDigits_spec k.natAbs
    have e : showInt k = '-' :: Nat.toDigits 10 k.natAbs := by simp [showInt, hk]
    have hv : (digitsValue (Nat.toDigits 10 k.natAbs) : Int) = -k := by rw [v]; omega
    rw [e]
    simp only [stoi, stoi_digits, List.dropWhile, show isSpace '-' = false by decide,
      List.head?_cons, List.tail_cons, beq_self_eq_true, Bool.true_or, if_true,
      takeWhile_all _ hds]
    cases hd : Nat.toDigits 10 k.natAbs with
    | nil => exact absurd hd hne
    | cons d ds =>
      rw [hd] at hv
      simp only [List.isEmpty_cons, Bool.false_eq_true, if_false, hv]
      simp only [neg_neg, h1, h2, and_self, if_true]
  · obtain ⟨v, hds, hne⟩ := toDigits_spec k.toNat
    have e : showInt k = Nat.toDigits 10 k.toNat := by simp [showInt, hk]
    have hv : (digitsValue (Nat.toDigits 10 k.toNat) : Int) = k := by rw [v]; omega
    rw [e]
    cases hd : Nat.toDigits 10 k.toNat with
    | nil => exact absurd hd hne
    | cons d ds =>
      rw [hd] at hv hds
      have hdd := isDigit_facts d (hds d (List.mem_cons_self _ _))
      have hm : (some d == some '-') = false := by simpa using hdd.2.1
      have hp : (some d == some '+') = false := by simpa using hdd.2.2
      simp only [stoi, stoi_digits, List.dropWhile, hdd.1, List.head?_cons, hm, hp,
        Bool.or_self, Bool.false_eq_true, if_false, takeWhile_all _ hds, List.isEmpty_cons, hv]
      simp only [h1, h2, and_self, if_true]

/-! ## What `trim` returns -/

theorem trimFront_eq (s : Str) : ∀ a : Nat,
    trimFront s a = a + (s.takeWhile isTrimChar).length := by
  induction s with
  | nil => intro a; simp [trimFront]
  | cons c cs ih =>
    intro a
    by_cases h : isTrimChar c = true
    · simp only [trimFront, h, if_true, List.takeWhile_cons_of_pos, List.length_cons, ih]
      omega
    · simp [trimFront, h]

theorem trimBack_stop (s : Str) (a b : Int) (fuel : Nat)
    (h : ¬ (b > a ∧ isTrimChar (s.getD b.toNat ' ') = true)) :
    trimBack s a fuel b = b := by
  cases fuel with
  | zero => rfl
  | succ f => simp only [trimBack, h, if_false]

theorem trimBack_run (s : Str) (a : Int) (e : Nat) (he : a < (e : Int)) (he1 : 1 ≤ e)
    (hstop : isTrimChar (s.getD (e - 1) ' ') = false) :
    ∀ (j fuel : Nat), j ≤ fuel →
      (∀ i, e ≤ i → i < e + j → isTrimChar (s.getD i ' ') = true) →
      trimBack s a fuel (((e + j : Nat) : Int) - 1) = (e : Int) - 1 := by
  intro j
  induction j with
  | zero =>
    intro fuel _ _
    apply trimBack_stop
    rintro ⟨_, h2⟩
    have : ((((e + 0 : Nat) : Int) - 1).toNat) = e - 1 := by omega
    rw [this, hstop] at h2
    exact absurd h2 (by decide)
  | succ j ih =>
    intro fuel hf hrun
    cases fuel with
    | zero => omega
    | succ f =>
      have hidx : ((((e + (j + 1) : Nat) : Int) - 1).toNat) = e + j := by omega
      have hc : (((e + (j + 1) : Nat) : Int) - 1 > a) ∧
          isTrimChar (s.getD (((e + (j + 1) : Nat) : Int) - 1).toNat ' ') = true := by
        refine ⟨by omega, ?_⟩
        rw [hidx]
        exact hrun (e + j) (by omega) (by omega)
      simp only [trimBack, hc, and_self, if_true]
      have e2 : ((e + (j + 1) : Nat) : Int) - 1 - 1 = ((e + j : Nat) : Int) - 1 := by omega
      rw [e2]
      exact ih f (by omega) (fun i h1 h2 => hrun i h1 (by omega))

theorem trim_all_trim (s : Str) (h : ∀ c ∈ s, isTrimChar c = true) : trim s = [] := by
  have ha : trimFront s 0 = s.length := by
    rw [trimFront_eq, List.takeWhile_eq_self_iff.mpr h]
    omega
  unfold trim
  simp only [ha]
  rw [trimBack_stop s _ _ _ (by rintro ⟨h1, _⟩; omega)]
  have : (1 + ((s.length : Int) - 1) - (s.length : Int)).toNat = 0 := by omega
  rw [this]
  simp

theorem trim_of_parts (w1 ys : Str) (c : Char) (w2 : Str)
    (h1 : ∀ x ∈ w1, isTrimChar x = true) (h2 : ∀ x ∈ w2, isTrimChar x = true)
    (hhead : (ys ++ [c]).head?.map isTrimChar = some false)
    (hc : isTrimChar c = false) :
    trim (w1 ++ (ys ++ [c]) ++ w2) = ys ++ [c] := by
  have ha : trimFront (w1 ++ (ys ++ [c]) ++ w2) 0 = w1.length := by
    rw [trimFront_eq]
    obtain ⟨d, ds, hd⟩ : ∃ d ds, ys ++ [c] = d :: ds := by
      cases ys with
      | nil => exact ⟨c, [], rfl⟩
      | cons y ys => exact ⟨y, ys ++ [c], rfl⟩
    rw [hd] at hhead ⊢
    simp only [List.head?_cons, Option.map_some', Option.some.injEq] at hhead
    rw [List.append_assoc, List.takeWhile_append_of_pos h1]
    simp [hhead]
  have hlen : (w1 ++ (ys ++ [c]) ++ w2).length = (w1.length + ys.length + 1) + w2.length := by
    simp; omega
  have hb : trimBack (w1 ++ (ys ++ [c]) ++ w2) (w1.length : Int)
      (w1 ++ (ys ++ [c]) ++ w2).length (((w1 ++ (ys ++ [c]) ++ w2).length : Int) - 1)
      = ((w1.length + ys.length + 1 : Nat) : Int) - 1 := by
    rw [hlen]
    apply trimBack_run _ _ (w1.length + ys.length + 1) (by omega) (by omega) _ w2.length _
      (by omega)
    · intro i hi1 hi2
      rw [List.getD_append_right _ _ _ _ (by simp; omega)]
      have hlt : i - (w1 ++ (ys ++ [c])).length < w2.length := by simp; omega
      rw [List.getD_eq_getElem _ _ hlt]
      exact h2 _ (List.getElem_mem _)
    · have e1 : w1.length + ys.length + 1 - 1 = w1.length + ys.length := by omega
      rw [e1, List.append_assoc, List.getD_append_right _ _ _ _ (by omega)]
      have e2 : w1.length + ys.length - w1.length = ys.length := by omega
      rw [e2, List.append_assoc, List.getD_append_right _ _ _ _ (by omega)]
      simp [hc]
  unfold trim
  simp only [ha, hb]
  have e3 : (1 + (((w1.length + ys.length + 1 : Nat) : Int) - 1) - (w1.length : Int)).toNat
      = ys.length + 1 := by omega
  rw [e3, List.append_assoc, List.drop_left]
  have e4 : ys.length + 1 = (ys ++ [c]).length := by simp
  rw [e4, List.take_left]

/-- `trim` removes the leading and the trailing run of white space (and NUL). -/
theorem trim_eq (s : Str) :
    trim s = (s.dropWhile isTrimChar).rdropWhile isTrimChar := by
  have hs : s = s.takeWhile isTrimChar ++ s.dropWhile isTrimChar :=
    (List.takeWhile_append_dropWhile _ _).symm
  generalize hd : s.dropWhile isTrimChar = d at hs
  have hsplit : d = d.rdropWhile isTrimChar ++ d.rtakeWhile isTrimChar := by
    simp only [List.rdropWhile, List.rtakeWhile, ← List.reverse_append,
      List.takeWhile_append_dropWhile, List.reverse_reverse]
  by_cases hy : d.rdropWhile isTrimChar = []
  · rw [hy]
    apply trim_all_trim
    have hall := List.rdropWhile_eq_nil_iff.mp hy
    intro c hc
    rw [hs] at hc
    rcases List.mem_append.mp hc with hc | hc
    · exact List.mem_takeWhile_imp hc
    · exact hall c hc
  · obtain ⟨ys, c, hyc⟩ : ∃ ys c, d.rdropWhile isTrimChar = ys ++ [c] :=
      ⟨_, _, (List.dropLast_append_getLast hy).symm⟩
    have hlast : isTrimChar c = false := by
      have := List.rdropWhile_last_not isTrimChar d hy
      simp only [hyc, List.getLast_append_singleton] at this
      simpa using this
    have hdne : d ≠ [] := by
      rintro rfl
      simp at hy
    have hhead : (ys ++ [c]).head?.map isTrimChar = some false := by
      have h0 := List.head_dropWhile_not isTrimChar s (by rw [hd]; exact hdne)
      have h1 : d.head? = (ys ++ [c]).head? := by
        conv_lhs => rw [hsplit, hyc]
        cases ys <;> simp
      rw [← h1]
      have h2 : d.head? = some (d.head hdne) := List.head?_eq_head hdne
      rw [h2]
      simp only [Option.map_some', Option.some.injEq]
      have h3 : (List.dropWhile isTrimChar s).head (by rw [hd]; exact hdne) = d.head hdne := by
        subst hd; rfl
      rw [← h3]
      simpa using h0
    rw [hyc]
    conv_lhs => rw [hs, hsplit, hyc, ← List.append_assoc]
    exact trim_of_parts _ ys c _ (fun x hx => List.mem_takeWhile_imp hx)
      (fun x hx => List.mem_rtakeWhile_imp hx) hhead hlast

/-! ## Tokens: white-space runs, `find` and `split_string` on single spaces -/

theorem isTrimChar_of_isSpace (c : Char) (h : isSpace c = true) : isTrimChar c = true := by
  simp only [isSpace, Bool.or_eq_true, beq_iff_eq] at h
  simp only [isTrimChar, Bool.or_eq_true, beq_iff_eq]
  exact Or.inl h

theorem isSpace_of_not_trim (c : Char) (h : isTrimChar c = false) : isSpace c = false := by
  cases hs : isSpace c with
  | false => rfl
  | true => rw [isTrimChar_of_isSpace c hs] at h; exact absurd h (by decide)

theorem regex_word (d : Str) (rest : Str) (w : Str) (hw : IsWord w) :
    ∀ b, regex_replace_ws d b (w ++ rest) = w ++ regex_replace_ws d false rest := by
  obtain ⟨hne, hns⟩ := hw
  induction w with
  | nil => exact absurd rfl hne
  | cons c w ih =>
    intro b
    have hc : isSpace c = false := hns c (List.mem_cons_self _ _)
    simp only [List.cons_append, regex_replace_ws, hc, Bool.false_eq_true, if_false,
      List.cons.injEq, true_and]
    cases w with
    | nil => rfl
    | cons c2 w2 =>
      exact ih (by simp) (fun x hx => hns x (List.mem_cons_of_mem _ hx)) false

theorem regex_flag (d : Str) (c : Char) (cs : Str) (hc : isSpace c = false) (b : Bool) :
    regex_replace_ws d b (c :: cs) = regex_replace_ws d false (c :: cs) := by
  simp only [regex_replace_ws, hc, Bool.false_eq_true, if_false]

theorem regex_spaces_true (d : Str) (rest : Str) (sp : Str)
    (hsp : ∀ c ∈ sp, isSpace c = true) :
    regex_replace_ws d true (sp ++ rest) = regex_replace_ws d true rest := by
  induction sp with
  | nil => rfl
  | cons c sp ih =>
    simp only [List.cons_append, regex_replace_ws, hsp c (List.mem_cons_self _ _), if_true,
      List.append_eq]
    exact ih (fun x hx => hsp x (List.mem_cons_of_mem _ hx))

theorem regex_spaces (d : Str) (rest : Str) (c : Char) (sp : Str)
    (hc : isSpace c = true) (hsp : ∀ x ∈ sp, isSpace x = true) :
    regex_replace_ws d false (c :: (sp ++ rest)) = d ++ regex_replace_ws d true rest := by
  simp only [regex_replace_ws, hc, if_true, Bool.false_eq_true, if_false]
  rw [regex_spaces_true d rest sp hsp]

theorem join_tokens_cons_cons (w w2 : Str) (ws : List Str) :
    join_tokens (w :: w2 :: ws) = w ++ ' ' :: join_tokens (w2 :: ws) := by
  simp [join_tokens]

theorem join_tokens_singleton (w : Str) : join_tokens [w] = w := by
  simp [join_tokens]

theorem regex_join_tokens (ws : List Str) : ∀ w : Str, (∀ x ∈ w :: ws, IsWord x) →
    regex_replace_ws " ".toList false (join_tokens (w :: ws)) = join_tokens (w :: ws) := by
  induction ws with
  | nil =>
    intro w h
    have := regex_word " ".toList [] w (h w (List.mem_cons_self _ _)) false
    simpa [join_tokens_singleton, regex_replace_ws] using this
  | cons w2 ws ih =>
    intro w h
    have hw2 : IsWord w2 := h w2 (by simp)
    rw [join_tokens_cons_cons, regex_word _ _ w (h w (List.mem_cons_self _ _)) false]
    have e : regex_replace_ws " ".toList false (' ' :: join_tokens (w2 :: ws))
        = ' ' :: regex_replace_ws " ".toList true (join_tokens (w2 :: ws)) := by
      simp [regex_replace_ws, isSpace]
    rw [e]
    obtain ⟨c, cs, hj⟩ : ∃ c cs, join_tokens (w2 :: ws) = c :: cs ∧ isSpace c = false := by
      obtain ⟨hne, hns⟩ := hw2
      cases w2 with
      | nil => exact absurd rfl hne
      | cons c cs =>
        refine ⟨c, cs ++ (ws.map (fun x => ' ' :: x)).flatten, ?_, hns c (List.mem_cons_self _ _)⟩
        simp [join_tokens]
    rw [hj.1, regex_flag _ c cs hj.2 true, ← hj.1,
      ih w2 (fun x hx => h x (List.mem_cons_of_mem _ hx))]

theorem find_space_none (w : Str) (h : ∀ c ∈ w, c ≠ ' ') : find w " ".toList = none := by
  induction w with
  | nil => rfl
  | cons c w ih =>
    have hc : (' ' == c) = false := by
      have := h c (List.mem_cons_self _ _)
      simpa using fun e => this e.symm
    have hp : List.isPrefixOf " ".toList (c :: w) = false := by
      show List.isPrefixOf [' '] (c :: w) = false
      simp [List.isPrefixOf, hc]
    simp only [find, hp, Bool.false_eq_true, if_false,
      ih (fun x hx => h x (List.mem_cons_of_mem _ hx)), Option.map_none']

theorem find_space_some (w rest : Str) (h : ∀ c ∈ w, c ≠ ' ') :
    find (w ++ ' ' :: rest) " ".toList = some w.length := by
  induction w with
  | nil =>
    show find (' ' :: rest) [' '] = some 0
    simp [find, List.isPrefixOf]
  | cons c w ih =>
    have hc : (' ' == c) = false := by
      have := h c (List.mem_cons_self _ _)
      simpa using fun e => this e.symm
    have hp : List.isPrefixOf " ".toList (c :: (w ++ ' ' :: rest)) = false := by
      show List.isPrefixOf [' '] (c :: (w ++ ' ' :: rest)) = false
      simp [List.isPrefixOf, hc]
    simp only [List.cons_append, find, List.append_eq, hp, Bool.false_eq_true, if_false,
      ih (fun x hx => h x (List.mem_cons_of_mem _ hx)), Option.map_some', List.length_cons]

theorem split_join_loop (ws : List Str) : ∀ (w : Str) (fuel : Nat), ws.length + 1 ≤ fuel →
    (∀ x ∈ w :: ws, ∀ c ∈ x, c ≠ ' ') →
    split_string_loop " ".toList fuel (join_tokens (w :: ws)) = w :: ws := by
  induction ws with
  | nil =>
    intro w fuel hf h
    cases fuel with
    | zero => simp [split_string_loop, join_tokens_singleton]
    | succ f =>
      simp only [split_string_loop, join_tokens_singleton,
        find_space_none w (h w (List.mem_cons_self _ _))]
  | cons w2 ws ih =>
    intro w fuel hf h
    cases fuel with
    | zero => simp at hf
    | succ f =>
      rw [join_tokens_cons_cons]
      simp only [split_string_loop, find_space_some w _ (h w (List.mem_cons_self _ _))]
      have hd : List.drop (w.length + " ".toList.length) (w ++ ' ' :: join_tokens (w2 :: ws))
          = join_tokens (w2 :: ws) := by
        show List.drop (w.length + 1) (w ++ ' ' :: join_tokens (w2 :: ws)) = _
        rw [← List.drop_drop, List.drop_left]
        rfl
      rw [hd, List.take_left, ih w2 f (by simp at hf; omega)
        (fun x hx => h x (List.mem_cons_of_mem _ hx))]

theorem join_tokens_length (ws : List Str) : ∀ w : Str,
    ws.length ≤ (join_tokens (w :: ws)).length := by
  induction ws with
  | nil => intro w; simp
  | cons w2 ws ih =>
    intro w
    rw [join_tokens_cons_cons]
    have := ih w2
    simp only [List.length_append, List.length_cons] at this ⊢
    omega

theorem split_join_tokens (w : Str) (ws : List Str) (h : ∀ x ∈ w :: ws, ∀ c ∈ x, c ≠ ' ') :
    split_string (join_tokens (w :: ws)) " ".toList = w :: ws := by
  unfold split_string
  exact split_join_loop ws w _ (by have := join_tokens_length ws w; omega) h

/-! ## Every normalized line is a list of words -/

theorem regex_words : ∀ (n : Nat) (y : Str), y.length ≤ n →
    y.head?.map isSpace = some false → y.getLast?.map isSpace = some false →
    ∃ (w : Str) (ws : List Str),
      regex_replace_ws " ".toList false y = join_tokens (w :: ws) ∧
      (∀ x ∈ w :: ws, IsWord x) ∧
      (join_tokens (w :: ws)).head? = y.head? ∧
      (join_tokens (w :: ws)).getLast? = y.getLast? := by
  intro n
  induction n with
  | zero =>
    intro y hlen hh _
    have : y = [] := List.length_eq_zero.mp (by omega)
    subst this
    simp at hh
  | succ n ih =>
    intro y hlen hh hl
    have hsplit : y = y.takeWhile (fun c => !isSpace c) ++ y.dropWhile (fun c => !isSpace c) :=
      (List.takeWhile_append_dropWhile _ _).symm
    generalize hw : y.takeWhile (fun c => !isSpace c) = w at hsplit
    generalize hr : y.dropWhile (fun c => !isSpace c) = rest at hsplit
    have hword : IsWord w := by
      constructor
      · rintro rfl
        cases y with
        | nil => simp at hh
        | cons c cs =>
          simp only [List.head?_cons, Option.map_some', Option.some.injEq] at hh
          simp [List.takeWhile, hh] at hw
      · intro c hc
        rw [← hw] at hc
        have := List.mem_takeWhile_imp hc
        simpa using this
    cases rest with
    | nil =>
      refine ⟨w, [], ?_, ?_, ?_, ?_⟩
      · rw [hsplit, regex_word _ _ w hword false]
        simp [regex_replace_ws, join_tokens_singleton]
      · intro x hx
        simp at hx
        rw [hx]; exact hword
      · rw [join_tokens_singleton, hsplit]; simp
      · rw [join_tokens_singleton, hsplit]; simp
    | cons c r =>
      have hc : isSpace c = true := by
        have h0 := List.head_dropWhile_not (fun c => !isSpace c) y (by rw [hr]; simp)
        have h1 : (List.dropWhile (fun c => !isSpace c) y).head (by rw [hr]; simp) = c := by
          simp [hr]
        rw [h1] at h0
        simpa using h0
      have hr2 : r = r.takeWhile isSpace ++ r.dropWhile isSpace :=
        (List.takeWhile_append_dropWhile _ _).symm
      generalize hsp : r.takeWhile isSpace = sp at hr2
      generalize hy2 : r.dropWhile isSpace = y2 at hr2
      have hspall : ∀ x ∈ sp, isSpace x = true := by
        intro x hx
        rw [← hsp] at hx
        exact List.mem_takeWhile_imp hx
      have hy2ne : y2 ≠ [] := by
        rintro rfl
        rw [hsplit, hr2] at hl
        simp only [List.append_nil] at hl
        have e : w ++ c :: sp = (w ++ (c :: sp).dropLast) ++ [(c :: sp).getLast (by simp)] := by
          rw [List.append_assoc, List.dropLast_append_getLast]
        rw [e, List.getLast?_concat] at hl
        simp only [Option.map_some', Option.some.injEq] at hl
        have hmem : (c :: sp).getLast (by simp) ∈ c :: sp := List.getLast_mem _
        rcases List.mem_cons.mp hmem with h1 | h1
        · rw [h1, hc] at hl; exact absurd hl (by decide)
        · rw [hspall _ h1] at hl; exact absurd hl (by decide)
      have hy2h : y2.head?.map isSpace = some false := by
        have h0 := List.head_dropWhile_not isSpace r (by rw [hy2]; exact hy2ne)
        have h1 : (List.dropWhile isSpace r).head (by rw [hy2]; exact hy2ne) = y2.head hy2ne := by
          subst hy2; rfl
        rw [h1] at h0
        rw [List.head?_eq_head hy2ne]
        simpa using h0
      have hy2l : y2.getLast? = y.getLast? := by
        rw [hsplit, hr2]
        have hsome : ∃ a, y2.getLast? = some a :=
          ⟨_, List.getLast?_eq_getLast y2 hy2ne⟩
        obtain ⟨a, ha⟩ := hsome
        have e : w ++ c :: (sp ++ y2) = (w ++ c :: sp) ++ y2 := by simp
        rw [e, List.getLast?_append, ha]
        rfl
      have hlen2 : y2.length ≤ n := by
        have := congrArg List.length hsplit
        have h2 := congrArg List.length hr2
        simp only [List.length_append, List.length_cons] at this h2
        obtain ⟨hne, _⟩ := hword
        have : 0 < w.length := List.length_pos.mpr hne
        omega
      obtain ⟨w2, ws2, e1, e2, e3, e4⟩ := ih y2 hlen2 hy2h (by rw [hy2l]; exact hl)
      refine ⟨w, w2 :: ws2, ?_, ?_, ?_, ?_⟩
      · obtain ⟨d, ds, hd⟩ : ∃ d ds, y2 = d :: ds := by
          cases y2 with
          | nil => exact absurd rfl hy2ne
          | cons d ds => exact ⟨d, ds, rfl⟩
        have hdns : isSpace d = false := by
          rw [hd] at hy2h
          simpa using hy2h
        rw [hsplit, hr2, regex_word _ _ w hword false, regex_spaces _ y2 c sp hc hspall,
          hd, regex_flag _ d ds hdns true, ← hd, e1, join_tokens_cons_cons]
        rfl
      · intro x hx
        rcases List.mem_cons.mp hx with rfl | hx
        · exact hword
        · exact e2 x hx
      · rw [join_tokens_cons_cons, hsplit]
        obtain ⟨hne, _⟩ := hword
        cases w with
        | nil => exact absurd rfl hne
        | cons a as => simp
      · rw [join_tokens_cons_cons, ← hy2l, ← e4]
        have hsome : ∃ a, (join_tokens (w2 :: ws2)).getLast? = some a := by
          rw [e4]
          exact ⟨_, List.getLast?_eq_getLast y2 hy2ne⟩
        obtain ⟨a, ha⟩ := hsome
        have e : w ++ ' ' :: join_tokens (w2 :: ws2) = (w ++ [' ']) ++ join_tokens (w2 :: ws2) := by
          simp
        rw [e, List.getLast?_append, ha]
        rfl

/-! ## Tokens of a line written by the streams -/

theorem trim_tight (s : Str) : trim s = [] ∨ Tight (trim s) := by
  rw [trim_eq]
  generalize hd : s.dropWhile isTrimChar = d
  by_cases hy : d.rdropWhile isTrimChar = []
  · exact Or.inl hy
  · right
    have hsplit : d = d.rdropWhile isTrimChar ++ d.rtakeWhile isTrimChar := by
      simp only [List.rdropWhile, List.rtakeWhile, ← List.reverse_append,
        List.takeWhile_append_dropWhile, List.reverse_reverse]
    have hdne : d ≠ [] := by
      rintro rfl
      simp at hy
    constructor
    · have h1 : d.head? = (d.rdropWhile isTrimChar).head? := by
        conv_lhs => rw [hsplit]
        rw [List.head?_append_of_ne_nil _ hy]
      rw [← h1, List.head?_eq_head hdne]
      simp only [Option.map_some', Option.some.injEq]
      have h0 := List.head_dropWhile_not isTrimChar s (by rw [hd]; exact hdne)
      have h3 : (List.dropWhile isTrimChar s).head (by rw [hd]; exact hdne) = d.head hdne := by
        subst hd; rfl
      rw [h3] at h0
      simpa using h0
    · rw [List.getLast?_eq_getLast _ hy]
      simp only [Option.map_some', Option.some.injEq]
      have := List.rdropWhile_last_not isTrimChar d hy
      simpa using this

theorem head?_join_tokens (w : Str) (ws : List Str) (hw : w ≠ []) :
    (join_tokens (w :: ws)).head? = w.head? := by
  cases w with
  | nil => exact absurd rfl hw
  | cons c cs => simp [join_tokens]

theorem getLast?_join_tokens (ws : List Str) : ∀ (w x : Str) (xs : List Str),
    ws = xs ++ [x] → x ≠ [] → (join_tokens (w :: ws)).getLast? = x.getLast? := by
  induction ws with
  | nil => intro w x xs h _; simp at h
  | cons w2 ws ih =>
    intro w x xs h hx
    rw [join_tokens_cons_cons]
    have hne : join_tokens (w2 :: ws) ≠ [] := by
      cases xs with
      | nil =>
        simp only [List.nil_append, List.cons.injEq] at h
        rw [h.1, h.2, join_tokens_singleton]
        exact hx
      | cons y ys =>
        simp only [List.cons_append, List.cons.injEq] at h
        have := ih w2 x ys h.2 hx
        intro hnil
        rw [hnil] at this
        simp only [List.getLast?_nil] at this
        exact hx (List.getLast?_eq_none_iff.mp this.symm)
    have e : w ++ ' ' :: join_tokens (w2 :: ws) = (w ++ [' ']) ++ join_tokens (w2 :: ws) := by
      simp
    obtain ⟨a, ha⟩ : ∃ a, (join_tokens (w2 :: ws)).getLast? = some a :=
      ⟨_, List.getLast?_eq_getLast _ hne⟩
    have step : (w ++ ' ' :: join_tokens (w2 :: ws)).getLast?
        = (join_tokens (w2 :: ws)).getLast? := by
      rw [e, List.getLast?_append, ha]
      rfl
    rw [step]
    cases xs with
    | nil =>
      simp only [List.nil_append, List.cons.injEq] at h
      rw [h.1, h.2, join_tokens_singleton]
    | cons y ys =>
      simp only [List.cons_append, List.cons.injEq] at h
      exact ih w2 x ys h.2 hx

theorem not_space_of_word (w : Str) (h : IsWord w) : ∀ c ∈ w, c ≠ ' ' := by
  intro c hc hsp
  have := h.2 c hc
  rw [hsp] at this
  exact absurd this (by decide)

theorem line_tokens_words (l : Str) :
    line_tokens l = [[]] ∨
      ∃ (w : Str) (ws : List Str), line_tokens l = w :: ws ∧ (∀ x ∈ w :: ws, IsWord x) ∧
        Tight (join_tokens (w :: ws)) := by
  unfold line_tokens strip_delimit_string
  rcases trim_tight l with h | h
  · left
    rw [h]
    decide
  · right
    obtain ⟨hh, hl⟩ := h
    have hh2 : (trim l).head?.map isSpace = some false := by
      cases hc : (trim l).head? with
      | none => rw [hc] at hh; simp at hh
      | some c =>
        rw [hc] at hh
        simp only [Option.map_some', Option.some.injEq] at hh ⊢
        exact isSpace_of_not_trim c hh
    have hl2 : (trim l).getLast?.map isSpace = some false := by
      cases hc : (trim l).getLast? with
      | none => rw [hc] at hl; simp at hl
      | some c =>
        rw [hc] at hl
        simp only [Option.map_some', Option.some.injEq] at hl ⊢
        exact isSpace_of_not_trim c hl
    obtain ⟨w, ws, e1, e2, e3, e4⟩ := regex_words _ (trim l) (le_refl _) hh2 hl2
    refine ⟨w, ws, ?_, e2, ?_⟩
    · rw [e1]
      exact split_join_tokens w ws (fun x hx => not_space_of_word x (e2 x hx))
    · exact ⟨by rw [e3]; exact hh, by rw [e4]; exact hl⟩

theorem line_tokens_join (w : Str) (ws : List Str) (hw : ∀ x ∈ w :: ws, IsWord x)
    (ht : Tight (join_tokens (w :: ws))) :
    line_tokens (join_tokens (w :: ws) ++ "\n".toList) = w :: ws := by
  obtain ⟨hh, hl⟩ := ht
  have hne : join_tokens (w :: ws) ≠ [] := by
    intro h
    rw [h] at hh
    simp at hh
  obtain ⟨ys, c, hyc⟩ : ∃ ys c, join_tokens (w :: ws) = ys ++ [c] :=
    ⟨_, _, (List.dropLast_append_getLast hne).symm⟩
  have hc : isTrimChar c = false := by
    rw [hyc, List.getLast?_concat] at hl
    simpa using hl
  have ht : trim (join_tokens (w :: ws) ++ "\n".toList) = join_tokens (w :: ws) := by
    have := trim_of_parts [] ys c "\n".toList (by simp) (by decide) (by rw [← hyc]; exact hh) hc
    rw [hyc]
    simpa using this
  unfold line_tokens strip_delimit_string
  rw [ht, regex_join_tokens ws w hw]
  exact split_join_tokens w ws (fun x hx => not_space_of_word x (hw x hx))

theorem showInt_word (n : Int) :
    IsWord (showInt n) ∧ (showInt n).head?.map isTrimChar = some false ∧
      (showInt n).getLast?.map isTrimChar = some false := by
  have digit_not_trim : ∀ c : Char, c.isDigit = true → isTrimChar c = false := by
    intro c h
    cases hs : isTrimChar c with
    | false => rfl
    | true =>
      simp only [isTrimChar, Bool.or_eq_true, beq_iff_eq] at hs
      rcases hs with (((((rfl | rfl) | rfl) | rfl) | rfl) | rfl) | rfl <;>
        exact absurd h (by decide)
  have key : ∀ m : Nat, IsWord (Nat.toDigits 10 m) ∧
      (Nat.toDigits 10 m).head?.map isTrimChar = some false ∧
      (Nat.toDigits 10 m).getLast?.map isTrimChar = some false := by
    intro m
    obtain ⟨_, hd, hne⟩ := toDigits_spec m
    refine ⟨⟨hne, fun c hc => (isDigit_facts c (hd c hc)).1⟩, ?_, ?_⟩
    · rw [List.head?_eq_head hne]
      simp only [Option.map_some', Option.some.injEq]
      exact digit_not_trim _ (hd _ (List.head_mem hne))
    · rw [List.getLast?_eq_getLast _ hne]
      simp only [Option.map_some', Option.some.injEq]
      exact digit_not_trim _ (hd _ (List.getLast_mem hne))
  unfold showInt
  by_cases hn : n < 0
  · simp only [hn, if_true]
    obtain ⟨⟨hne, hns⟩, _, hl⟩ := key n.natAbs
    refine ⟨⟨by simp, ?_⟩, by simp [isTrimChar], ?_⟩
    · intro c hc
      rcases List.mem_cons.mp hc with rfl | hc
      · decide
      · exact hns c hc
    · rw [List.getLast?_cons]
      cases hg : (Nat.toDigits 10 n.natAbs).getLast? with
      | none => exact absurd (List.getLast?_eq_none_iff.mp hg) hne
      | some c =>
        rw [hg] at hl
        simpa using hl
  · simp only [hn, if_false]
    exact key n.toNat


theorem line_tokens_retag (l tag : Str) (ps ts : List Str)
    (htk : line_tokens l = tag :: ps) (hlen : ts.length = ps.length)
    (hts : ∀ t ∈ ts, IsWord t ∧ t.getLast?.map isTrimChar = some false) :
    line_tokens (join_tokens (tag :: ts) ++ "\n".toList) = tag :: ts := by
  rcases line_tokens_words l with h | ⟨w, ws, h, hw, ht⟩
  · rw [h] at htk
    simp only [List.cons.injEq] at htk
    obtain ⟨rfl, rfl⟩ := htk
    have : ts = [] := List.length_eq_zero.mp (by simpa using hlen)
    subst this
    decide
  · rw [h] at htk
    simp only [List.cons.injEq] at htk
    obtain ⟨rfl, rfl⟩ := htk
    have hwords : ∀ x ∈ w :: ts, IsWord x := by
      intro x hx
      rcases List.mem_cons.mp hx with rfl | hx
      · exact hw _ (List.mem_cons_self _ _)
      · exact (hts x hx).1
    have hwne : w ≠ [] := (hw w (List.mem_cons_self _ _)).1
    apply line_tokens_join w ts hwords
    constructor
    · rw [head?_join_tokens w ts hwne, ← head?_join_tokens w ws hwne]
      exact ht.1
    · by_cases hnil : ts = []
      · subst hnil
        have : ws = [] := List.length_eq_zero.mp (by simpa using hlen.symm)
        subst this
        exact ht.2
      · have e := (List.dropLast_append_getLast hnil).symm
        obtain ⟨hx1, hx2⟩ := hts _ (List.getLast_mem hnil)
        rw [getLast?_join_tokens ts w _ _ e hx1.1]
        exact hx2

/-! ## The steps of the rewrite loop -/

theorem foldl_vt_push (vs : List Str) : ∀ st : CockpitState,
    vs.foldl vt_push st =
      { st with
        xp_cockpit_lines := st.xp_cockpit_lines ++ vs
        line_num := st.line_num + vs.length
        orig_vt_end_index := st.orig_vt_end_index + vs.length
        orig_idx_end_index := st.orig_idx_end_index + vs.length } := by
  induction vs with
  | nil => intro st; simp
  | cons v vs ih =>
    intro st
    rw [List.foldl_cons, ih]
    simp [vt_push, push_line]
    omega

theorem idx_loop_eq (ls : List Str) : ∀ (st : CockpitState) (rs : List Str),
    rebase_all st.orig_vt_count ls = some rs →
    idx_loop ls st = some
      { st with
        xp_cockpit_lines := st.xp_cockpit_lines ++ rs
        line_num := st.line_num + ls.length
        orig_idx_end_index := st.orig_idx_end_index + ls.length } := by
  induction ls with
  | nil => intro st rs h; simp [rebase_all] at h; subst h; simp [idx_loop]
  | cons l ls ih =>
    intro st rs h
    simp only [rebase_all] at h
    cases h1 : rebase_idx_line st.orig_vt_count l with
    | none => simp [h1] at h
    | some r =>
      cases h2 : rebase_all st.orig_vt_count ls with
      | none => simp [h1, h2] at h
      | some rs1 =>
        simp [h1, h2] at h
        subst h
        simp only [idx_loop, idx_push, h1, Option.map_some']
        rw [ih _ rs1 (by simpa [push_line] using h2)]
        simp [push_line]
        omega

theorem vt_step_fire (pObj_name : Str) (m : xp_manip_file) (st : CockpitState)
    (h1 : st.line_num = st.orig_vt_end_index + 1) (h2 : st.found_vts = false) :
    vt_step pObj_name m st =
      { st with
        xp_cockpit_lines := st.xp_cockpit_lines ++ vt_block pObj_name m
        line_num := st.line_num + (m.xp_vt_lines.length + 2)
        orig_vt_end_index := st.orig_vt_end_index + (m.xp_vt_lines.length + 2)
        orig_idx_end_index := st.orig_idx_end_index + (m.xp_vt_lines.length + 1)
        found_vts := true } := by
  simp only [vt_step, h1, h2, and_self, if_true, foldl_vt_push]
  simp [push_line, vt_block]
  omega

theorem vt_step_skip (pObj_name : Str) (m : xp_manip_file) (st : CockpitState)
    (h : st.found_vts = true ∨ st.line_num ≠ st.orig_vt_end_index + 1) :
    vt_step pObj_name m st = st := by
  unfold vt_step
  rw [if_neg]
  rintro ⟨h1, h2⟩
  rcases h with h | h
  · simp [h] at h2
  · exact h h1

theorem idx_step_fire (pObj_name : Str) (m : xp_manip_file) (st : CockpitState) (rs : List Str)
    (h1 : st.line_num = st.orig_idx_end_index + 1) (h2 : st.found_idx = false)
    (h3 : rebase_all st.orig_vt_count m.xp_idx_lines = some rs) :
    idx_step pObj_name m st = some
      { st with
        xp_cockpit_lines := st.xp_cockpit_lines ++ idx_block pObj_name rs
        line_num := st.line_num + (m.xp_idx_lines.length + 2)
        orig_idx_end_index := st.orig_idx_end_index + (m.xp_idx_lines.length + 2)
        found_idx := true } := by
  simp only [idx_step, h1, h2, and_self, if_true]
  rw [idx_loop_eq m.xp_idx_lines _ rs (by simpa [push_line] using h3)]
  simp [push_line, idx_block]
  omega

theorem idx_step_skip (pObj_name : Str) (m : xp_manip_file) (st : CockpitState)
    (h : st.found_idx = true ∨ st.line_num ≠ st.orig_idx_end_index + 1) :
    idx_step pObj_name m st = some st := by
  unfold idx_step
  rw [if_neg]
  rintro ⟨h1, h2⟩
  rcases h with h | h
  · simp [h] at h2
  · exact h h1

theorem header_step_skip (pObj_name : Str) (m : xp_manip_file) (st : CockpitState) (tLine : Str)
    (h : contains tLine "POINT_COUNTS".toList = false) :
    header_step pObj_name m st tLine = some (st, tLine) := by
  unfold header_step
  simp only [h, Bool.false_eq_true, if_false]

theorem read_line_plain (pObj_name : Str) (m : xp_manip_file) (st : CockpitState) (tLine : Str)
    (hig : st.ignoring_vt_lines = false)
    (hpc : contains tLine "POINT_COUNTS".toList = false)
    (hv : st.found_vts = true ∨ st.line_num ≠ st.orig_vt_end_index + 1)
    (hi : st.found_idx = true ∨ st.line_num ≠ st.orig_idx_end_index + 1) :
    read_line pObj_name m st tLine = some (push_line st (tLine ++ "\n".toList)) := by
  simp [read_line, hig, header_step_skip _ _ _ _ hpc, vt_step_skip _ _ _ hv,
    idx_step_skip _ _ _ hi]

theorem read_loop_plain (pObj_name : Str) (m : xp_manip_file) (ls : List Str) :
    ∀ st : CockpitState, st.ignoring_vt_lines = false →
    (∀ l ∈ ls, contains l "POINT_COUNTS".toList = false) →
    (st.found_vts = true ∨ st.line_num + ls.length ≤ st.orig_vt_end_index + 1) →
    (st.found_idx = true ∨ st.line_num + ls.length ≤ st.orig_idx_end_index + 1) →
    read_loop pObj_name m ls st = some
      { st with
        xp_cockpit_lines := st.xp_cockpit_lines ++ withNewlines ls
        line_num := st.line_num + ls.length } := by
  induction ls with
  | nil => intro st _ _ _ _; simp [read_loop, withNewlines]
  | cons l ls ih =>
    intro st hig hpc hv hi
    have hl := hpc l (List.mem_cons_self _ _)
    have hv1 : st.found_vts = true ∨ st.line_num ≠ st.orig_vt_end_index + 1 := by
      rcases hv with h | h
      · exact Or.inl h
      · right; simp only [List.length_cons] at h; omega
    have hi1 : st.found_idx = true ∨ st.line_num ≠ st.orig_idx_end_index + 1 := by
      rcases hi with h | h
      · exact Or.inl h
      · right; simp only [List.length_cons] at h; omega
    simp only [read_loop, read_line_plain _ _ _ _ hig hl hv1 hi1]
    rw [ih]
    · simp [push_line, withNewlines]; omega
    · simpa [push_line] using hig
    · intro x hx; exact hpc x (List.mem_cons_of_mem _ hx)
    · rcases hv with h | h
      · left; simpa [push_line] using h
      · right; simp only [List.length_cons] at h; simp [push_line]; omega
    · rcases hi with h | h
      · left; simpa [push_line] using h
      · right; simp only [List.length_cons] at h; simp [push_line]; omega

theorem read_loop_append (pObj_name : Str) (m : xp_manip_file) (xs ys : List Str) :
    ∀ st : CockpitState, read_loop pObj_name m (xs ++ ys) st =
      (read_loop pObj_name m xs st).bind (read_loop pObj_name m ys) := by
  induction xs with
  | nil => intro st; simp [read_loop]
  | cons x xs ih =>
    intro st
    simp only [List.cons_append, read_loop]
    cases read_line pObj_name m st x with
    | none => simp
    | some st1 => simp [ih]

theorem anim_loop_eq (t : Int) (ls : List Str) : ∀ (st : CockpitState) (rs : List Str),
    anim_all t ls = some rs →
    anim_loop t ls st = some
      { st with
        xp_cockpit_lines := st.xp_cockpit_lines ++ rs
        line_num := st.line_num + ls.length } := by
  induction ls with
  | nil => intro st rs h; simp [anim_all] at h; subst h; simp [anim_loop]
  | cons l ls ih =>
    intro st rs h
    simp only [anim_all] at h
    cases h1 : anim_line t l with
    | none => simp [h1] at h
    | some r =>
      cases h2 : anim_all t ls with
      | none => simp [h1, h2] at h
      | some rs1 =>
        simp [h1, h2] at h
        subst h
        simp only [anim_loop, h1]
        rw [ih _ rs1 h2]
        simp [push_line]
        omega

theorem read_finish_eq (pObj_name : Str) (m : xp_manip_file) (st : CockpitState) (fs : List Str)
    (h : anim_all st.orig_tris_count m.xp_anim_footer = some fs) :
    (read_finish pObj_name m st).map (fun s => s.xp_cockpit_lines) =
      some (st.xp_cockpit_lines ++ anim_block pObj_name fs) := by
  simp only [read_finish]
  rw [anim_loop_eq _ _ _ fs (by simpa [push_line] using h)]
  simp [push_line, anim_block]

theorem header_step_fire (pObj_name : Str) (m : xp_manip_file) (st : CockpitState) (tLine : Str)
    (v t : Int) (b c : Str)
    (h : contains tLine "POINT_COUNTS".toList = true)
    (hp : point_counts tLine = some (v, b, c, t)) :
    header_step pObj_name m st tLine = some
      ({ st with
          xp_cockpit_lines := st.xp_cockpit_lines ++ [summary_line pObj_name m]
          line_num := st.line_num + 1
          orig_vt_count := v
          orig_tris_count := t
          orig_vt_end_index := st.orig_vt_end_index + 1
          orig_idx_end_index := st.orig_idx_end_index + 1 },
        header_text (wrapInt (v + m.vt_count)) b c (wrapInt (t + m.idx_count))) := by
  unfold header_step
  unfold point_counts at hp
  simp only [h, if_true]
  revert hp
  generalize split_string (strip_delimit_string tLine " ".toList) " ".toList = parts
  intro hp
  cases h1 : parts[1]? <;> cases h2 : parts[2]? <;> cases h3 : parts[3]? <;>
    cases h4 : parts[4]? <;> simp only [h1, h2, h3, h4] at hp ⊢ <;> try (simp at hp)
  rename_i p1 p2 p3 p4
  cases h5 : stoi p1 <;> cases h6 : stoi p4 <;> simp only [h5, h6] at hp ⊢ <;>
    try (simp at hp)
  obtain ⟨rfl, rfl, rfl, rfl⟩ := hp
  simp [push_line, header_text]

theorem startsWith_eq (s p : Str) : startsWith s p = p.isPrefixOf s := by
  cases s with
  | nil => cases p <;> simp [startsWith, find]
  | cons c cs =>
    by_cases h : p.isPrefixOf (c :: cs) = true
    · simp [startsWith, find, h]
    · have h1 : p.isPrefixOf (c :: cs) = false := Bool.eq_false_iff.mpr h
      simp only [startsWith, find, h1, Bool.false_eq_true, if_false]
      cases find cs p <;> simp

theorem isVtLine_of_isIdxLine (l : Str) (h : isIdxLine l = true) : isVtLine l = false := by
  unfold isIdxLine at h
  unfold isVtLine
  rw [startsWith_eq] at h ⊢
  generalize trim l = s at h ⊢
  match s, h with
  | [], h => simp [List.isPrefixOf] at h
  | [_], h => simp [List.isPrefixOf] at h
  | [_, _], h => simp [List.isPrefixOf] at h
  | c1 :: c2 :: c3 :: rest, h =>
    simp [List.isPrefixOf] at h
    obtain ⟨rfl, rfl, rfl⟩ := h
    simp [List.isPrefixOf]

theorem analyze_loop_vt_same (ys : List Str) : ∀ (n : Nat) (r : Nat × Nat × Int),
    (∀ y ∈ ys, isVtLine y = false) → (analyze_loop ys n r).1 = r.1 := by
  induction ys with
  | nil => intro n r _; simp [analyze_loop]
  | cons y ys ih =>
    intro n r h
    obtain ⟨a, b, c⟩ := r
    simp only [analyze_loop]
    rw [ih _ _ (fun z hz => h z (List.mem_cons_of_mem _ hz))]
    simp [h y (List.mem_cons_self _ _)]

theorem analyze_loop_vt_last (xs : List Str) (v : Str) (ys : List Str) (hv : isVtLine v = true)
    (hys : ∀ y ∈ ys, isVtLine y = false) : ∀ (n : Nat) (r : Nat × Nat × Int),
    (analyze_loop (xs ++ v :: ys) n r).1 = n + xs.length + 1 := by
  induction xs with
  | nil =>
    intro n r
    obtain ⟨a, b, c⟩ := r
    simp only [List.nil_append, analyze_loop]
    rw [analyze_loop_vt_same ys _ _ hys]
    simp [hv]
  | cons x xs ih =>
    intro n r
    obtain ⟨a, b, c⟩ := r
    simp only [List.cons_append, analyze_loop, List.append_eq]
    rw [ih]
    simp only [List.length_cons]
    omega

theorem analyze_loop_idx_same (ys : List Str) : ∀ (n : Nat) (r : Nat × Nat × Int),
    (∀ y ∈ ys, isIdxLine y = false) → (analyze_loop ys n r).2.1 = r.2.1 := by
  induction ys with
  | nil => intro n r _; simp [analyze_loop]
  | cons y ys ih =>
    intro n r h
    obtain ⟨a, b, c⟩ := r
    simp only [analyze_loop]
    rw [ih _ _ (fun z hz => h z (List.mem_cons_of_mem _ hz))]
    simp [h y (List.mem_cons_self _ _)]

theorem analyze_loop_idx_last (xs : List Str) (v : Str) (ys : List Str) (hv : isIdxLine v = true)
    (hys : ∀ y ∈ ys, isIdxLine y = false) : ∀ (n : Nat) (r : Nat × Nat × Int),
    (analyze_loop (xs ++ v :: ys) n r).2.1 = n + xs.length + 1 := by
  induction xs with
  | nil =>
    intro n r
    obtain ⟨a, b, c⟩ := r
    simp only [List.nil_append, analyze_loop]
    rw [analyze_loop_idx_same ys _ _ hys]
    simp [hv]
  | cons x xs ih =>
    intro n r
    obtain ⟨a, b, c⟩ := r
    simp only [List.cons_append, analyze_loop, List.append_eq]
    rw [ih]
    simp only [List.length_cons]
    omega

theorem read_line_header (pObj_name : Str) (m : xp_manip_file) (st : CockpitState) (tLine : Str)
    (v t : Int) (b c : Str)
    (hig : st.ignoring_vt_lines = false)
    (h : contains tLine "POINT_COUNTS".toList = true)
    (hp : point_counts tLine = some (v, b, c, t))
    (hv : st.found_vts = true ∨ st.line_num ≠ st.orig_vt_end_index + 1)
    (hi : st.found_idx = true ∨ st.line_num ≠ st.orig_idx_end_index + 1) :
    read_line pObj_name m st tLine = some
      { st with
        xp_cockpit_lines := st.xp_cockpit_lines ++ [summary_line pObj_name m,
          header_text (wrapInt (v + m.vt_count)) b c (wrapInt (t + m.idx_count)) ++ "\n".toList]
        line_num := st.line_num + 2
        orig_vt_count := v
        orig_tris_count := t
        orig_vt_end_index := st.orig_vt_end_index + 1
        orig_idx_end_index := st.orig_idx_end_index + 1 } := by
  simp only [read_line, hig, Bool.false_eq_true, if_false,
    header_step_fire pObj_name m st tLine v t b c h hp]
  rw [vt_step_skip, idx_step_skip]
  · simp [push_line]
  · rcases hi with hi | hi
    · exact Or.inl hi
    · right; simp only; omega
  · rcases hv with hv | hv
    · exact Or.inl hv
    · right; simp only; omega

theorem read_line_vt (pObj_name : Str) (m : xp_manip_file) (st : CockpitState) (tLine : Str)
    (hig : st.ignoring_vt_lines = false)
    (hpc : contains tLine "POINT_COUNTS".toList = false)
    (h1 : st.line_num = st.orig_vt_end_index + 1) (h2 : st.found_vts = false)
    (hi : st.found_idx = true ∨ st.line_num + 1 ≠ st.orig_idx_end_index + 1) :
    read_line pObj_name m st tLine = some
      { st with
        xp_cockpit_lines := st.xp_cockpit_lines ++ vt_block pObj_name m ++ [tLine ++ "\n".toList]
        line_num := st.line_num + (m.xp_vt_lines.length + 3)
        orig_vt_end_index := st.orig_vt_end_index + (m.xp_vt_lines.length + 2)
        orig_idx_end_index := st.orig_idx_end_index + (m.xp_vt_lines.length + 1)
        found_vts := true } := by
  simp only [read_line, hig, Bool.false_eq_true, if_false, header_step_skip _ _ _ _ hpc,
    vt_step_fire pObj_name m st h1 h2]
  rw [idx_step_skip]
  · simp [push_line]; omega
  · rcases hi with hi | hi
    · exact Or.inl hi
    · right; simp only; omega

theorem read_line_idx (pObj_name : Str) (m : xp_manip_file) (st : CockpitState) (tLine : Str)
    (rs : List Str)
    (hig : st.ignoring_vt_lines = false)
    (hpc : contains tLine "POINT_COUNTS".toList = false)
    (hv : st.found_vts = true ∨ st.line_num ≠ st.orig_vt_end_index + 1)
    (h1 : st.line_num = st.orig_idx_end_index + 1) (h2 : st.found_idx = false)
    (h3 : rebase_all st.orig_vt_count m.xp_idx_lines = some rs) :
    read_line pObj_name m st tLine = some
      { st with
        xp_cockpit_lines := st.xp_cockpit_lines ++ idx_block pObj_name rs ++ [tLine ++ "\n".toList]
        line_num := st.line_num + (m.xp_idx_lines.length + 3)
        orig_idx_end_index := st.orig_idx_end_index + (m.xp_idx_lines.length + 2)
        found_idx := true } := by
  simp only [read_line, hig, Bool.false_eq_true, if_false, header_step_skip _ _ _ _ hpc,
    vt_step_skip _ _ _ hv, idx_step_fire pObj_name m st rs h1 h2 h3]
  simp [push_line]; omega

theorem read_line_both (pObj_name : Str) (m : xp_manip_file) (st : CockpitState) (tLine : Str)
    (rs : List Str)
    (hig : st.ignoring_vt_lines = false)
    (hpc : contains tLine "POINT_COUNTS".toList = false)
    (h1 : st.line_num = st.orig_vt_end_index + 1) (h2 : st.found_vts = false)
    (h3 : st.line_num + 1 = st.orig_idx_end_index + 1) (h4 : st.found_idx = false)
    (h5 : rebase_all st.orig_vt_count m.xp_idx_lines = some rs) :
    read_line pObj_name m st tLine = some
      { st with
        xp_cockpit_lines := st.xp_cockpit_lines ++ vt_block pObj_name m ++ idx_block pObj_name rs
          ++ [tLine ++ "\n".toList]
        line_num := st.line_num + (m.xp_vt_lines.length + 2) + (m.xp_idx_lines.length + 3)
        orig_vt_end_index := st.orig_vt_end_index + (m.xp_vt_lines.length + 2)
        orig_idx_end_index :=
          st.orig_idx_end_index + (m.xp_vt_lines.length + 1) + (m.xp_idx_lines.length + 2)
        found_vts := true
        found_idx := true } := by
  simp only [read_line, hig, Bool.false_eq_true, if_false, header_step_skip _ _ _ _ hpc,
    vt_step_fire pObj_name m st h1 h2]
  rw [idx_step_fire pObj_name m _ rs (by simp only; omega) (by simpa using h4)
    (by simpa using h5)]
  simp [push_line]
  omega

theorem read_start_layout (pre : List Str) (hdr : Str) (vts : List Str) (i1 : Str)
    (ixs : List Str) (f1 : Str) (fs : List Str) (vt0 tris0 : Int)
    (hvl : vts.getLast?.map isVtLine = some true)
    (hmid : ∀ l ∈ i1 :: ixs, isVtLine l = false)
    (hil : (i1 :: ixs).getLast?.map isIdxLine = some true)
    (hfoot : ∀ l ∈ f1 :: fs, isVtLine l = false ∧ isIdxLine l = false) :
    ∃ vc : Int, read_start (pre ++ hdr :: (vts ++ i1 :: (ixs ++ f1 :: fs))) vt0 tris0 =
      { xp_cockpit_lines := []
        orig_vt_count := vc
        orig_tris_count := tris0
        orig_vt_end_index := pre.length + 1 + vts.length
        orig_idx_end_index := pre.length + 1 + vts.length + 1 + ixs.length
        line_num := 0
        found_vts := false
        found_idx := false
        ignoring_vt_lines := false } := by
  refine ⟨(analyze_loop (pre ++ hdr :: (vts ++ i1 :: (ixs ++ f1 :: fs))) 0 (0, 0, vt0)).2.2, ?_⟩
  unfold read_start analyze_xp_cockpit_file
  have hV : (analyze_loop (pre ++ hdr :: (vts ++ i1 :: (ixs ++ f1 :: fs))) 0 (0, 0, vt0)).1
      = pre.length + 1 + vts.length := by
    obtain ⟨vl, hvl1, hvl2⟩ := Option.map_eq_some'.mp hvl
    obtain ⟨vs, rfl⟩ : ∃ vs, vts = vs ++ [vl] := by
      have hne : vts ≠ [] := by rintro rfl; simp at hvl1
      refine ⟨vts.dropLast, ?_⟩
      have e := List.dropLast_append_getLast hne
      rw [List.getLast?_eq_getLast _ hne] at hvl1
      simp only [Option.some.injEq] at hvl1
      rw [hvl1] at e
      exact e.symm
    have e : pre ++ hdr :: ((vs ++ [vl]) ++ i1 :: (ixs ++ f1 :: fs))
        = (pre ++ hdr :: vs) ++ vl :: (i1 :: (ixs ++ f1 :: fs)) := by simp
    rw [e, analyze_loop_vt_last _ _ _ hvl2]
    · simp; omega
    · intro y hy
      rcases List.mem_cons.mp hy with rfl | hy
      · exact hmid _ (by simp)
      · rcases List.mem_append.mp hy with hy | hy
        · exact hmid _ (List.mem_cons_of_mem _ hy)
        · exact (hfoot y hy).1
  have hI : (analyze_loop (pre ++ hdr :: (vts ++ i1 :: (ixs ++ f1 :: fs))) 0 (0, 0, vt0)).2.1
      = pre.length + 1 + vts.length + 1 + ixs.length := by
    obtain ⟨jl, hjl1, hjl2⟩ := Option.map_eq_some'.mp hil
    obtain ⟨js, hj⟩ : ∃ js, i1 :: ixs = js ++ [jl] := by
      have hne : i1 :: ixs ≠ [] := by simp
      refine ⟨(i1 :: ixs).dropLast, ?_⟩
      have e := List.dropLast_append_getLast hne
      rw [List.getLast?_eq_getLast _ hne] at hjl1
      simp only [Option.some.injEq] at hjl1
      rw [hjl1] at e
      exact e.symm
    have e : pre ++ hdr :: (vts ++ i1 :: (ixs ++ f1 :: fs))
        = (pre ++ hdr :: (vts ++ js)) ++ jl :: (f1 :: fs) := by
      have : i1 :: (ixs ++ f1 :: fs) = (i1 :: ixs) ++ f1 :: fs := by simp
      rw [this, hj]; simp
    have hlen : js.length = ixs.length := by
      have := congrArg List.length hj
      simp at this; omega
    rw [e, analyze_loop_idx_last _ _ _ hjl2]
    · simp; omega
    · intro y hy; exact (hfoot y hy).2
  simp only [hV, hI]

theorem read_loop_layout (pObj_name : Str) (m : xp_manip_file) (pre : List Str) (hdr : Str)
    (vts : List Str) (i1 : Str) (ixs : List Str) (f1 : Str) (fs : List Str) (vc tris0 V I : Int)
    (b c : Str) (rs : List Str)
    (hpre : ∀ l ∈ pre, contains l "POINT_COUNTS".toList = false)
    (hh : contains hdr "POINT_COUNTS".toList = true)
    (hp : point_counts hdr = some (V, b, c, I))
    (hvts : ∀ l ∈ vts, contains l "POINT_COUNTS".toList = false)
    (hidx : ∀ l ∈ i1 :: ixs, contains l "POINT_COUNTS".toList = false)
    (hfoot : ∀ l ∈ f1 :: fs, contains l "POINT_COUNTS".toList = false)
    (hrs : rebase_all V m.xp_idx_lines = some rs) :
    ∃ st1 : CockpitState,
      read_loop pObj_name m (pre ++ hdr :: (vts ++ i1 :: (ixs ++ f1 :: fs)))
        { xp_cockpit_lines := []
          orig_vt_count := vc
          orig_tris_count := tris0
          orig_vt_end_index := pre.length + 1 + vts.length
          orig_idx_end_index := pre.length + 1 + vts.length + 1 + ixs.length
          line_num := 0
          found_vts := false
          found_idx := false
          ignoring_vt_lines := false } = some st1 ∧
      st1.orig_tris_count = I ∧
      st1.xp_cockpit_lines = layout_lines pObj_name m pre
        (header_text (wrapInt (V + m.vt_count)) b c (wrapInt (I + m.idx_count)))
        vts i1 ixs (f1 :: fs) rs := by
  have e0 : pre ++ hdr :: (vts ++ i1 :: (ixs ++ f1 :: fs))
      = pre ++ (hdr :: ((vts ++ [i1]) ++ (ixs ++ f1 :: fs))) := by simp
  rw [e0, read_loop_append,
    read_loop_plain pObj_name m pre _ rfl hpre (Or.inr (by simp only; omega))
      (Or.inr (by simp only; omega))]
  simp only [Option.some_bind, read_loop]
  rw [read_line_header pObj_name m _ hdr V I b c rfl hh hp (Or.inr (by simp only; omega))
    (Or.inr (by simp only; omega))]
  simp only []
  rw [read_loop_append, read_loop_plain pObj_name m (vts ++ [i1]) _ rfl
    (by
      intro l hl
      rcases List.mem_append.mp hl with hl | hl
      · exact hvts l hl
      · exact hidx l (by simp at hl; simp [hl]))
    (Or.inr (by simp only [List.length_append, List.length_cons, List.length_nil]; omega))
    (Or.inr (by simp only [List.length_append, List.length_cons, List.length_nil]; omega))]
  simp only [Option.some_bind]
  cases ixs with
  | nil =>
    simp only [List.nil_append, read_loop]
    rw [read_line_both pObj_name m _ f1 rs rfl (hfoot f1 (by simp))
      (by simp only [List.length_append, List.length_cons, List.length_nil]; omega) rfl
      (by simp only [List.length_append, List.length_cons, List.length_nil]; omega) rfl hrs]
    simp only []
    rw [read_loop_plain pObj_name m fs _ rfl (fun l hl => hfoot l (List.mem_cons_of_mem _ hl))
      (Or.inl rfl) (Or.inl rfl)]
    refine ⟨_, rfl, rfl, ?_⟩
    simp [layout_lines, withNewlines]
  | cons i2 ixs =>
    simp only [List.cons_append, read_loop, List.append_eq]
    rw [read_line_vt pObj_name m _ i2 rfl (hidx i2 (by simp))
      (by simp only [List.length_append, List.length_cons, List.length_nil]; omega) rfl
      (Or.inr (by simp only [List.length_append, List.length_cons, List.length_nil]; omega))]
    simp only []
    rw [read_loop_append, read_loop_plain pObj_name m ixs _ rfl
      (fun l hl => hidx l (List.mem_cons_of_mem _ (List.mem_cons_of_mem _ hl)))
      (Or.inl rfl)
      (Or.inr (by simp only [List.length_append, List.length_cons, List.length_nil]; omega))]
    simp only [Option.some_bind, read_loop]
    rw [read_line_idx pObj_name m _ f1 rs rfl (hfoot f1 (by simp)) (Or.inl rfl)
      (by simp only [List.length_append, List.length_cons, List.length_nil]; omega) rfl hrs]
    simp only []
    rw [read_loop_plain pObj_name m fs _ rfl (fun l hl => hfoot l (List.mem_cons_of_mem _ hl))
      (Or.inl rfl) (Or.inl rfl)]
    refine ⟨_, rfl, rfl, ?_⟩
    simp [layout_lines, withNewlines]

/-! ## Every run on well-formed input completes -/

theorem split_string_ne_nil (s d : Str) : ∃ t ps, split_string s d = t :: ps := by
  unfold split_string
  simp only [split_string_loop]
  cases find s d <;> simp

theorem rebase_tokens_total (V : Int) (ps : List Str) (h : ∀ p ∈ ps, (stoi p).isSome = true) :
    ∃ r, rebase_tokens V ps = some r := by
  induction ps with
  | nil => exact ⟨_, rfl⟩
  | cons p ps ih =>
    obtain ⟨k, hk⟩ := Option.isSome_iff_exists.mp (h p (List.mem_cons_self _ _))
    obtain ⟨r, hr⟩ := ih (fun q hq => h q (List.mem_cons_of_mem _ hq))
    simp only [rebase_tokens, hk, hr, Option.map_some']; exact ⟨_, rfl⟩

theorem rebase_idx_line_total (V : Int) (l : Str) (h : idx_line_ok l = true) :
    ∃ r, rebase_idx_line V l = some r := by
  unfold idx_line_ok line_tokens at h
  unfold rebase_idx_line
  obtain ⟨t, ps, e⟩ := split_string_ne_nil (strip_delimit_string l " ".toList) " ".toList
  rw [e] at h ⊢
  simp only [List.tail_cons, List.all_eq_true] at h
  obtain ⟨r, hr⟩ := rebase_tokens_total V ps h
  simp only [hr, Option.map_some']; exact ⟨_, rfl⟩

theorem rebase_all_total (V : Int) (ls : List Str) (h : ∀ l ∈ ls, idx_line_ok l = true) :
    ∃ rs, rebase_all V ls = some rs := by
  induction ls with
  | nil => exact ⟨_, rfl⟩
  | cons l ls ih =>
    obtain ⟨r, hr⟩ := rebase_idx_line_total V l (h l (List.mem_cons_self _ _))
    obtain ⟨rs, hrs⟩ := ih (fun q hq => h q (List.mem_cons_of_mem _ hq))
    simp only [rebase_all, hr, hrs]; exact ⟨_, rfl⟩

theorem anim_line_total (t : Int) (l : Str) (h : anim_line_ok l = true) :
    ∃ r, anim_line t l = some r := by
  unfold anim_line_ok line_tokens at h
  unfold anim_line
  by_cases hc : contains l "TRIS".toList = true
  · simp only [hc, Bool.not_true, Bool.false_or] at h
    simp only [hc, if_true]
    revert h
    generalize split_string (strip_delimit_string l " ".toList) " ".toList = parts
    intro h
    match parts, h with
    | p0 :: p1 :: p2 :: rest, h =>
      obtain ⟨k, hk⟩ := Option.isSome_iff_exists.mp h
      simp [hk]
  · simp only [hc, if_false]; exact ⟨_, rfl⟩

theorem anim_all_total (t : Int) (ls : List Str) (h : ∀ l ∈ ls, anim_line_ok l = true) :
    ∃ rs, anim_all t ls = some rs := by
  induction ls with
  | nil => exact ⟨_, rfl⟩
  | cons l ls ih =>
    obtain ⟨r, hr⟩ := anim_line_total t l (h l (List.mem_cons_self _ _))
    obtain ⟨rs, hrs⟩ := ih (fun q hq => h q (List.mem_cons_of_mem _ hq))
    simp only [anim_all, hr, hrs]; exact ⟨_, rfl⟩

end KitBash
namespace KitBash

theorem header_step_total (pObj_name : Str) (m : xp_manip_file) (st : CockpitState) (l : Str)
    (h : header_ok l = true) :
    ∃ (st1 : CockpitState) (tLine1 : Str) (ins : List Str),
      header_step pObj_name m st l = some (st1, tLine1) ∧
        kept_line m l = tLine1 ++ "\n".toList ∧
        st1.xp_cockpit_lines = st.xp_cockpit_lines ++ ins ∧
        (∀ x ∈ ins, Inserted pObj_name m x) ∧
        st1.ignoring_vt_lines = st.ignoring_vt_lines ∧
        (contains l "POINT_COUNTS".toList = false →
          st1.orig_vt_count = st.orig_vt_count ∧ st1.orig_tris_count = st.orig_tris_count) := by
  by_cases hc : contains l "POINT_COUNTS".toList = true
  · have hs : (point_counts l).isSome = true := by
      unfold header_ok at h
      rw [hc] at h
      simpa using h
    obtain ⟨⟨v, b, c, t⟩, hp⟩ := Option.isSome_iff_exists.mp hs
    refine ⟨_, _, [summary_line pObj_name m], header_step_fire pObj_name m st l v t b c hc hp,
      ?_, rfl, ?_, rfl, ?_⟩
    · simp only [kept_line, hc, if_true, hp]
    · intro x hx
      left
      simpa using hx
    · intro hf; rw [hf] at hc; exact absurd hc (by decide)
  · have hf : contains l "POINT_COUNTS".toList = false := Bool.eq_false_iff.mpr hc
    refine ⟨st, l, [], header_step_skip pObj_name m st l hf, ?_, by simp, by simp, rfl,
      fun _ => ⟨rfl, rfl⟩⟩
    simp only [kept_line, hf, Bool.false_eq_true, if_false]

theorem vt_step_total (pObj_name : Str) (m : xp_manip_file) (st : CockpitState) :
    ∃ ins : List Str,
      (vt_step pObj_name m st).xp_cockpit_lines = st.xp_cockpit_lines ++ ins ∧
        (∀ x ∈ ins, Inserted pObj_name m x) ∧
        (vt_step pObj_name m st).ignoring_vt_lines = st.ignoring_vt_lines ∧
        (vt_step pObj_name m st).orig_vt_count = st.orig_vt_count ∧
        (vt_step pObj_name m st).orig_tris_count = st.orig_tris_count := by
  by_cases h : st.line_num = st.orig_vt_end_index + 1 ∧ st.found_vts = false
  · rw [vt_step_fire pObj_name m st h.1 h.2]
    exact ⟨vt_block pObj_name m, rfl, fun x hx => Or.inr (Or.inl hx), rfl, rfl, rfl⟩
  · rw [vt_step_skip pObj_name m st (by
      by_cases h1 : st.found_vts = true
      · exact Or.inl h1
      · right; intro h2; exact h ⟨h2, by simpa using h1⟩)]
    exact ⟨[], by simp, by simp, rfl, rfl, rfl⟩

theorem idx_step_total (pObj_name : Str) (m : xp_manip_file) (st : CockpitState)
    (hok : ∀ l ∈ m.xp_idx_lines, idx_line_ok l = true) :
    ∃ (st1 : CockpitState) (ins : List Str),
      idx_step pObj_name m st = some st1 ∧
        st1.xp_cockpit_lines = st.xp_cockpit_lines ++ ins ∧
        (∀ x ∈ ins, Inserted pObj_name m x) ∧
        st1.ignoring_vt_lines = st.ignoring_vt_lines ∧
        st1.orig_vt_count = st.orig_vt_count ∧
        st1.orig_tris_count = st.orig_tris_count := by
  by_cases h : st.line_num = st.orig_idx_end_index + 1 ∧ st.found_idx = false
  · obtain ⟨rs, hrs⟩ := rebase_all_total st.orig_vt_count m.xp_idx_lines hok
    exact ⟨_, idx_block pObj_name rs, idx_step_fire pObj_name m st rs h.1 h.2 hrs, rfl,
      fun x hx => Or.inr (Or.inr ⟨_, rs, hrs, hx⟩), rfl, rfl, rfl⟩
  · refine ⟨st, [], idx_step_skip pObj_name m st ?_, by simp, by simp, rfl, rfl, rfl⟩
    by_cases h1 : st.found_idx = true
    · exact Or.inl h1
    · right; intro h2; exact h ⟨h2, by simpa using h1⟩

theorem read_line_total (pObj_name : Str) (m : xp_manip_file) (st : CockpitState) (l : Str)
    (hig : st.ignoring_vt_lines = false) (h : header_ok l = true)
    (hok : ∀ x ∈ m.xp_idx_lines, idx_line_ok x = true) :
    ∃ (st1 : CockpitState) (ins : List Str),
      read_line pObj_name m st l = some st1 ∧
        st1.xp_cockpit_lines = st.xp_cockpit_lines ++ (ins ++ [kept_line m l]) ∧
        (∀ x ∈ ins, Inserted pObj_name m x) ∧
        st1.ignoring_vt_lines = false ∧
        (contains l "POINT_COUNTS".toList = false →
          st1.orig_vt_count = st.orig_vt_count ∧ st1.orig_tris_count = st.orig_tris_count) := by
  obtain ⟨sa, tl, i1, e1, hk, l1, n1, g1, c1⟩ := header_step_total pObj_name m st l h
  obtain ⟨i2, l2, n2, g2, c2, d2⟩ := vt_step_total pObj_name m sa
  obtain ⟨sc, i3, e3, l3, n3, g3, c3, d3⟩ :=
    idx_step_total pObj_name m (vt_step pObj_name m sa) hok
  refine ⟨push_line sc (tl ++ "\n".toList), i1 ++ (i2 ++ i3), ?_, ?_, ?_, ?_, ?_⟩
  · simp only [read_line, hig, Bool.false_eq_true, if_false, e1, e3]
  · simp only [push_line, l3, l2, l1, hk, List.append_assoc]
  · intro x hx
    rcases List.mem_append.mp hx with hx | hx
    · exact n1 x hx
    · rcases List.mem_append.mp hx with hx | hx
      · exact n2 x hx
      · exact n3 x hx
  · simp only [push_line, g3, g2, g1, hig]
  · intro hf
    obtain ⟨a, b⟩ := c1 hf
    simp only [push_line, c3, d3, c2, d2, a, b, and_self]

theorem read_loop_total (pObj_name : Str) (m : xp_manip_file)
    (hok : ∀ x ∈ m.xp_idx_lines, idx_line_ok x = true) (ls : List Str) :
    ∀ st : CockpitState, st.ignoring_vt_lines = false → (∀ l ∈ ls, header_ok l = true) →
    ∃ (st1 : CockpitState) (inss : List (List Str)),
      read_loop pObj_name m ls st = some st1 ∧
        inss.length = ls.length ∧
        st1.xp_cockpit_lines = st.xp_cockpit_lines ++ weave inss (ls.map (kept_line m)) ∧
        (∀ ins ∈ inss, ∀ x ∈ ins, Inserted pObj_name m x) ∧
        st1.ignoring_vt_lines = false ∧
        ((∀ l ∈ ls, contains l "POINT_COUNTS".toList = false) →
          st1.orig_vt_count = st.orig_vt_count ∧ st1.orig_tris_count = st.orig_tris_count) := by
  induction ls with
  | nil =>
    intro st hig _
    exact ⟨st, [], rfl, rfl, by simp [weave], by simp, hig, fun _ => ⟨rfl, rfl⟩⟩
  | cons l ls ih =>
    intro st hig hh
    obtain ⟨sa, i1, e1, l1, n1, g1, c1⟩ :=
      read_line_total pObj_name m st l hig (hh l (List.mem_cons_self _ _)) hok
    obtain ⟨sb, inss, e2, len2, l2, n2, g2, c2⟩ :=
      ih sa g1 (fun x hx => hh x (List.mem_cons_of_mem _ hx))
    refine ⟨sb, i1 :: inss, ?_, by simp [len2], ?_, ?_, g2, ?_⟩
    · simp only [read_loop, e1, e2]
    · simp only [l2, l1, List.map_cons, weave, List.append_assoc, List.singleton_append]
    · intro ins hins
      rcases List.mem_cons.mp hins with rfl | hins
      · exact n1
      · exact n2 ins hins
    · intro hf
      obtain ⟨a, b⟩ := c1 (hf l (List.mem_cons_self _ _))
      obtain ⟨a2, b2⟩ := c2 (fun x hx => hf x (List.mem_cons_of_mem _ hx))
      exact ⟨a2.trans a, b2.trans b⟩

/-! ## The whole run -/

theorem wrapInt_of_inIntRange (n : Int) (h : inIntRange n) : wrapInt n = n := by
  unfold inIntRange at h
  unfold wrapInt
  omega

theorem read_xp_cockpit_file_eq (pObj_name : Str) (m : xp_manip_file) (target : List Str)
    (vt0 tris0 : Int) (st : CockpitState) (fs : List Str)
    (h1 : read_loop pObj_name m target (read_start target vt0 tris0) = some st)
    (h2 : anim_all st.orig_tris_count m.xp_anim_footer = some fs) :
    read_xp_cockpit_file pObj_name m target vt0 tris0 =
      some (st.xp_cockpit_lines ++ anim_block pObj_name fs) := by
  have h3 := read_finish_eq pObj_name m st fs h2
  unfold read_xp_cockpit_file
  rw [h1]
  cases hf : read_finish pObj_name m st with
  | none => rw [hf] at h3; simp at h3
  | some st1 =>
    rw [hf] at h3
    simp only [hf]
    simpa using h3

theorem read_start_fields (target : List Str) (vt0 tris0 : Int) :
    (read_start target vt0 tris0).ignoring_vt_lines = false ∧
      (read_start target vt0 tris0).xp_cockpit_lines = [] ∧
      (read_start target vt0 tris0).line_num = 0 ∧
      (read_start target vt0 tris0).found_vts = false ∧
      (read_start target vt0 tris0).found_idx = false ∧
      (read_start target vt0 tris0).orig_vt_end_index
        = (analyze_xp_cockpit_file target (0, 0, vt0)).1 ∧
      (read_start target vt0 tris0).orig_idx_end_index
        = (analyze_xp_cockpit_file target (0, 0, vt0)).2.1 :=
  ⟨rfl, rfl, rfl, rfl, rfl, rfl, rfl⟩

theorem read_line_header_total (pObj_name : Str) (m : xp_manip_file) (st : CockpitState)
    (l : Str) (v t : Int) (b c : Str)
    (hig : st.ignoring_vt_lines = false)
    (hc : contains l "POINT_COUNTS".toList = true)
    (hp : point_counts l = some (v, b, c, t))
    (hok : ∀ x ∈ m.xp_idx_lines, idx_line_ok x = true) :
    ∃ (st1 : CockpitState) (ins : List Str),
      read_line pObj_name m st l = some st1 ∧
        st1.xp_cockpit_lines = st.xp_cockpit_lines ++ summary_line pObj_name m ::
          (ins ++ [header_text (wrapInt (v + m.vt_count)) b c (wrapInt (t + m.idx_count))
            ++ "\n".toList]) ∧
        st1.ignoring_vt_lines = false ∧ st1.orig_vt_count = v ∧ st1.orig_tris_count = t := by
  obtain ⟨sa, e1, ha1, ha2, ha3, ha4⟩ : ∃ sa : CockpitState,
      header_step pObj_name m st l = some (sa,
        header_text (wrapInt (v + m.vt_count)) b c (wrapInt (t + m.idx_count))) ∧
      sa.xp_cockpit_lines = st.xp_cockpit_lines ++ [summary_line pObj_name m] ∧
      sa.ignoring_vt_lines = st.ignoring_vt_lines ∧ sa.orig_vt_count = v ∧
      sa.orig_tris_count = t :=
    ⟨_, header_step_fire pObj_name m st l v t b c hc hp, rfl, rfl, rfl, rfl⟩
  obtain ⟨i2, l2, _, g2, c2, d2⟩ := vt_step_total pObj_name m sa
  obtain ⟨sc, i3, e3, l3, _, g3, c3, d3⟩ :=
    idx_step_total pObj_name m (vt_step pObj_name m sa) hok
  refine ⟨push_line sc (header_text (wrapInt (v + m.vt_count)) b c (wrapInt (t + m.idx_count))
    ++ "\n".toList), i2 ++ i3, ?_, ?_, ?_, ?_, ?_⟩
  · simp only [read_line, hig, Bool.false_eq_true, if_false, e1, e3]
  · simp only [push_line, l3, l2, ha1, List.append_assoc, List.singleton_append,
      List.cons_append, List.nil_append]
  · simp only [push_line, g3, g2, ha2, hig]
  · simp only [push_line, c3, c2, ha3]
  · simp only [push_line, d3, d2, ha4]

theorem read_loop_single_header (pObj_name : Str) (m : xp_manip_file) (pre : List Str)
    (hdr : Str) (post : List Str) (V I : Int) (b c : Str) (st : CockpitState)
    (hig : st.ignoring_vt_lines = false)
    (hpre : ∀ l ∈ pre, contains l "POINT_COUNTS".toList = false)
    (hc : contains hdr "POINT_COUNTS".toList = true)
    (hp : point_counts hdr = some (V, b, c, I))
    (hpost : ∀ l ∈ post, contains l "POINT_COUNTS".toList = false)
    (hok : ∀ x ∈ m.xp_idx_lines, idx_line_ok x = true) :
    ∃ st1 : CockpitState,
      read_loop pObj_name m (pre ++ hdr :: post) st = some st1 ∧
        st1.orig_vt_count = V ∧ st1.orig_tris_count = I := by
  have ok_of : ∀ ls : List Str, (∀ l ∈ ls, contains l "POINT_COUNTS".toList = false) →
      ∀ l ∈ ls, header_ok l = true := by
    intro ls h l hl
    unfold header_ok
    rw [h l hl]
    rfl
  obtain ⟨sa, _, ea, _, _, _, ga, _⟩ :=
    read_loop_total pObj_name m hok pre st hig (ok_of pre hpre)
  obtain ⟨sb, _, eb, _, gb, vb, tb⟩ :=
    read_line_header_total pObj_name m sa hdr V I b c ga hc hp hok
  obtain ⟨sc, _, ec, _, _, _, _, cc⟩ :=
    read_loop_total pObj_name m hok post sb gb (ok_of post hpost)
  refine ⟨sc, ?_, ?_, ?_⟩
  · rw [read_loop_append, ea]
    simp only [Option.some_bind, read_loop, eb, ec]
  · rw [(cc hpost).1, vb]
  · rw [(cc hpost).2, tb]

theorem anim_all_forall2 (t : Int) (ls : List Str) : ∀ rs, anim_all t ls = some rs →
    List.Forall₂ (fun l r => anim_line t l = some r) ls rs := by
  induction ls with
  | nil => intro rs h; simp [anim_all] at h; subst h; exact List.Forall₂.nil
  | cons l ls ih =>
    intro rs h
    simp only [anim_all] at h
    cases h1 : anim_line t l with
    | none => simp [h1] at h
    | some r =>
      cases h2 : anim_all t ls with
      | none => simp [h1, h2] at h
      | some rs1 =>
        simp [h1, h2] at h
        subst h
        exact List.Forall₂.cons h1 (ih rs1 h2)

theorem anim_line_plain (t : Int) (l : Str) (h : contains l "TRIS".toList = false) :
    anim_line t l = some l := by
  unfold anim_line
  simp only [h, Bool.false_eq_true, if_false]

theorem anim_line_tris (t : Int) (l p0 a b : Str) (rest : List Str) (k : Int)
    (h : contains l "TRIS".toList = true)
    (htok : line_tokens l = p0 :: a :: b :: rest) (hk : stoi a = some k) :
    anim_line t l = some (join_tokens [p0, showInt (wrapInt (k + t)), b] ++ "\n".toList) := by
  unfold line_tokens at htok
  unfold anim_line
  simp only [h, if_true, htok]
  simp [hk, join_tokens]

/-! ## C5 and C10: what the output keeps and how it ends -/

/-- C10. Footer and attribution are last: on a run that completes, the
output is a body holding every target line (woven with the inserted lines),
then the `start ANIM section` marker, the fragment footer lines as line 667
pushes them, the `end ANIM section` marker and the attribution line, which is
the last line of the output. -/
theorem footer_and_attribution_last (pObj_name : Str) (m : xp_manip_file) (target : List Str)
    (vt0 tris0 : Int)
    (hh : ∀ l ∈ target, header_ok l = true)
    (hok : ∀ l ∈ m.xp_idx_lines, idx_line_ok l = true)
    (ha : ∀ l ∈ m.xp_anim_footer, anim_line_ok l = true) :
    ∃ (inss : List (List Str)) (fs : List Str) (t : Int) (out : List Str),
      inss.length = target.length ∧
      anim_all t m.xp_anim_footer = some fs ∧
      read_xp_cockpit_file pObj_name m target vt0 tris0 = some out ∧
      out = weave inss (target.map (kept_line m)) ++
        marker pObj_name " start ANIM section\n" ::
          (fs ++ [marker pObj_name " end ANIM section\n", attribution_line]) ∧
      out.getLast? = some attribution_line := by
  obtain ⟨st1, inss, e1, len1, l1, _, _, _⟩ :=
    read_loop_total pObj_name m hok target (read_start target vt0 tris0)
      (read_start_fields target vt0 tris0).1 hh
  obtain ⟨fs, hfs⟩ := anim_all_total st1.orig_tris_count m.xp_anim_footer ha
  refine ⟨inss, fs, st1.orig_tris_count, _, len1, hfs,
    read_xp_cockpit_file_eq pObj_name m target vt0 tris0 st1 fs e1 hfs, ?_, ?_⟩
  · rw [l1, (read_start_fields target vt0 tris0).2.1, List.nil_append]
    rfl
  · have e : st1.xp_cockpit_lines ++ anim_block pObj_name fs
        = (st1.xp_cockpit_lines ++ marker pObj_name " start ANIM section\n" ::
            (fs ++ [marker pObj_name " end ANIM section\n"])) ++ [attribution_line] := by
      simp [anim_block]
    rw [e, List.getLast?_concat]

/-- Witness of C10 on the sample target and fragment. -/
theorem footer_and_attribution_last_witness :
    (∀ l ∈ sample_target, header_ok l = true) ∧
    (∀ l ∈ sample_fragment.xp_idx_lines, idx_line_ok l = true) ∧
    (∀ l ∈ sample_fragment.xp_anim_footer, anim_line_ok l = true) ∧
    ∃ (inss : List (List Str)) (fs : List Str) (t : Int) (out : List Str),
      inss.length = sample_target.length ∧
      anim_all t sample_fragment.xp_anim_footer = some fs ∧
      read_xp_cockpit_file sample_name sample_fragment sample_target 0 0 = some out ∧
      out = weave inss (sample_target.map (kept_line sample_fragment)) ++
        marker sample_name " start ANIM section\n" ::
          (fs ++ [marker sample_name " end ANIM section\n", attribution_line]) ∧
      out.getLast? = some attribution_line :=
  ⟨by decide, by decide, by decide,
    footer_and_attribution_last sample_name sample_fragment sample_target 0 0
      (by decide) (by decide) (by decide)⟩

/-! ## C9: the footer -/

/-- C9. Footer emission: for a target with one `POINT_COUNTS` line, whose
fourth number is `I`, the output ends with the `start ANIM section` marker,
one line per fragment footer line in the fragment's order, the `end ANIM
section` marker and the attribution line.  A footer line without `TRIS` is
pushed verbatim; a footer line with `TRIS` whose tokens are `p0 a b ...`
with `a` the number `k` is pushed as `p0 (k + I) b` (the sum as an `int`,
which is `k + I` itself when that fits an `int`), `b` unchanged. -/
theorem footer_emission (pObj_name : Str) (m : xp_manip_file) (pre : List Str) (hdr : Str)
    (post : List Str) (vt0 tris0 V I : Int) (b c : Str)
    (hpre : ∀ l ∈ pre, contains l "POINT_COUNTS".toList = false)
    (hc : contains hdr "POINT_COUNTS".toList = true)
    (hp : point_counts hdr = some (V, b, c, I))
    (hpost : ∀ l ∈ post, contains l "POINT_COUNTS".toList = false)
    (hok : ∀ l ∈ m.xp_idx_lines, idx_line_ok l = true)
    (ha : ∀ l ∈ m.xp_anim_footer, anim_line_ok l = true) :
    ∃ (body fs : List Str),
      read_xp_cockpit_file pObj_name m (pre ++ hdr :: post) vt0 tris0 =
        some (body ++ marker pObj_name " start ANIM section\n" ::
          (fs ++ [marker pObj_name " end ANIM section\n", attribution_line])) ∧
      List.Forall₂ (fun l r =>
        (contains l "TRIS".toList = false → r = l) ∧
        (∀ (p0 a b1 : Str) (rest : List Str) (k : Int), contains l "TRIS".toList = true →
          line_tokens l = p0 :: a :: b1 :: rest → stoi a = some k →
          r = join_tokens [p0, showInt (wrapInt (k + I)), b1] ++ "\n".toList ∧
          (inIntRange (k + I) → r = join_tokens [p0, showInt (k + I), b1] ++ "\n".toList)))
        m.xp_anim_footer fs := by
  obtain ⟨st1, e1, _, t1⟩ := read_loop_single_header pObj_name m pre hdr post V I b c
    (read_start (pre ++ hdr :: post) vt0 tris0) (read_start_fields _ vt0 tris0).1
    hpre hc hp hpost hok
  obtain ⟨fs, hfs⟩ := anim_all_total st1.orig_tris_count m.xp_anim_footer ha
  refine ⟨st1.xp_cockpit_lines, fs,
    read_xp_cockpit_file_eq pObj_name m _ vt0 tris0 st1 fs e1 hfs, ?_⟩
  rw [t1] at hfs
  refine (anim_all_forall2 I _ fs hfs).imp ?_
  intro l r hlr
  refine ⟨fun hn => ?_, fun p0 a b1 rest k ht htok hk => ?_⟩
  · rw [anim_line_plain I l hn] at hlr
    exact (Option.some.inj hlr).symm
  · rw [anim_line_tris I l p0 a b1 rest k ht htok hk] at hlr
    refine ⟨(Option.some.inj hlr).symm, fun hr => ?_⟩
    rw [← wrapInt_of_inIntRange _ hr]
    exact (Option.some.inj hlr).symm

/-- Witness of C9: the sample fragment's `TRIS 0 2` becomes `TRIS 50 2`
behind the sample target's `POINT_COUNTS 100 0 0 50`. -/
theorem footer_emission_witness :
    (∀ l ∈ ([] : List Str), contains l "POINT_COUNTS".toList = false) ∧
    contains "POINT_COUNTS 100 0 0 50".toList "POINT_COUNTS".toList = true ∧
    point_counts "POINT_COUNTS 100 0 0 50".toList = some (100, "0".toList, "0".toList, 50) ∧
    (∀ l ∈ sample_target.tail, contains l "POINT_COUNTS".toList = false) ∧
    (∀ l ∈ sample_fragment.xp_idx_lines, idx_line_ok l = true) ∧
    (∀ l ∈ sample_fragment.xp_anim_footer, anim_line_ok l = true) ∧
    ∃ (body fs : List Str),
      read_xp_cockpit_file sample_name sample_fragment
          ([] ++ "POINT_COUNTS 100 0 0 50".toList :: sample_target.tail) 0 0 =
        some (body ++ marker sample_name " start ANIM section\n" ::
          (fs ++ [marker sample_name " end ANIM section\n", attribution_line])) ∧
      List.Forall₂ (fun l r =>
        (contains l "TRIS".toList = false → r = l) ∧
        (∀ (p0 a b1 : Str) (rest : List Str) (k : Int), contains l "TRIS".toList = true →
          line_tokens l = p0 :: a :: b1 :: rest → stoi a = some k →
          r = join_tokens [p0, showInt (wrapInt (k + 50)), b1] ++ "\n".toList ∧
          (inIntRange (k + 50) → r = join_tokens [p0, showInt (k + 50), b1] ++ "\n".toList)))
        sample_fragment.xp_anim_footer fs :=
  ⟨by decide, by decide, by decide, by decide, by decide, by decide,
    footer_emission sample_name sample_fragment [] "POINT_COUNTS 100 0 0 50".toList
      sample_target.tail 0 0 100 50 "0".toList "0".toList
      (by decide) (by decide) (by decide) (by decide) (by decide) (by decide)⟩

/-! ## C2: the header -/

theorem analyze_loop_append (xs ys : List Str) : ∀ (n : Nat) (r : Nat × Nat × Int),
    analyze_loop (xs ++ ys) n r = analyze_loop ys (n + xs.length) (analyze_loop xs n r) := by
  induction xs with
  | nil => intro n r; simp [analyze_loop]
  | cons x xs ih =>
    intro n r
    obtain ⟨a, b, c⟩ := r
    simp only [List.cons_append, analyze_loop, List.append_eq, List.length_cons]
    rw [ih]
    congr 1
    omega

theorem analyze_loop_vt_ge (ys : List Str) : ∀ (n : Nat) (r : Nat × Nat × Int),
    (∃ y ∈ ys, isVtLine y = true) → n + 1 ≤ (analyze_loop ys n r).1 := by
  induction ys with
  | nil => intro n r h; simp at h
  | cons y ys ih =>
    intro n r h
    obtain ⟨a, b, c⟩ := r
    simp only [analyze_loop]
    by_cases h1 : ∃ z ∈ ys, isVtLine z = true
    · have := ih (n + 1) (if isVtLine y = true then n + 1 else a,
        if isIdxLine y = true then n + 1 else b,
        if isVtLine y = true then wrapInt (c + 1) else c) h1
      omega
    · have h2 : ∀ z ∈ ys, isVtLine z = false := by
        intro z hz
        cases hv : isVtLine z with
        | false => rfl
        | true => exact absurd ⟨z, hz, hv⟩ h1
      rw [analyze_loop_vt_same ys _ _ h2]
      obtain ⟨z, hz, hv⟩ := h
      rcases List.mem_cons.mp hz with rfl | hz
      · simp [hv]
      · rw [h2 z hz] at hv; exact absurd hv (by decide)

theorem analyze_loop_idx_ge (ys : List Str) : ∀ (n : Nat) (r : Nat × Nat × Int),
    (∃ y ∈ ys, isIdxLine y = true) → n + 1 ≤ (analyze_loop ys n r).2.1 := by
  induction ys with
  | nil => intro n r h; simp at h
  | cons y ys ih =>
    intro n r h
    obtain ⟨a, b, c⟩ := r
    simp only [analyze_loop]
    by_cases h1 : ∃ z ∈ ys, isIdxLine z = true
    · have := ih (n + 1) (if isVtLine y = true then n + 1 else a,
        if isIdxLine y = true then n + 1 else b,
        if isVtLine y = true then wrapInt (c + 1) else c) h1
      omega
    · have h2 : ∀ z ∈ ys, isIdxLine z = false := by
        intro z hz
        cases hv : isIdxLine z with
        | false => rfl
        | true => exact absurd ⟨z, hz, hv⟩ h1
      rw [analyze_loop_idx_same ys _ _ h2]
      obtain ⟨z, hz, hv⟩ := h
      rcases List.mem_cons.mp hz with rfl | hz
      · simp [hv]
      · rw [h2 z hz] at hv; exact absurd hv (by decide)

theorem analyze_vt_after (pre : List Str) (hdr : Str) (post : List Str) (r : Nat × Nat × Int)
    (h : ∃ y ∈ post, isVtLine y = true) :
    pre.length + 2 ≤ (analyze_xp_cockpit_file (pre ++ hdr :: post) r).1 := by
  unfold analyze_xp_cockpit_file
  rw [analyze_loop_append]
  generalize analyze_loop pre 0 r = r1
  obtain ⟨x, y, z⟩ := r1
  simp only [analyze_loop]
  refine le_trans ?_ (analyze_loop_vt_ge post _ _ h)
  omega

theorem analyze_idx_after (pre : List Str) (hdr : Str) (post : List Str) (r : Nat × Nat × Int)
    (h : ∃ y ∈ post, isIdxLine y = true) :
    pre.length + 2 ≤ (analyze_xp_cockpit_file (pre ++ hdr :: post) r).2.1 := by
  unfold analyze_xp_cockpit_file
  rw [analyze_loop_append]
  generalize analyze_loop pre 0 r = r1
  obtain ⟨x, y, z⟩ := r1
  simp only [analyze_loop]
  refine le_trans ?_ (analyze_loop_idx_ge post _ _ h)
  omega

/-- C2. Header rewrite: for a target whose header line `hdr` (tokens
`POINT_COUNTS a b c d`) comes after lines without `POINT_COUNTS` and ahead of
the target's vertex and index lines, and a fragment with header counts
`fv = m.vt_count`, `fi = m.idx_count` (the sums fitting an `int`), the output
holds the lines before the header unchanged, then the one summary comment
`# KITBASH - <name> VTs: fv TRIs: fi`, then directly the rewritten header
`POINT_COUNTS (a+fv) b c (d+fi)` with the two middle fields copied. -/
theorem header_rewrite (pObj_name : Str) (m : xp_manip_file) (pre : List Str) (hdr : Str)
    (post : List Str) (vt0 tris0 a d : Int) (b c : Str)
    (hpre : ∀ l ∈ pre, contains l "POINT_COUNTS".toList = false)
    (hc : contains hdr "POINT_COUNTS".toList = true)
    (hp : point_counts hdr = some (a, b, c, d))
    (hvt : ∃ l ∈ post, isVtLine l = true)
    (hidx : ∃ l ∈ post, isIdxLine l = true)
    (hh : ∀ l ∈ post, header_ok l = true)
    (hok : ∀ l ∈ m.xp_idx_lines, idx_line_ok l = true)
    (ha : ∀ l ∈ m.xp_anim_footer, anim_line_ok l = true)
    (hr1 : inIntRange (a + m.vt_count)) (hr2 : inIntRange (d + m.idx_count)) :
    ∃ rest : List Str,
      read_xp_cockpit_file pObj_name m (pre ++ hdr :: post) vt0 tris0 =
        some (withNewlines pre ++
          ("# KITBASH - ".toList ++ pObj_name ++ " VTs: ".toList ++ showInt m.vt_count
            ++ " TRIs: ".toList ++ showInt m.idx_count ++ "\n".toList) ::
          ("POINT_COUNTS ".toList ++ showInt (a + m.vt_count) ++ " ".toList ++ b ++ " ".toList
            ++ c ++ " ".toList ++ showInt (d + m.idx_count) ++ "\n".toList) :: rest) := by
  obtain ⟨f1, f2, f3, f4, f5, f6, f7⟩ := read_start_fields (pre ++ hdr :: post) vt0 tris0
  have hL := analyze_vt_after pre hdr post (0, 0, vt0) hvt
  have hM := analyze_idx_after pre hdr post (0, 0, vt0) hidx
  generalize hst0 : read_start (pre ++ hdr :: post) vt0 tris0 = st0 at f1 f2 f3 f4 f5 f6 f7
  rw [← f6] at hL
  rw [← f7] at hM
  have e1 := read_loop_plain pObj_name m pre st0 f1 hpre (Or.inr (by omega)) (Or.inr (by omega))
  have e2 := read_line_header pObj_name m _ hdr a d b c
    (show ({ st0 with
      xp_cockpit_lines := st0.xp_cockpit_lines ++ withNewlines pre
      line_num := st0.line_num + pre.length } : CockpitState).ignoring_vt_lines = false from f1)
    hc hp (Or.inr (by simp only; omega)) (Or.inr (by simp only; omega))
  obtain ⟨st3, inss, e3, _, l3, _, _, _⟩ := read_loop_total pObj_name m hok post _
    (show ({ ({ st0 with
      xp_cockpit_lines := st0.xp_cockpit_lines ++ withNewlines pre
      line_num := st0.line_num + pre.length } : CockpitState) with
        xp_cockpit_lines := (st0.xp_cockpit_lines ++ withNewlines pre) ++
          [summary_line pObj_name m,
            header_text (wrapInt (a + m.vt_count)) b c (wrapInt (d + m.idx_count)) ++ "\n".toList]
        line_num := st0.line_num + pre.length + 2
        orig_vt_count := a
        orig_tris_count := d
        orig_vt_end_index := st0.orig_vt_end_index + 1
        orig_idx_end_index := st0.orig_idx_end_index + 1 } : CockpitState).ignoring_vt_lines
          = false from f1) hh
  obtain ⟨fs, hfs⟩ := anim_all_total st3.orig_tris_count m.xp_anim_footer ha
  have e4 : read_loop pObj_name m (pre ++ hdr :: post) st0 = some st3 := by
    rw [read_loop_append, e1]
    simp only [Option.some_bind, read_loop, e2]
    exact e3
  refine ⟨weave inss (post.map (kept_line m)) ++ anim_block pObj_name fs, ?_⟩
  rw [read_xp_cockpit_file_eq pObj_name m (pre ++ hdr :: post) vt0 tris0 st3 fs
    (by rw [hst0]; exact e4) hfs, l3]
  simp only [f2, wrapInt_of_inIntRange _ hr1, wrapInt_of_inIntRange _ hr2, summary_line,
    header_text, List.nil_append, List.append_assoc, List.cons_append]


/-- Witness of C2: `POINT_COUNTS 100 0 0 50` with `fv = 4`, `fi = 2` gives
`POINT_COUNTS 104 0 0 52`, directly behind the summary comment. -/
theorem header_rewrite_witness :
    ((∀ l ∈ ([] : List Str), contains l "POINT_COUNTS".toList = false) ∧
    contains "POINT_COUNTS 100 0 0 50".toList "POINT_COUNTS".toList = true ∧
    point_counts "POINT_COUNTS 100 0 0 50".toList = some (100, "0".toList, "0".toList, 50) ∧
    (∃ l ∈ sample_target.tail, isVtLine l = true) ∧
    (∃ l ∈ sample_target.tail, isIdxLine l = true) ∧
    (∀ l ∈ sample_target.tail, header_ok l = true) ∧
    (∀ l ∈ sample_fragment.xp_idx_lines, idx_line_ok l = true) ∧
    (∀ l ∈ sample_fragment.xp_anim_footer, anim_line_ok l = true) ∧
    inIntRange (100 + sample_fragment.vt_count) ∧ inIntRange (50 + sample_fragment.idx_count)) ∧
    (∃ rest : List Str,
      read_xp_cockpit_file sample_name sample_fragment
          ([] ++ "POINT_COUNTS 100 0 0 50".toList :: sample_target.tail) 0 0 =
        some (withNewlines [] ++
          ("# KITBASH - ".toList ++ sample_name ++ " VTs: ".toList
            ++ showInt sample_fragment.vt_count
            ++ " TRIs: ".toList ++ showInt sample_fragment.idx_count ++ "\n".toList) ::
          ("POINT_COUNTS ".toList ++ showInt (100 + sample_fragment.vt_count) ++ " ".toList
            ++ "0".toList ++ " ".toList ++ "0".toList ++ " ".toList
            ++ showInt (50 + sample_fragment.idx_count) ++ "\n".toList) :: rest)) ∧
    "POINT_COUNTS ".toList ++ showInt (100 + sample_fragment.vt_count) ++ " ".toList
        ++ "0".toList ++ " ".toList ++ "0".toList ++ " ".toList
        ++ showInt (50 + sample_fragment.idx_count) ++ "\n".toList
      = "POINT_COUNTS 104 0 0 52\n".toList ∧
    "# KITBASH - ".toList ++ sample_name ++ " VTs: ".toList ++ showInt sample_fragment.vt_count
        ++ " TRIs: ".toList ++ showInt sample_fragment.idx_count ++ "\n".toList
      = "# KITBASH - wiper1 VTs: 4 TRIs: 2\n".toList :=
  ⟨⟨by decide, by decide, by decide, by decide, by decide, by decide, by decide, by decide,
      by decide, by decide⟩,
    header_rewrite sample_name sample_fragment [] "POINT_COUNTS 100 0 0 50".toList
      sample_target.tail 0 0 100 50 "0".toList "0".toList
      (by decide) (by decide) (by decide) (by decide) (by decide) (by decide) (by decide)
      (by decide) (by decide) (by decide),
    by decide, by decide⟩

/-! ## Targets in the standard layout -/

theorem read_layout (pObj_name : Str) (m : xp_manip_file) (pre : List Str) (hdr : Str)
    (vts : List Str) (i1 : Str) (ixs : List Str) (f1 : Str) (fs : List Str)
    (vt0 tris0 V I : Int) (b c : Str) (rs as : List Str)
    (hL : StandardLayout pre hdr vts i1 ixs f1 fs)
    (hp : point_counts hdr = some (V, b, c, I))
    (hrs : rebase_all V m.xp_idx_lines = some rs)
    (has : anim_all I m.xp_anim_footer = some as) :
    read_xp_cockpit_file pObj_name m (pre ++ hdr :: (vts ++ i1 :: (ixs ++ f1 :: fs))) vt0 tris0
      = some (layout_lines pObj_name m pre
          (header_text (wrapInt (V + m.vt_count)) b c (wrapInt (I + m.idx_count)))
          vts i1 ixs (f1 :: fs) rs ++ anim_block pObj_name as) := by
  obtain ⟨h1, h2, h3, h4, h5, h6, h7, h8, h9⟩ := hL
  obtain ⟨vc, hst⟩ := read_start_layout pre hdr vts i1 ixs f1 fs vt0 tris0 h6 h7 h8 h9
  obtain ⟨st1, e1, t1, l1⟩ := read_loop_layout pObj_name m pre hdr vts i1 ixs f1 fs vc tris0
    V I b c rs h1 h2 hp h3 h4 h5 hrs
  rw [← hst] at e1
  rw [read_xp_cockpit_file_eq pObj_name m _ vt0 tris0 st1 as e1 (by rw [t1]; exact has), l1]

theorem stoi_digits_inIntRange (neg : Bool) (ds : Str) (v : Int)
    (h : stoi_digits neg ds = some v) : inIntRange v := by
  unfold stoi_digits at h
  by_cases h1 : ds.isEmpty = true
  · simp [h1] at h
  · simp only [h1, Bool.false_eq_true, if_false] at h
    by_cases h2 : (-2147483648 ≤ (if neg = true then -(digitsValue ds : Int) else digitsValue ds))
        ∧ (if neg = true then -(digitsValue ds : Int) else digitsValue ds) ≤ 2147483647
    · rw [if_pos h2] at h
      rw [← Option.some.inj h]
      exact h2
    · rw [if_neg h2] at h
      exact absurd h (by simp)

theorem stoi_inIntRange (s : Str) (v : Int) (h : stoi s = some v) : inIntRange v :=
  stoi_digits_inIntRange _ _ v h

theorem point_counts_inIntRange (l : Str) (v t : Int) (b c : Str)
    (h : point_counts l = some (v, b, c, t)) : inIntRange v ∧ inIntRange t := by
  unfold point_counts at h
  revert h
  generalize split_string (strip_delimit_string l " ".toList) " ".toList = parts
  intro h
  cases h1 : parts[1]? <;> cases h2 : parts[2]? <;> cases h3 : parts[3]? <;>
    cases h4 : parts[4]? <;> simp only [h1, h2, h3, h4] at h <;> try (simp at h)
  rename_i p1 p2 p3 p4
  cases h5 : stoi p1 <;> cases h6 : stoi p4 <;> simp only [h5, h6] at h <;> try (simp at h)
  obtain ⟨rfl, _, _, rfl⟩ := h
  exact ⟨stoi_inIntRange _ _ h5, stoi_inIntRange _ _ h6⟩

theorem rebase_tokens_eq (V : Int) (ps : List Str) : ∀ ks : List Int,
    ps.map stoi = ks.map some → (∀ k ∈ ks, inIntRange (k + V)) →
    rebase_tokens V ps = some ((ks.map (fun k => ' ' :: showInt (k + V))).flatten) := by
  induction ps with
  | nil =>
    intro ks h _
    cases ks with
    | nil => rfl
    | cons k ks => simp at h
  | cons p ps ih =>
    intro ks h hr
    cases ks with
    | nil => simp at h
    | cons k ks =>
      simp only [List.map_cons, List.cons.injEq] at h
      simp only [rebase_tokens, h.1, ih ks h.2 (fun x hx => hr x (List.mem_cons_of_mem _ hx)),
        Option.map_some', wrapInt_of_inIntRange _ (hr k (List.mem_cons_self _ _))]
      simp

theorem rebase_idx_line_eq (V : Int) (l tag : Str) (ps : List Str) (ks : List Int)
    (htok : line_tokens l = tag :: ps) (hks : ps.map stoi = ks.map some)
    (hr : ∀ k ∈ ks, inIntRange (k + V)) :
    rebase_idx_line V l =
      some (join_tokens (tag :: ks.map (fun k => showInt (k + V))) ++ "\n".toList) := by
  unfold line_tokens at htok
  unfold rebase_idx_line
  simp only [htok, rebase_tokens_eq V ps ks hks hr, Option.map_some', join_tokens,
    List.map_map]
  rfl

theorem rebase_all_forall2 (V : Int) (ls : List Str) : ∀ rs, rebase_all V ls = some rs →
    List.Forall₂ (fun l r => rebase_idx_line V l = some r) ls rs := by
  induction ls with
  | nil => intro rs h; simp [rebase_all] at h; subst h; exact List.Forall₂.nil
  | cons l ls ih =>
    intro rs h
    simp only [rebase_all] at h
    cases h1 : rebase_idx_line V l with
    | none => simp [h1] at h
    | some r =>
      cases h2 : rebase_all V ls with
      | none => simp [h1, h2] at h
      | some rs1 =>
        simp [h1, h2] at h
        subst h
        exact List.Forall₂.cons h1 (ih rs1 h2)

theorem stoi_of_map_eq (ps : List Str) : ∀ ks : List Int, ps.map stoi = ks.map some →
    ks.length = ps.length ∧ ∀ k ∈ ks, ∃ p ∈ ps, stoi p = some k := by
  induction ps with
  | nil =>
    intro ks h
    cases ks with
    | nil => simp
    | cons k ks => simp at h
  | cons p ps ih =>
    intro ks h
    cases ks with
    | nil => simp at h
    | cons k ks =>
      simp only [List.map_cons, List.cons.injEq] at h
      obtain ⟨i1, i2⟩ := ih ks h.2
      refine ⟨by simp [i1], ?_⟩
      intro x hx
      rcases List.mem_cons.mp hx with rfl | hx
      · exact ⟨p, List.mem_cons_self _ _, h.1⟩
      · obtain ⟨q, hq, hs⟩ := i2 x hx
        exact ⟨q, List.mem_cons_of_mem _ hq, hs⟩

/-! ## C1: re-basing the fragment index lines -/

theorem forall2_imp_of_mem {α β : Type} {R S : α → β → Prop} {ls : List α} {rs : List β}
    (h : List.Forall₂ R ls rs) : (∀ l ∈ ls, ∀ r, R l r → S l r) → List.Forall₂ S ls rs := by
  induction h with
  | nil => intro _; exact List.Forall₂.nil
  | cons h _ ih =>
    intro himp
    exact List.Forall₂.cons (himp _ (List.mem_cons_self _ _) _ h)
      (ih (fun l hl r hr => himp l (List.mem_cons_of_mem _ hl) r hr))

/-- C1. Re-basing: for a target in the standard layout whose header declares
`V` vertices, and a fragment whose index lines have numbers for all tokens
after the first (with `k + V` fitting an `int`), the output holds, between
the `start IDX section` and `end IDX section` markers, one line per fragment
index line, in order.  For a fragment line with tokens `tag p1 .. pn`, the
`pj` reading as the numbers `k1 .. kn`, the emitted line is
`tag (k1+V) .. (kn+V)`: cut into tokens again it gives the same first token
and the same number of tokens, every emitted number reads back as `k + V`,
and for `V = 0` the numbers are unchanged (the tokens themselves, when they
are written the way `ostream << int` writes them). -/
theorem index_rebasing (pObj_name : Str) (m : xp_manip_file) (pre : List Str) (hdr : Str)
    (vts : List Str) (i1 : Str) (ixs : List Str) (f1 : Str) (fs : List Str)
    (vt0 tris0 V I : Int) (b c : Str)
    (hL : StandardLayout pre hdr vts i1 ixs f1 fs)
    (hp : point_counts hdr = some (V, b, c, I))
    (htok : ∀ l ∈ m.xp_idx_lines, ∀ p ∈ (line_tokens l).tail,
      ∃ k, stoi p = some k ∧ inIntRange (k + V))
    (ha : ∀ l ∈ m.xp_anim_footer, anim_line_ok l = true) :
    ∃ (rs before after : List Str),
      read_xp_cockpit_file pObj_name m (pre ++ hdr :: (vts ++ i1 :: (ixs ++ f1 :: fs))) vt0 tris0
        = some (before ++ marker pObj_name " start IDX section\n" ::
            (rs ++ marker pObj_name " end IDX section\n" :: after)) ∧
      List.Forall₂ (fun l r =>
        ∀ (tag : Str) (ps : List Str) (ks : List Int),
          line_tokens l = tag :: ps → ps.map stoi = ks.map some →
          r = join_tokens (tag :: ks.map (fun k => showInt (k + V))) ++ "\n".toList ∧
          line_tokens r = tag :: ks.map (fun k => showInt (k + V)) ∧
          (line_tokens r).length = (line_tokens l).length ∧
          (∀ k ∈ ks, stoi (showInt (k + V)) = some (k + V)) ∧
          (V = 0 → r = join_tokens (tag :: ks.map showInt) ++ "\n".toList) ∧
          (V = 0 → ps = ks.map showInt → r = join_tokens (line_tokens l) ++ "\n".toList))
        m.xp_idx_lines rs := by
  have hok : ∀ l ∈ m.xp_idx_lines, idx_line_ok l = true := by
    intro l hl
    unfold idx_line_ok
    rw [List.all_eq_true]
    intro p hp1
    obtain ⟨k, hk, _⟩ := htok l hl p hp1
    rw [hk]; rfl
  obtain ⟨rs, hrs⟩ := rebase_all_total V m.xp_idx_lines hok
  obtain ⟨as, has⟩ := anim_all_total I m.xp_anim_footer ha
  refine ⟨rs, withNewlines pre ++ summary_line pObj_name m ::
      ((header_text (wrapInt (V + m.vt_count)) b c (wrapInt (I + m.idx_count)) ++ "\n".toList) ::
        (withNewlines vts ++ (i1 ++ "\n".toList) :: (vt_block pObj_name m ++ withNewlines ixs))),
    withNewlines (f1 :: fs) ++ anim_block pObj_name as, ?_, ?_⟩
  · rw [read_layout pObj_name m pre hdr vts i1 ixs f1 fs vt0 tris0 V I b c rs as hL hp hrs has]
    simp [layout_lines, idx_block]
  · refine forall2_imp_of_mem (rebase_all_forall2 V m.xp_idx_lines rs hrs) ?_
    intro l hl r hlr tag ps ks htk hks
    obtain ⟨hlen, hex⟩ := stoi_of_map_eq ps ks hks
    have hr : ∀ k ∈ ks, inIntRange (k + V) := by
      intro k hk
      obtain ⟨p, hp1, hp2⟩ := hex k hk
      obtain ⟨k1, hk1, hk2⟩ := htok l hl p (by rw [htk]; exact hp1)
      rw [hp2] at hk1
      rw [Option.some.inj hk1]
      exact hk2
    rw [rebase_idx_line_eq V l tag ps ks htk hks hr] at hlr
    have hr1 := (Option.some.inj hlr).symm
    have htoks : line_tokens r = tag :: ks.map (fun k => showInt (k + V)) := by
      rw [hr1]
      refine line_tokens_retag l tag ps _ htk (by simp [hlen]) ?_
      intro t ht
      obtain ⟨k, _, rfl⟩ := List.mem_map.mp ht
      exact ⟨(showInt_word _).1, (showInt_word _).2.2⟩
    refine ⟨hr1, htoks, ?_, ?_, ?_, ?_⟩
    · rw [htoks, htk]; simp [hlen]
    · intro k hk
      exact stoi_showInt _ (hr k hk).1 (hr k hk).2
    · intro hV
      rw [hr1, hV]
      simp
    · intro hV hcan
      rw [hr1, hV, htk, hcan]
      simp


theorem tokens_of_check (P : Int → Prop) [DecidablePred P] (ls : List Str)
    (h : ls.all (fun l => (line_tokens l).tail.all (fun p =>
      match stoi p with
      | some k => decide (P k)
      | none => false)) = true) :
    ∀ l ∈ ls, ∀ p ∈ (line_tokens l).tail, ∃ k, stoi p = some k ∧ P k := by
  intro l hl p hp
  rw [List.all_eq_true] at h
  have h1 := h l hl
  rw [List.all_eq_true] at h1
  have h2 := h1 p hp
  cases hs : stoi p with
  | none => rw [hs] at h2; exact absurd h2 (by simp)
  | some k =>
    rw [hs] at h2
    exact ⟨k, rfl, of_decide_eq_true h2⟩

/-- Witness of C1: the sample fragment behind the sample target (`V = 100`). -/
theorem index_rebasing_witness :
    (StandardLayout [] "POINT_COUNTS 100 0 0 50".toList
      ["VT 0 0 0 0 1 0 0 0".toList, "VT 1 0 0 0 1 0 1 0".toList]
      "IDX10 0 1 0 1 0 1 0 1 0 1".toList ["IDX 1".toList] "TRIS 0 50".toList [] ∧
    point_counts "POINT_COUNTS 100 0 0 50".toList = some (100, "0".toList, "0".toList, 50) ∧
    (∀ l ∈ sample_fragment.xp_idx_lines, ∀ p ∈ (line_tokens l).tail,
      ∃ k, stoi p = some k ∧ inIntRange (k + 100)) ∧
    (∀ l ∈ sample_fragment.xp_anim_footer, anim_line_ok l = true)) ∧
    ∃ (rs before after : List Str),
      read_xp_cockpit_file sample_name sample_fragment
          ([] ++ "POINT_COUNTS 100 0 0 50".toList ::
            (["VT 0 0 0 0 1 0 0 0".toList, "VT 1 0 0 0 1 0 1 0".toList] ++
              "IDX10 0 1 0 1 0 1 0 1 0 1".toList :: (["IDX 1".toList] ++ "TRIS 0 50".toList :: [])))
          0 0
        = some (before ++ marker sample_name " start IDX section\n" ::
            (rs ++ marker sample_name " end IDX section\n" :: after)) ∧
      List.Forall₂ (fun l r =>
        ∀ (tag : Str) (ps : List Str) (ks : List Int),
          line_tokens l = tag :: ps → ps.map stoi = ks.map some →
          r = join_tokens (tag :: ks.map (fun k => showInt (k + 100))) ++ "\n".toList ∧
          line_tokens r = tag :: ks.map (fun k => showInt (k + 100)) ∧
          (line_tokens r).length = (line_tokens l).length ∧
          (∀ k ∈ ks, stoi (showInt (k + 100)) = some (k + 100)) ∧
          ((100 : Int) = 0 → r = join_tokens (tag :: ks.map showInt) ++ "\n".toList) ∧
          ((100 : Int) = 0 → ps = ks.map showInt →
            r = join_tokens (line_tokens l) ++ "\n".toList))
        sample_fragment.xp_idx_lines rs :=
  ⟨⟨by decide, by decide,
      tokens_of_check (fun k => inIntRange (k + 100)) sample_fragment.xp_idx_lines (by decide),
      by decide⟩,
    index_rebasing sample_name sample_fragment [] "POINT_COUNTS 100 0 0 50".toList
      ["VT 0 0 0 0 1 0 0 0".toList, "VT 1 0 0 0 1 0 1 0".toList]
      "IDX10 0 1 0 1 0 1 0 1 0 1".toList ["IDX 1".toList] "TRIS 0 50".toList [] 0 0 100 50
      "0".toList "0".toList (by decide) (by decide)
      (tokens_of_check (fun k => inIntRange (k + 100)) sample_fragment.xp_idx_lines (by decide))
      (by decide)⟩

/-! ## C8: the re-based indices stay below the new vertex count -/

/-- C8. Index validity after the merge: for a target in the standard layout
whose header declares `V` vertices and a fragment declaring `fv =
m.vt_count` vertices (with `V + fv` fitting an `int`), if every number `k`
of every fragment index line satisfies `0 ≤ k < fv`, then the rewritten
header carries the vertex count `V + fv` and every line of the inserted
index block has the tokens `tag k1' .. kn'` with `V ≤ kj' < V + fv` for
every number (each reading back as itself), one number per number of the
fragment line. -/
theorem index_validity (pObj_name : Str) (m : xp_manip_file) (pre : List Str) (hdr : Str)
    (vts : List Str) (i1 : Str) (ixs : List Str) (f1 : Str) (fs : List Str)
    (vt0 tris0 V I : Int) (b c : Str)
    (hL : StandardLayout pre hdr vts i1 ixs f1 fs)
    (hp : point_counts hdr = some (V, b, c, I))
    (hfv : inIntRange (V + m.vt_count))
    (htok : ∀ l ∈ m.xp_idx_lines, ∀ p ∈ (line_tokens l).tail,
      ∃ k, stoi p = some k ∧ 0 ≤ k ∧ k < m.vt_count)
    (ha : ∀ l ∈ m.xp_anim_footer, anim_line_ok l = true) :
    ∃ (rs as : List Str),
      read_xp_cockpit_file pObj_name m (pre ++ hdr :: (vts ++ i1 :: (ixs ++ f1 :: fs))) vt0 tris0
        = some (layout_lines pObj_name m pre
            (header_text (V + m.vt_count) b c (wrapInt (I + m.idx_count)))
            vts i1 ixs (f1 :: fs) rs ++ anim_block pObj_name as) ∧
      List.Forall₂ (fun l r =>
        ∃ (tag : Str) (ks : List Int),
          line_tokens r = tag :: ks.map showInt ∧
          r = join_tokens (tag :: ks.map showInt) ++ "\n".toList ∧
          ks.length + 1 = (line_tokens l).length ∧
          ∀ k1 ∈ ks, V ≤ k1 ∧ k1 < V + m.vt_count ∧ stoi (showInt k1) = some k1)
        m.xp_idx_lines rs := by
  have hV := (point_counts_inIntRange hdr V I b c hp).1
  have hok : ∀ l ∈ m.xp_idx_lines, idx_line_ok l = true := by
    intro l hl
    unfold idx_line_ok
    rw [List.all_eq_true]
    intro p hp1
    obtain ⟨k, hk, _⟩ := htok l hl p hp1
    rw [hk]; rfl
  obtain ⟨rs, hrs⟩ := rebase_all_total V m.xp_idx_lines hok
  obtain ⟨as, has⟩ := anim_all_total I m.xp_anim_footer ha
  refine ⟨rs, as, ?_, ?_⟩
  · rw [read_layout pObj_name m pre hdr vts i1 ixs f1 fs vt0 tris0 V I b c rs as hL hp hrs has,
      wrapInt_of_inIntRange _ hfv]
  · refine forall2_imp_of_mem (rebase_all_forall2 V m.xp_idx_lines rs hrs) ?_
    intro l hl r hlr
    obtain ⟨tag, ps, htk⟩ : ∃ tag ps, line_tokens l = tag :: ps :=
      split_string_ne_nil _ _
    have hks : ∃ ks : List Int, ps.map stoi = ks.map some := by
      have hall : ∀ p ∈ ps, ∃ k, stoi p = some k := by
        intro p hp1
        obtain ⟨k, hk, _⟩ := htok l hl p (by rw [htk]; exact hp1)
        exact ⟨k, hk⟩
      clear htk
      induction ps with
      | nil => exact ⟨[], rfl⟩
      | cons p ps ih =>
        obtain ⟨k, hk⟩ := hall p (List.mem_cons_self _ _)
        obtain ⟨ks, hks⟩ := ih (fun q hq => hall q (List.mem_cons_of_mem _ hq))
        exact ⟨k :: ks, by simp [hk, hks]⟩
    obtain ⟨ks, hks⟩ := hks
    obtain ⟨hlen, hex⟩ := stoi_of_map_eq ps ks hks
    have hb : ∀ k ∈ ks, 0 ≤ k ∧ k < m.vt_count := by
      intro k hk
      obtain ⟨p, hp1, hp2⟩ := hex k hk
      obtain ⟨k1, hk1, hk2⟩ := htok l hl p (by rw [htk]; exact hp1)
      rw [hp2] at hk1
      rw [Option.some.inj hk1]
      exact hk2
    have hr : ∀ k ∈ ks, inIntRange (k + V) := by
      intro k hk
      have := hb k hk
      unfold inIntRange at hV hfv ⊢
      omega
    rw [rebase_idx_line_eq V l tag ps ks htk hks hr] at hlr
    have hr1 : r = join_tokens (tag :: (ks.map (fun k => k + V)).map showInt) ++ "\n".toList := by
      rw [← Option.some.inj hlr, List.map_map]
      rfl
    refine ⟨tag, ks.map (fun k => k + V), ?_, hr1, ?_, ?_⟩
    · rw [hr1]
      refine line_tokens_retag l tag ps _ htk (by simp [hlen]) ?_
      intro t ht
      obtain ⟨k, _, rfl⟩ := List.mem_map.mp ht
      exact ⟨(showInt_word _).1, (showInt_word _).2.2⟩
    · rw [htk]; simp [hlen]
    · intro k1 hk1
      obtain ⟨k, hk, rfl⟩ := List.mem_map.mp hk1
      have := hb k hk
      refine ⟨by omega, by omega, stoi_showInt _ (hr k hk).1 (hr k hk).2⟩

/-- Witness of C8: the sample fragment (`fv = 4`, indices `0` and `3`)
behind the sample target (`V = 100`). -/
theorem index_validity_witness :
    (StandardLayout [] "POINT_COUNTS 100 0 0 50".toList
      ["VT 0 0 0 0 1 0 0 0".toList, "VT 1 0 0 0 1 0 1 0".toList]
      "IDX10 0 1 0 1 0 1 0 1 0 1".toList ["IDX 1".toList] "TRIS 0 50".toList [] ∧
    point_counts "POINT_COUNTS 100 0 0 50".toList = some (100, "0".toList, "0".toList, 50) ∧
    inIntRange (100 + sample_fragment.vt_count) ∧
    (∀ l ∈ sample_fragment.xp_idx_lines, ∀ p ∈ (line_tokens l).tail,
      ∃ k, stoi p = some k ∧ 0 ≤ k ∧ k < sample_fragment.vt_count) ∧
    (∀ l ∈ sample_fragment.xp_anim_footer, anim_line_ok l = true)) ∧
    ∃ (rs as : List Str),
      read_xp_cockpit_file sample_name sample_fragment
          ([] ++ "POINT_COUNTS 100 0 0 50".toList ::
            (["VT 0 0 0 0 1 0 0 0".toList, "VT 1 0 0 0 1 0 1 0".toList] ++
              "IDX10 0 1 0 1 0 1 0 1 0 1".toList :: (["IDX 1".toList] ++ "TRIS 0 50".toList :: [])))
          0 0
        = some (layout_lines sample_name sample_fragment []
            (header_text (100 + sample_fragment.vt_count) "0".toList "0".toList
              (wrapInt (50 + sample_fragment.idx_count)))
            ["VT 0 0 0 0 1 0 0 0".toList, "VT 1 0 0 0 1 0 1 0".toList]
            "IDX10 0 1 0 1 0 1 0 1 0 1".toList ["IDX 1".toList] ("TRIS 0 50".toList :: []) rs
            ++ anim_block sample_name as) ∧
      List.Forall₂ (fun l r =>
        ∃ (tag : Str) (ks : List Int),
          line_tokens r = tag :: ks.map showInt ∧
          r = join_tokens (tag :: ks.map showInt) ++ "\n".toList ∧
          ks.length + 1 = (line_tokens l).length ∧
          ∀ k1 ∈ ks, 100 ≤ k1 ∧ k1 < 100 + sample_fragment.vt_count ∧
            stoi (showInt k1) = some k1)
        sample_fragment.xp_idx_lines rs :=
  ⟨⟨by decide, by decide, by decide,
      tokens_of_check (fun k => 0 ≤ k ∧ k < sample_fragment.vt_count)
        sample_fragment.xp_idx_lines (by decide),
      by decide⟩,
    index_validity sample_name sample_fragment [] "POINT_COUNTS 100 0 0 50".toList
      ["VT 0 0 0 0 1 0 0 0".toList, "VT 1 0 0 0 1 0 1 0".toList]
      "IDX10 0 1 0 1 0 1 0 1 0 1".toList ["IDX 1".toList] "TRIS 0 50".toList [] 0 0 100 50
      "0".toList "0".toList (by decide) (by decide) (by decide)
      (tokens_of_check (fun k => 0 ≤ k ∧ k < sample_fragment.vt_count)
        sample_fragment.xp_idx_lines (by decide))
      (by decide)⟩

/-! ## C3, C4, C6, C7: the code at inputs where the blocks go astray -/

/-- C3, the code at a failing input: for `tri_target` (header, three vertex
lines, three index lines, one footer line) the `start VT section` marker
does not follow the last vertex line `VT 1 0 1 0 1 0 1 1`; the original line
`IDX 0` lies between them, and the vertex block splits the index region. -/
theorem vt_block_after_first_index_line :
    read_xp_cockpit_file sample_name tri_fragment tri_target 0 0 = some
      [
      "# KITBASH - wiper1 VTs: 3 TRIs: 3\n".toList,
      "POINT_COUNTS 6 0 0 6\n".toList,
      "VT 0 0 0 0 1 0 0 0\n".toList,
      "VT 1 0 0 0 1 0 1 0\n".toList,
      "VT 1 0 1 0 1 0 1 1\n".toList,
      "IDX 0\n".toList,
      "# KITBASH - wiper1 start VT section\n".toList,
      "VT\t0.00000000\t0.00000000\t0.00000000\t0.00000000\t1.00000000\t0.00000000\t0.00000000\t0.00000000\n".toList,
      "VT\t1.00000000\t0.00000000\t0.00000000\t0.00000000\t1.00000000\t0.00000000\t1.00000000\t0.00000000\n".toList,
      "VT\t1.00000000\t0.00000000\t1.00000000\t0.00000000\t1.00000000\t0.00000000\t1.00000000\t1.00000000\n".toList,
      "# KITBASH - wiper1 end VT section\n".toList,
      "IDX 1\n".toList,
      "IDX 2\n".toList,
      "# KITBASH - wiper1 start IDX section\n".toList,
      "IDX 3\n".toList,
      "IDX 4\n".toList,
      "IDX 5\n".toList,
      "# KITBASH - wiper1 end IDX section\n".toList,
      "TRIS 0 3\n".toList,
      "# KITBASH - wiper1 start ANIM section\n".toList,
      "TRIS 3 3\n".toList,
      "# KITBASH - wiper1 end ANIM section\n".toList,
      "# KITBASH 2.0 by Jemma Studios.  Donations are motivation. https://paypal.me/JemmaStudios\n".toList ] := by
  decide

/-- C4, the code at a failing input: for `one_index_line_target` (header,
four vertex lines, one index line, one footer line) the line that follows
the target's last index line is the `start VT section` marker; the `start
IDX section` marker comes after the whole vertex block. -/
theorem idx_block_after_vt_block :
    read_xp_cockpit_file sample_name tri_fragment one_index_line_target 0 0 = some
      [
      "# KITBASH - wiper1 VTs: 3 TRIs: 3\n".toList,
      "POINT_COUNTS 7 0 0 13\n".toList,
      "VT 0 0 0 0 1 0 0 0\n".toList,
      "VT 1 0 0 0 1 0 1 0\n".toList,
      "VT 1 0 1 0 1 0 1 1\n".toList,
      "VT 0 0 1 0 1 0 0 1\n".toList,
      "IDX10 0 1 1 2 2 3 3 0 0 2\n".toList,
      "# KITBASH - wiper1 start VT section\n".toList,
      "VT\t0.00000000\t0.00000000\t0.00000000\t0.00000000\t1.00000000\t0.00000000\t0.00000000\t0.00000000\n".toList,
      "VT\t1.00000000\t0.00000000\t0.00000000\t0.00000000\t1.00000000\t0.00000000\t1.00000000\t0.00000000\n".toList,
      "VT\t1.00000000\t0.00000000\t1.00000000\t0.00000000\t1.00000000\t0.00000000\t1.00000000\t1.00000000\n".toList,
      "# KITBASH - wiper1 end VT section\n".toList,
      "# KITBASH - wiper1 start IDX section\n".toList,
      "IDX 4\n".toList,
      "IDX 5\n".toList,
      "IDX 6\n".toList,
      "# KITBASH - wiper1 end IDX section\n".toList,
      "LINES 0 10\n".toList,
      "# KITBASH - wiper1 start ANIM section\n".toList,
      "TRIS 10 3\n".toList,
      "# KITBASH - wiper1 end ANIM section\n".toList,
      "# KITBASH 2.0 by Jemma Studios.  Donations are motivation. https://paypal.me/JemmaStudios\n".toList ] := by
  decide

/-- C6, the code at a failing input: for `short_target` (header declaring 3
vertices, three vertex lines, one more line) the rewritten header declares
`3 + 3 = 6` vertices, the vertex block is never pushed, and the output has
three `VT` lines. -/
theorem vt_count_mismatch_on_short_target :
    read_xp_cockpit_file sample_name tri_fragment short_target 0 0 = some
      [
      "# KITBASH - wiper1 VTs: 3 TRIs: 3\n".toList,
      "POINT_COUNTS 6 0 0 4\n".toList,
      "VT 0 0 0 0 1 0 0 0\n".toList,
      "VT 1 0 0 0 1 0 1 0\n".toList,
      "VT 1 0 1 0 1 0 1 1\n".toList,
      "IDX 0\n".toList,
      "# KITBASH - wiper1 start ANIM section\n".toList,
      "TRIS 1 3\n".toList,
      "# KITBASH - wiper1 end ANIM section\n".toList,
      "# KITBASH 2.0 by Jemma Studios.  Donations are motivation. https://paypal.me/JemmaStudios\n".toList ] ∧
    (read_xp_cockpit_file sample_name tri_fragment short_target 0 0).map
      (fun out => (out.filter isVtLine).length) = some 3 := by
  decide

/-- C7, the code at a failing input: for `no_footer_target` (nothing after
the index region) the index block is never pushed: the output holds no
`start IDX section` and no `end IDX section` marker, and none of the three
fragment index lines. -/
theorem idx_block_missing_without_footer :
    read_xp_cockpit_file sample_name tri_fragment no_footer_target 0 0 = some
      [
      "# KITBASH - wiper1 VTs: 3 TRIs: 3\n".toList,
      "POINT_COUNTS 6 0 0 6\n".toList,
      "VT 0 0 0 0 1 0 0 0\n".toList,
      "VT 1 0 0 0 1 0 1 0\n".toList,
      "VT 1 0 1 0 1 0 1 1\n".toList,
      "IDX 0\n".toList,
      "# KITBASH - wiper1 start VT section\n".toList,
      "VT\t0.00000000\t0.00000000\t0.00000000\t0.00000000\t1.00000000\t0.00000000\t0.00000000\t0.00000000\n".toList,
      "VT\t1.00000000\t0.00000000\t0.00000000\t0.00000000\t1.00000000\t0.00000000\t1.00000000\t0.00000000\n".toList,
      "VT\t1.00000000\t0.00000000\t1.00000000\t0.00000000\t1.00000000\t0.00000000\t1.00000000\t1.00000000\n".toList,
      "# KITBASH - wiper1 end VT section\n".toList,
      "IDX 1\n".toList,
      "IDX 2\n".toList,
      "# KITBASH - wiper1 start ANIM section\n".toList,
      "TRIS 3 3\n".toList,
      "# KITBASH - wiper1 end ANIM section\n".toList,
      "# KITBASH 2.0 by Jemma Studios.  Donations are motivation. https://paypal.me/JemmaStudios\n".toList ] ∧
    (read_xp_cockpit_file sample_name tri_fragment no_footer_target 0 0).map
      (fun out => out.count (marker sample_name " start IDX section\n")
        + out.count (marker sample_name " end IDX section\n")) = some 0 := by
  decide

/-! ## The vertex transform: C11, C12, C13, C14 -/

/-- What `rotation_transform` leaves in `x`, `y`, `z` is yaw after pitch after
roll, each stage applied to the output of the previous one. -/
theorem rotation_transform_position {R : Type} [Field R] (T : Trig R) (vt : xp_vt R) :
    (vt.rotation_transform T).position =
      spec_yaw T (radians vt.psi) (spec_pitch T (radians vt.theta)
        (spec_roll T (radians vt.phi) vt.position)) := by
  simp only [xp_vt.rotation_transform, xp_vt.position, spec_yaw, spec_pitch, spec_roll, radians,
    Prod.mk.injEq]
  refine ⟨?_, ?_, ?_⟩ <;> ring

/-- With `cos 0 = 1` and `sin 0 = 0` the rotation by three zero angles moves
nothing. -/
theorem rotation_transform_zero {R : Type} [Field R] (T : Trig R)
    (hcos : T.cos 0 = 1) (hsin : T.sin 0 = 0) (vt : xp_vt R)
    (hpsi : vt.psi = 0) (htheta : vt.theta = 0) (hphi : vt.phi = 0) :
    vt.rotation_transform T = vt := by
  cases vt
  simp only at hpsi htheta hphi
  subst hpsi htheta hphi
  simp [xp_vt.rotation_transform, hcos, hsin]

/-- The translation by three zero offsets moves nothing. -/
theorem offset_tranform_zero {R : Type} [Field R] (vt : xp_vt R)
    (hx : vt.off_x = 0) (hy : vt.off_y = 0) (hz : vt.off_z = 0) :
    vt.offset_tranform = vt := by
  cases vt
  simp only at hx hy hz
  subst hx hy hz
  simp [xp_vt.offset_tranform]

/-- The guarded `transform`, as the two unconditional steps. -/
theorem transform_unfold {R : Type} [Field R] [DecidableEq R] (T : Trig R)
    (hcos : T.cos 0 = 1) (hsin : T.sin 0 = 0) (vt : xp_vt R) (tPsi tTheta tPhi xx yy zz : R) :
    vt.transform T tPsi tTheta tPhi xx yy zz =
      (((vt.set_rotation_axis tPsi tTheta tPhi).set_xyz_offsets xx yy zz).rotation_transform
        T).offset_tranform := by
  unfold xp_vt.transform
  simp only []
  have hrot : (if tPsi ≠ 0 ∨ tTheta ≠ 0 ∨ tPhi ≠ 0 then
        ((vt.set_rotation_axis tPsi tTheta tPhi).set_xyz_offsets xx yy zz).rotation_transform T
      else (vt.set_rotation_axis tPsi tTheta tPhi).set_xyz_offsets xx yy zz) =
      ((vt.set_rotation_axis tPsi tTheta tPhi).set_xyz_offsets xx yy zz).rotation_transform T := by
    split_ifs with h
    · rfl
    · simp only [not_or, not_not] at h
      exact (rotation_transform_zero T hcos hsin _ h.1 h.2.1 h.2.2).symm
  rw [hrot]
  split_ifs with h
  · rfl
  · simp only [not_or, not_not] at h
    exact (offset_tranform_zero _ h.1 h.2.1 h.2.2).symm

/-- C14: the guards of `xp_vt::transform` cannot be observed.  In exact
arithmetic, with `cos 0 = 1` and `sin 0 = 0`, the guarded `transform` returns
the same vertex (all fourteen members) as setting the angles and offsets and
then calling `rotation_transform` and `offset_tranform` unconditionally. -/
theorem transform_guards_unobservable {R : Type} [Field R] [DecidableEq R] (T : Trig R)
    (hcos : T.cos 0 = 1) (hsin : T.sin 0 = 0) (vt : xp_vt R) (tPsi tTheta tPhi xx yy zz : R) :
    vt.transform T tPsi tTheta tPhi xx yy zz =
      (((vt.set_rotation_axis tPsi tTheta tPhi).set_xyz_offsets xx yy zz).rotation_transform
        T).offset_tranform :=
  transform_unfold T hcos hsin vt tPsi tTheta tPhi xx yy zz

/-- Witness of C14 on the real numbers: the vertex `(1, 2, 3)` rolled by 90
degrees with all offsets zero, where the rotation runs and the guard of the
translation skips. -/
theorem transform_guards_unobservable_witness :
    Real.cos 0 = 1 ∧ Real.sin 0 = 0 ∧
    (xp_vt.mk 1 2 3 0 0 1 0 0 0 0 0 0 0 0 : xp_vt ℝ).transform ⟨Real.cos, Real.sin⟩ 0 0 90 0 0 0 =
      ((((xp_vt.mk 1 2 3 0 0 1 0 0 0 0 0 0 0 0 : xp_vt ℝ).set_rotation_axis 0 0 90).set_xyz_offsets
        0 0 0).rotation_transform ⟨Real.cos, Real.sin⟩).offset_tranform :=
  ⟨Real.cos_zero, Real.sin_zero,
    transform_guards_unobservable ⟨Real.cos, Real.sin⟩ Real.cos_zero Real.sin_zero _ 0 0 90 0 0 0⟩



/-- C12: with the three angles and the three offsets all zero, `transform`
leaves `x`, `y`, `z`, `nx`, `ny`, `nz`, `u` and `v` of every vertex
unchanged. -/
theorem transform_zero_identity {R : Type} [Field R] [DecidableEq R] (T : Trig R) (vt : xp_vt R) :
    (vt.transform T 0 0 0 0 0 0).x = vt.x ∧ (vt.transform T 0 0 0 0 0 0).y = vt.y ∧
    (vt.transform T 0 0 0 0 0 0).z = vt.z ∧ (vt.transform T 0 0 0 0 0 0).nx = vt.nx ∧
    (vt.transform T 0 0 0 0 0 0).ny = vt.ny ∧ (vt.transform T 0 0 0 0 0 0).nz = vt.nz ∧
    (vt.transform T 0 0 0 0 0 0).u = vt.u ∧ (vt.transform T 0 0 0 0 0 0).v = vt.v := by
  simp [xp_vt.transform, xp_vt.set_rotation_axis, xp_vt.set_xyz_offsets]

/-- C13: for every vertex, all angles and all offsets, `transform` leaves the
normal `nx`, `ny`, `nz` and the texture coordinate `u`, `v` unchanged. -/
theorem transform_keeps_normal_and_uv {R : Type} [Field R] [DecidableEq R] (T : Trig R)
    (vt : xp_vt R) (tPsi tTheta tPhi xx yy zz : R) :
    (vt.transform T tPsi tTheta tPhi xx yy zz).nx = vt.nx ∧
    (vt.transform T tPsi tTheta tPhi xx yy zz).ny = vt.ny ∧
    (vt.transform T tPsi tTheta tPhi xx yy zz).nz = vt.nz ∧
    (vt.transform T tPsi tTheta tPhi xx yy zz).u = vt.u ∧
    (vt.transform T tPsi tTheta tPhi xx yy zz).v = vt.v := by
  unfold xp_vt.transform
  simp only []
  split_ifs <;>
    simp [xp_vt.rotation_transform, xp_vt.offset_tranform, xp_vt.set_rotation_axis,
      xp_vt.set_xyz_offsets]

/-- C11: the closed form of `transform` in exact arithmetic, with
`cos 0 = 1`, `sin 0 = 0` and radians = degrees * PI / 180.  The position after
`transform` is the translation by the offsets of yaw (by psi) of pitch (by
theta) of roll (by phi) of the position before, each stage applied to the
output of the previous one; and with psi = theta = 0 it is
`(x cos phi + y sin phi + ox, -x sin phi + y cos phi + oy, z + oz)`. -/
theorem transform_closed_form {R : Type} [Field R] [DecidableEq R] (T : Trig R)
    (hcos : T.cos 0 = 1) (hsin : T.sin 0 = 0) (vt : xp_vt R) (tPsi tTheta tPhi xx yy zz : R) :
    (vt.transform T tPsi tTheta tPhi xx yy zz).position =
      spec_translate (xx, yy, zz)
        (spec_yaw T (radians tPsi) (spec_pitch T (radians tTheta)
          (spec_roll T (radians tPhi) vt.position))) ∧
    (vt.transform T 0 0 tPhi xx yy zz).position =
      (vt.x * T.cos (radians tPhi) + vt.y * T.sin (radians tPhi) + xx,
       -vt.x * T.sin (radians tPhi) + vt.y * T.cos (radians tPhi) + yy,
       vt.z + zz) := by
  have key : ∀ a b c : R, (vt.transform T a b c xx yy zz).position =
      spec_translate (xx, yy, zz)
        (spec_yaw T (radians a) (spec_pitch T (radians b)
          (spec_roll T (radians c) vt.position))) := by
    intro a b c
    rw [transform_unfold T hcos hsin]
    have h := rotation_transform_position T
      ((vt.set_rotation_axis a b c).set_xyz_offsets xx yy zz)
    simp only [xp_vt.position, xp_vt.set_rotation_axis, xp_vt.set_xyz_offsets] at h ⊢
    simp only [xp_vt.offset_tranform, spec_translate, ← h]
    simp [xp_vt.rotation_transform]
  refine ⟨key _ _ _, ?_⟩
  rw [key]
  simp [spec_translate, spec_yaw, spec_pitch, spec_roll, radians, xp_vt.position, hcos, hsin]

/-- Witness of C11 on the real numbers: the vertex `(1, 2, 3)` rolled by
phi = 90 degrees and moved by `(10, 20, 30)`. -/
theorem transform_closed_form_witness :
    Real.cos 0 = 1 ∧ Real.sin 0 = 0 ∧
    ((xp_vt.mk 1 2 3 0 0 1 0 0 0 0 0 0 0 0 : xp_vt ℝ).transform ⟨Real.cos, Real.sin⟩
        0 0 90 10 20 30).position =
      (1 * Real.cos (radians 90) + 2 * Real.sin (radians 90) + 10,
       -1 * Real.sin (radians 90) + 2 * Real.cos (radians 90) + 20,
       3 + 30) :=
  ⟨Real.cos_zero, Real.sin_zero,
    (transform_closed_form ⟨Real.cos, Real.sin⟩ Real.cos_zero Real.sin_zero
      (xp_vt.mk 1 2 3 0 0 1 0 0 0 0 0 0 0 0) 0 0 90 10 20 30).2⟩

/-! ## The descriptor look-up: the loop body -/

/-- `contains` is the sublist-of-consecutive-characters relation. -/
theorem contains_iff (s p : Str) : contains s p = true ↔ p <:+: s := by
  induction s with
  | nil =>
    simp only [contains, find, List.infix_nil]
    cases p <;> simp
  | cons c cs ih =>
    rw [List.infix_cons_iff, ← ih]
    simp only [contains, find]
    by_cases h : p.isPrefixOf (c :: cs) = true
    · simp only [h, if_true, Option.isSome_some, true_iff]
      exact Or.inl (List.isPrefixOf_iff_prefix.mp h)
    · have h2 : ¬ p <+: c :: cs := fun hp => h (List.isPrefixOf_iff_prefix.mpr hp)
      simp only [h, if_false, Bool.false_eq_true, Option.isSome_map', h2, false_or]

/-- A text that holds `a ++ b` holds `b`. -/
theorem contains_append_right (s a b : Str) (h : contains s (a ++ b) = true) :
    contains s b = true := by
  rw [contains_iff] at h ⊢
  exact List.IsInfix.trans (List.infix_append' a b []) (by simpa using h)


/-- A look-up whose key is not on the line changes nothing. -/
theorem read_key_skip {R : Type} (stof : Str → Option R) (tLine key : Str)
    (set : xp_acf_file R → R → xp_acf_file R) (a : xp_acf_file R)
    (h : contains tLine (a.pObj_i_String ++ key) = false) :
    read_key stof tLine key set a = some a := by
  simp [read_key, h]

/-- A look-up on a line with the value `v` stores `v` when the key is on the
line. -/
theorem read_key_value {R : Type} (stof : Str → Option R) (tLine key : Str)
    (set : xp_acf_file R → R → xp_acf_file R) (a : xp_acf_file R) (v : R)
    (hv : key_value stof tLine = some v) :
    read_key stof tLine key set a =
      some (if contains tLine (a.pObj_i_String ++ key) then set a v else a) := by
  unfold read_key
  split_ifs <;> simp [hv]

/-- The six look-ups on a line with the value `v` make the six assignments
of `assign_keys`. -/
theorem read_keys_value {R : Type} [Field R] (stof : Str → Option R) (tLine : Str)
    (a : xp_acf_file R) (v : R) (hv : key_value stof tLine = some v) :
    read_keys stof tLine a = some (assign_keys tLine v a) := by
  obtain ⟨f, n, p, ox, oy, oz, psi, th, phi⟩ := a
  by_cases h1 : contains tLine (p ++ "_v10_att_phi_ref".toList) = true <;>
  by_cases h2 : contains tLine (p ++ "_v10_att_psi_ref".toList) = true <;>
  by_cases h3 : contains tLine (p ++ "_v10_att_the_ref".toList) = true <;>
  by_cases h4 : contains tLine (p ++ "_v10_att_x_acf_prt_ref".toList) = true <;>
  by_cases h5 : contains tLine (p ++ "_v10_att_y_acf_prt_ref".toList) = true <;>
  by_cases h6 : contains tLine (p ++ "_v10_att_z_acf_prt_ref".toList) = true <;>
  simp only [read_keys, read_key, assign_keys, hv, h1, h2, h3, h4, h5, h6, if_true, if_false,
    Option.some_bind, Bool.false_eq_true]

/-- The six look-ups on a line that holds none of the six keys after the
slot prefix change nothing. -/
theorem read_keys_skip {R : Type} [Field R] (stof : Str → Option R) (tLine : Str)
    (a : xp_acf_file R)
    (h : ∀ key ∈ placement_keys, contains tLine (a.pObj_i_String ++ key) = false) :
    read_keys stof tLine a = some a := by
  unfold read_keys
  simp only [placement_keys, List.mem_cons, List.mem_singleton, forall_eq_or_imp, forall_eq,
    List.not_mem_nil, false_imp_iff, implies_true, and_true] at h
  obtain ⟨h1, h2, h3, h4, h5, h6⟩ := h
  rw [read_key_skip _ _ _ _ _ h1, Option.some_bind, read_key_skip _ _ _ _ _ h2, Option.some_bind,
    read_key_skip _ _ _ _ _ h3, Option.some_bind, read_key_skip _ _ _ _ _ h4, Option.some_bind,
    read_key_skip _ _ _ _ _ h5, Option.some_bind, read_key_skip _ _ _ _ _ h6]

/-- The assignments keep the file name, the object name and the slot
prefix. -/
theorem assign_keys_prefix {R : Type} [Field R] (tLine : Str) (v : R) (a : xp_acf_file R) :
    (assign_keys tLine v a).pObj_i_String = a.pObj_i_String := rfl

/-- On a line with a value for every key it holds, the six look-ups
complete and keep the slot prefix. -/
theorem read_keys_total {R : Type} [Field R] (stof : Str → Option R) (tLine : Str)
    (a : xp_acf_file R)
    (h : placement_keys.any (fun key => contains tLine key) = true →
      (key_value stof tLine).isSome = true) :
    ∃ a1, read_keys stof tLine a = some a1 ∧ a1.pObj_i_String = a.pObj_i_String := by
  cases hv : key_value stof tLine with
  | some v => exact ⟨_, read_keys_value stof tLine a v hv, rfl⟩
  | none =>
    refine ⟨a, read_keys_skip stof tLine a ?_, rfl⟩
    intro key hkey
    by_contra hc
    have hc1 : contains tLine (a.pObj_i_String ++ key) = true := by
      cases hh : contains tLine (a.pObj_i_String ++ key)
      · exact absurd hh hc
      · rfl
    have hany : placement_keys.any (fun key => contains tLine key) = true :=
      List.any_eq_true.mpr ⟨key, hkey, contains_append_right _ _ _ hc1⟩
    have := h hany
    rw [hv] at this
    simp at this

/-- Before the name is found, a line that does not hold it changes nothing. -/
theorem line_before_match {R : Type} [Field R] (stof : Str → Option R) (tName : Str)
    (a : xp_acf_file R) (line : Str) (h : name_line tName line = false) :
    set_pObj_fName_line stof tName (a, 0) line = some (a, 0) := by
  unfold name_line at h
  simp [set_pObj_fName_line, match_line, h]

/-- What `match_line` does on a line that holds the name. -/
theorem match_line_name {R : Type} (tName : Str) (st : xp_acf_file R × Int) (line slot : Str)
    (h : name_line tName line = true) (hs : slot_of (string_to_lower line) = some slot) :
    match_line tName st (string_to_lower line) =
      some ({ st.1 with xp_pObj_fName := tName,
                        pObj_i_String := "p _obja/".toList ++ slot ++ "/".toList }, 1) := by
  unfold name_line at h
  simp only [match_line, h, if_true, hs]

/-- What `match_line` does on a line that does not hold the name. -/
theorem match_line_other {R : Type} (tName : Str) (st : xp_acf_file R × Int) (line : Str)
    (h : name_line tName line = false) :
    match_line tName st (string_to_lower line) = some st := by
  unfold name_line at h
  simp only [match_line, h, Bool.false_eq_true, if_false]

/-- A readable line that holds the name completes the loop body with
`found_it = 1`. -/
theorem line_at_match {R : Type} [Field R] (stof : Str → Option R) (tName : Str)
    (st : xp_acf_file R × Int) (line : Str) (h : name_line tName line = true)
    (hok : line_ok stof tName line) :
    ∃ a1 slot, slot_of (string_to_lower line) = some slot ∧
      set_pObj_fName_line stof tName st line = some (a1, 1) ∧
      a1.pObj_i_String = "p _obja/".toList ++ slot ++ "/".toList := by
  obtain ⟨slot, hs⟩ := Option.isSome_iff_exists.mp (hok.1 h)
  obtain ⟨a1, h1, h2⟩ := read_keys_total stof (string_to_lower line)
    ({ st.1 with xp_pObj_fName := tName,
                 pObj_i_String := "p _obja/".toList ++ slot ++ "/".toList }) hok.2
  refine ⟨a1, slot, hs, ?_, h2⟩
  simp only [set_pObj_fName_line, match_line_name tName st line slot h hs, if_true, h1,
    Option.map_some']

/-- After the name is found, a readable line that does not hold it completes
the loop body and keeps the slot prefix. -/
theorem line_after_match {R : Type} [Field R] (stof : Str → Option R) (tName : Str)
    (a : xp_acf_file R) (line : Str) (h : name_line tName line = false)
    (hok : line_ok stof tName line) :
    ∃ a1, set_pObj_fName_line stof tName (a, 1) line = some (a1, 1) ∧
      a1.pObj_i_String = a.pObj_i_String := by
  obtain ⟨a1, h1, h2⟩ := read_keys_total stof (string_to_lower line) a hok.2
  refine ⟨a1, ?_, h2⟩
  simp only [set_pObj_fName_line, match_line_other tName (a, 1) line h, if_true, h1,
    Option.map_some']

/-- The loop over lines that do not hold the name, before the name is found. -/
theorem loop_before_match {R : Type} [Field R] (stof : Str → Option R) (tName : Str)
    (a : xp_acf_file R) (lines : List Str) (h : ∀ l ∈ lines, name_line tName l = false) :
    set_pObj_fName_loop stof tName lines (a, 0) = some (a, 0) := by
  induction lines with
  | nil => rfl
  | cons l ls ih =>
    simp only [set_pObj_fName_loop, line_before_match stof tName a l (h l (List.mem_cons_self _ _))]
    exact ih (fun x hx => h x (List.mem_cons_of_mem _ hx))

/-- The loop over the concatenation of two lists of lines. -/
theorem set_pObj_fName_loop_append {R : Type} [Field R] (stof : Str → Option R) (tName : Str)
    (xs ys : List Str) (st : xp_acf_file R × Int) :
    set_pObj_fName_loop stof tName (xs ++ ys) st =
      (set_pObj_fName_loop stof tName xs st).bind (set_pObj_fName_loop stof tName ys) := by
  induction xs generalizing st with
  | nil => simp [set_pObj_fName_loop]
  | cons x xs ih =>
    simp only [List.cons_append, set_pObj_fName_loop]
    cases set_pObj_fName_line stof tName st x with
    | none => simp
    | some st1 => simp only [List.append_eq, ih]

/-- Once the name is found, the loop over readable lines completes with
`found_it = 1`. -/
theorem loop_after_match {R : Type} [Field R] (stof : Str → Option R) (tName : Str)
    (lines : List Str) (hok : ∀ l ∈ lines, line_ok stof tName l) (a : xp_acf_file R) :
    ∃ a1, set_pObj_fName_loop stof tName lines (a, 1) = some (a1, 1) := by
  induction lines generalizing a with
  | nil => exact ⟨a, rfl⟩
  | cons l ls ih =>
    have hl := hok l (List.mem_cons_self _ _)
    have hls : ∀ x ∈ ls, line_ok stof tName x := fun x hx => hok x (List.mem_cons_of_mem _ hx)
    cases hn : name_line tName l with
    | true =>
      obtain ⟨a1, slot, -, h1, -⟩ := line_at_match stof tName (a, 1) l hn hl
      simp only [set_pObj_fName_loop, h1]
      exact ih hls a1
    | false =>
      obtain ⟨a1, h1, -⟩ := line_after_match stof tName a l hn hl
      simp only [set_pObj_fName_loop, h1]
      exact ih hls a1

/-! ## The descriptor look-up: C15, C16, C17, C18 -/

/-- The run of the loop on a readable descriptor: either no line holds the
name and the loop ends as it began, or the lines split at the first line
that holds the name and the loop ends with `found_it = 1`. -/
theorem loop_result {R : Type} [Field R] (stof : Str → Option R) (tName : Str)
    (a : xp_acf_file R) (lines : List Str) (hok : descriptor_ok stof tName lines) :
    ((∀ l ∈ lines, name_line tName l = false) ∧
      set_pObj_fName_loop stof tName lines (a, 0) = some (a, 0)) ∨
    ((∃ l ∈ lines, name_line tName l = true) ∧
      ∃ a1, set_pObj_fName_loop stof tName lines (a, 0) = some (a1, 1)) := by
  have hsplit := List.takeWhile_append_dropWhile (fun l => !name_line tName l) lines
  have hpre : ∀ l ∈ lines.takeWhile (fun l => !name_line tName l), name_line tName l = false := by
    intro l hl
    have := List.mem_takeWhile_imp hl
    simpa using this
  unfold descriptor_ok at hok
  cases hd : lines.dropWhile (fun l => !name_line tName l) with
  | nil =>
    rw [hd, List.append_nil] at hsplit
    rw [hsplit] at hpre
    exact Or.inl ⟨hpre, loop_before_match stof tName a lines hpre⟩
  | cons m post =>
    right
    have hm : name_line tName m = true := by
      have := List.head_dropWhile_not (fun l => !name_line tName l) lines
        (by rw [hd]; exact List.cons_ne_nil _ _)
      simp only [hd, List.head_cons] at this
      simpa using this
    rw [hd] at hok hsplit
    refine ⟨⟨m, ?_, hm⟩, ?_⟩
    · rw [← hsplit]; exact List.mem_append_right _ (List.mem_cons_self _ _)
    · obtain ⟨a1, slot, -, h1, -⟩ :=
        line_at_match stof tName (a, 0) m hm (hok m (List.mem_cons_self _ _))
      obtain ⟨a2, h2⟩ := loop_after_match stof tName post
        (fun x hx => hok x (List.mem_cons_of_mem _ hx)) a1
      refine ⟨a2, ?_⟩
      rw [← hsplit, set_pObj_fName_loop_append, loop_before_match stof tName a _ hpre,
        Option.some_bind]
      simp only [set_pObj_fName_loop, h1, h2]

/-- C15: on a descriptor that can be opened and read, `set_pObj_fName`
returns, and it returns 0 exactly when no line, lowered, holds the lowered
name, and 1 exactly when some line does. -/
theorem lookup_status {R : Type} [Field R] (stof : Str → Option R)
    (disk : Str → Option (List Str)) (a : xp_acf_file R) (tName : Str) (lines : List Str)
    (hname : a.xp_acf_fName ≠ []) (hopen : disk a.xp_acf_fName = some lines)
    (hok : descriptor_ok stof tName lines) :
    ∃ r, set_pObj_fName stof disk a tName = some r ∧
      (r.2 = 0 ↔ ∀ l ∈ lines,
        contains (string_to_lower l) (string_to_lower tName) = false) ∧
      (r.2 = 1 ↔ ∃ l ∈ lines,
        contains (string_to_lower l) (string_to_lower tName) = true) := by
  simp only [set_pObj_fName, hname, if_false, hopen]
  rcases loop_result stof tName a lines hok with ⟨hno, hrun⟩ | ⟨⟨m, hm, hmn⟩, a1, hrun⟩
  · refine ⟨(a, 0), hrun, ?_, ?_⟩
    · simpa [name_line] using hno
    · constructor
      · intro h; simp at h
      · rintro ⟨l, hl, hln⟩
        have := hno l hl
        simp only [name_line, hln] at this
        exact absurd this (by simp)
  · refine ⟨(a1, 1), hrun, ?_, ?_⟩
    · constructor
      · intro h; simp at h
      · intro h
        have := h m hm
        simp only [name_line, this] at hmn
        exact absurd hmn (by simp)
    · exact ⟨fun _ => ⟨m, hm, hmn⟩, fun _ => rfl⟩

/-- Witness of C15: a descriptor with the name line of `wiper1` and its six
keys; the look-up returns 1. -/
theorem lookup_status_witness :
    sample_acf.xp_acf_fName ≠ [] ∧
    sample_disk complete_descriptor sample_acf.xp_acf_fName = some complete_descriptor ∧
    descriptor_ok sample_stof sample_name complete_descriptor ∧
    ∃ r, set_pObj_fName sample_stof (sample_disk complete_descriptor) sample_acf sample_name
        = some r ∧
      (r.2 = 0 ↔ ∀ l ∈ complete_descriptor,
        contains (string_to_lower l) (string_to_lower sample_name) = false) ∧
      (r.2 = 1 ↔ ∃ l ∈ complete_descriptor,
        contains (string_to_lower l) (string_to_lower sample_name) = true) :=
  ⟨by decide, by decide, by decide,
    lookup_status sample_stof (sample_disk complete_descriptor) sample_acf sample_name
      complete_descriptor (by decide) (by decide) (by decide)⟩

/-- C16: on the descriptor that holds only the name line of `wiper1` and the
line `P _obja/3/_v10_att_psi_ref 45.0`, `set_pObj_fName` returns 1; psi is
45 and the five other numbers are still what the object was created with. -/
theorem incomplete_placement_reports_success :
    set_pObj_fName sample_stof (sample_disk incomplete_descriptor) sample_acf sample_name =
      some ({ sample_acf with xp_pObj_fName := sample_name,
                              pObj_i_String := "p _obja/3/".toList,
                              pObj_rotation_psi := 45 }, 1) := by
  decide!

/-- C17, the claim as worded fails: in the descriptor whose lines 1 and 2
both hold the name (slots 3 and 7), the key line of slot 3 is not read and
that of slot 7 is; the look-up ends with the prefix of slot 7 and psi = 90. -/
theorem later_name_line_changes_slot :
    set_pObj_fName sample_stof (sample_disk two_slot_descriptor) sample_acf sample_name =
      some ({ sample_acf with xp_pObj_fName := sample_name,
                              pObj_i_String := "p _obja/7/".toList,
                              pObj_rotation_psi := 90 }, 1) := by
  decide!


/-- In a readable descriptor every line from a line that holds the name on
is readable. -/
theorem descriptor_ok_from_name {R : Type} (stof : Str → Option R) (tName : Str)
    (pre post : List Str) (m : Str) (hok : descriptor_ok stof tName (pre ++ m :: post))
    (hm : name_line tName m = true) : ∀ l ∈ m :: post, line_ok stof tName l := by
  induction pre with
  | nil =>
    simpa [descriptor_ok, List.dropWhile, hm] using hok
  | cons x xs ih =>
    cases hx : name_line tName x with
    | true =>
      have h : ∀ l ∈ x :: (xs ++ m :: post), line_ok stof tName l := by
        simpa [descriptor_ok, List.dropWhile, hx] using hok
      intro l hl
      exact h l (List.mem_cons_of_mem _ (List.mem_append_right _ hl))
    | false =>
      apply ih
      simpa [descriptor_ok, List.dropWhile, hx] using hok

/-- The beginning of a readable descriptor is a readable descriptor. -/
theorem descriptor_ok_left {R : Type} (stof : Str → Option R) (tName : Str)
    (pre post : List Str) (hok : descriptor_ok stof tName (pre ++ post)) :
    descriptor_ok stof tName pre := by
  induction pre with
  | nil => simp [descriptor_ok]
  | cons x xs ih =>
    cases hx : name_line tName x with
    | true =>
      have h : ∀ l ∈ x :: (xs ++ post), line_ok stof tName l := by
        simpa [descriptor_ok, List.dropWhile, hx] using hok
      have : ∀ l ∈ x :: xs, line_ok stof tName l := by
        intro l hl
        rcases List.mem_cons.mp hl with rfl | hl
        · exact h _ (List.mem_cons_self _ _)
        · exact h l (List.mem_cons_of_mem _ (List.mem_append_left _ hl))
      simpa [descriptor_ok, List.dropWhile, hx] using this
    | false =>
      have h1 : descriptor_ok stof tName (xs ++ post) := by
        simpa [descriptor_ok, List.dropWhile, hx] using hok
      simpa [descriptor_ok, List.dropWhile, hx] using ih h1

/-- Once the name is found, the loop over readable lines that do not hold
the name keeps the slot prefix. -/
theorem loop_keeps_prefix {R : Type} [Field R] (stof : Str → Option R) (tName : Str)
    (lines : List Str) (hok : ∀ l ∈ lines, line_ok stof tName l)
    (hno : ∀ l ∈ lines, name_line tName l = false) (a : xp_acf_file R) :
    ∃ a1, set_pObj_fName_loop stof tName lines (a, 1) = some (a1, 1) ∧
      a1.pObj_i_String = a.pObj_i_String := by
  induction lines generalizing a with
  | nil => exact ⟨a, rfl, rfl⟩
  | cons l ls ih =>
    obtain ⟨a1, h1, hp1⟩ := line_after_match stof tName a l (hno l (List.mem_cons_self _ _))
      (hok l (List.mem_cons_self _ _))
    obtain ⟨a2, h2, hp2⟩ := ih (fun x hx => hok x (List.mem_cons_of_mem _ hx))
      (fun x hx => hno x (List.mem_cons_of_mem _ hx)) a1
    exact ⟨a2, by simp only [set_pObj_fName_loop, h1, h2], hp2.trans hp1⟩

/-- C17, amended: the slot prefix comes from the most recent line that holds
the name.  When the lines read so far are `pre`, a line `m` that holds the
name, and lines `post` that do not, the prefix with which the next keys are
looked up is `p _obja/<slot of m>/`, whatever slot the lines of `pre` that
hold the name gave. -/
theorem slot_of_latest_name_line {R : Type} [Field R] (stof : Str → Option R) (tName : Str)
    (a : xp_acf_file R) (pre post : List Str) (m slot : Str)
    (hok : descriptor_ok stof tName (pre ++ m :: post))
    (hm : contains (string_to_lower m) (string_to_lower tName) = true)
    (hs : slot_of (string_to_lower m) = some slot)
    (hpost : ∀ l ∈ post, contains (string_to_lower l) (string_to_lower tName) = false) :
    ∃ a1, set_pObj_fName_loop stof tName (pre ++ m :: post) (a, 0) = some (a1, 1) ∧
      a1.pObj_i_String = "p _obja/".toList ++ slot ++ "/".toList := by
  have hrest := descriptor_ok_from_name stof tName pre post m hok hm
  have hpre := descriptor_ok_left stof tName pre (m :: post) hok
  have h0 : ∃ st0, set_pObj_fName_loop stof tName pre (a, 0) = some st0 := by
    rcases loop_result stof tName a pre hpre with ⟨-, h⟩ | ⟨-, a0, h⟩
    · exact ⟨_, h⟩
    · exact ⟨_, h⟩
  obtain ⟨st0, h0⟩ := h0
  obtain ⟨a1, slot1, hs1, h1, hp1⟩ :=
    line_at_match stof tName st0 m hm (hrest m (List.mem_cons_self _ _))
  rw [hs] at hs1
  obtain rfl : slot = slot1 := Option.some.inj hs1
  obtain ⟨a2, h2, hp2⟩ := loop_keeps_prefix stof tName post
    (fun x hx => hrest x (List.mem_cons_of_mem _ hx)) hpost a1
  refine ⟨a2, ?_, hp2.trans hp1⟩
  rw [set_pObj_fName_loop_append, h0, Option.some_bind]
  simp only [set_pObj_fName_loop, h1, h2]

/-- Witness of C17, amended: in `two_slot_descriptor` the latest line that
holds the name is line 2 (slot 7). -/
theorem slot_of_latest_name_line_witness :
    descriptor_ok sample_stof sample_name
      (["P _obja/3/_v10_att_file_stl wiper1.obj".toList] ++
        "P _obja/7/_v10_att_file_stl wiper10.obj".toList ::
          ["P _obja/3/_v10_att_psi_ref 45.0".toList, "P _obja/7/_v10_att_psi_ref 90.0".toList]) ∧
    contains (string_to_lower "P _obja/7/_v10_att_file_stl wiper10.obj".toList)
      (string_to_lower sample_name) = true ∧
    slot_of (string_to_lower "P _obja/7/_v10_att_file_stl wiper10.obj".toList)
      = some "7".toList ∧
    (∀ l ∈ ["P _obja/3/_v10_att_psi_ref 45.0".toList, "P _obja/7/_v10_att_psi_ref 90.0".toList],
      contains (string_to_lower l) (string_to_lower sample_name) = false) ∧
    ∃ a1, set_pObj_fName_loop sample_stof sample_name
        (["P _obja/3/_v10_att_file_stl wiper1.obj".toList] ++
          "P _obja/7/_v10_att_file_stl wiper10.obj".toList ::
            ["P _obja/3/_v10_att_psi_ref 45.0".toList, "P _obja/7/_v10_att_psi_ref 90.0".toList])
        (sample_acf, 0) = some (a1, 1) ∧
      a1.pObj_i_String = "p _obja/".toList ++ "7".toList ++ "/".toList :=
  ⟨by decide, by decide, by decide, by decide,
    slot_of_latest_name_line sample_stof sample_name sample_acf _ _ _ _
      (by decide) (by decide) (by decide) (by decide)⟩

/-- C18: the assignments of the loop body.  On a line at which the first
part of the body leaves `found_it = 1` and the object `a`: when the third
piece of the lowered line is the number `v`, the body ends with
`assign_keys`, which gives `v` to each angle, and `v * 0.3048` to each
offset, whose key follows the slot prefix of `a` on the line and leaves the
other fields as they are; and when none of the six keys follows the slot
prefix on the line (a key line of another slot) the body assigns nothing. -/
theorem field_assignment {R : Type} [Field R] (stof : Str → Option R) (tName : Str)
    (st : xp_acf_file R × Int) (a : xp_acf_file R) (line : Str)
    (hm : match_line tName st (string_to_lower line) = some (a, 1)) :
    (∀ v, key_value stof (string_to_lower line) = some v →
      set_pObj_fName_line stof tName st line =
        some (assign_keys (string_to_lower line) v a, 1)) ∧
    ((∀ key ∈ placement_keys,
        contains (string_to_lower line) (a.pObj_i_String ++ key) = false) →
      set_pObj_fName_line stof tName st line = some (a, 1)) := by
  constructor
  · intro v hv
    simp only [set_pObj_fName_line, hm, if_true, read_keys_value stof _ a v hv, Option.map_some']
  · intro h
    simp only [set_pObj_fName_line, hm, if_true, read_keys_skip stof _ a h, Option.map_some']

/-- Witness of C18: after the name was found in slot 3, the line
`P _obja/3/_v10_att_psi_ref 45.0` gives psi = 45.0 and leaves the five other
numbers as they were; the line `P _obja/4/_v10_att_psi_ref 90.0` of another
slot assigns nothing. -/
theorem field_assignment_witness :
    match_line sample_name ({ sample_acf with pObj_i_String := "p _obja/3/".toList }, 1)
        (string_to_lower "P _obja/3/_v10_att_psi_ref 45.0".toList) =
      some ({ sample_acf with pObj_i_String := "p _obja/3/".toList }, 1) ∧
    set_pObj_fName_line sample_stof sample_name
        ({ sample_acf with pObj_i_String := "p _obja/3/".toList }, 1)
        "P _obja/3/_v10_att_psi_ref 45.0".toList =
      some ({ sample_acf with pObj_i_String := "p _obja/3/".toList,
                              pObj_rotation_psi := 45 }, 1) ∧
    set_pObj_fName_line sample_stof sample_name
        ({ sample_acf with pObj_i_String := "p _obja/3/".toList }, 1)
        "P _obja/4/_v10_att_psi_ref 90.0".toList =
      some ({ sample_acf with pObj_i_String := "p _obja/3/".toList }, 1) :=
  ⟨by decide,
    ((field_assignment sample_stof sample_name
      ({ sample_acf with pObj_i_String := "p _obja/3/".toList }, 1)
      { sample_acf with pObj_i_String := "p _obja/3/".toList }
      "P _obja/3/_v10_att_psi_ref 45.0".toList (by decide)).1 45 (by decide!)).trans
      (by decide!),
    (field_assignment sample_stof sample_name
      ({ sample_acf with pObj_i_String := "p _obja/3/".toList }, 1)
      { sample_acf with pObj_i_String := "p _obja/3/".toList }
      "P _obja/4/_v10_att_psi_ref 90.0".toList (by decide)).2 (by decide)⟩

/-! ## Normalizing the white space keeps the words of a line -/

/-- A run of characters none of which is white space and that begins the
normalized text begins the text. -/
theorem prefix_of_regex (q : Str) (hq : ∀ c ∈ q, isSpace c = false) :
    ∀ cs : Str, q <+: regex_replace_ws " ".toList false cs → q <+: cs := by
  induction q with
  | nil => intro cs _; exact List.nil_prefix
  | cons d q ih =>
    intro cs h
    have hd : isSpace d = false := hq d (List.mem_cons_self _ _)
    have hq1 : ∀ c ∈ q, isSpace c = false := fun c hc => hq c (List.mem_cons_of_mem _ hc)
    cases cs with
    | nil => simp [regex_replace_ws] at h
    | cons e cs =>
      by_cases he : isSpace e = true
      · simp only [regex_replace_ws, he, if_true, Bool.false_eq_true, if_false, String.toList,
          List.singleton_append, List.cons_prefix_cons] at h
        rw [h.1] at hd
        simp [isSpace] at hd
      · simp only [regex_replace_ws, he, Bool.false_eq_true, if_false,
          List.cons_prefix_cons] at h
        rw [List.cons_prefix_cons]
        exact ⟨h.1, ih hq1 cs h.2⟩

/-- A run of characters none of which is white space and that begins the
text begins the normalized text. -/
theorem prefix_to_regex (q : Str) (hq : ∀ c ∈ q, isSpace c = false) :
    ∀ cs : Str, q <+: cs → q <+: regex_replace_ws " ".toList false cs := by
  induction q with
  | nil => intro cs _; exact List.nil_prefix
  | cons d q ih =>
    intro cs h
    have hd : isSpace d = false := hq d (List.mem_cons_self _ _)
    have hq1 : ∀ c ∈ q, isSpace c = false := fun c hc => hq c (List.mem_cons_of_mem _ hc)
    cases cs with
    | nil => simp at h
    | cons e cs =>
      rw [List.cons_prefix_cons] at h
      obtain ⟨rfl, h2⟩ := h
      simp only [regex_replace_ws, hd, Bool.false_eq_true, if_false, List.cons_prefix_cons,
        true_and]
      exact ih hq1 cs h2

/-- Normalizing the white space of a text keeps the occurrences of a word:
a non-empty run of characters none of which is white space. -/
theorem infix_regex_iff (p : Str) (hne : p ≠ []) (hp : ∀ c ∈ p, isSpace c = false) :
    ∀ (s : Str) (b : Bool), p <:+: regex_replace_ws " ".toList b s ↔ p <:+: s := by
  obtain ⟨d, q, rfl⟩ := List.exists_cons_of_ne_nil hne
  have hd : isSpace d = false := hp d (List.mem_cons_self _ _)
  have hq : ∀ c ∈ q, isSpace c = false := fun c hc => hp c (List.mem_cons_of_mem _ hc)
  intro s
  induction s with
  | nil => intro b; simp [regex_replace_ws]
  | cons c cs ih =>
    intro b
    by_cases hc : isSpace c = true
    · have hcd : ¬ d = c := fun h => by rw [h, hc] at hd; exact absurd hd (by simp)
      have hsp : ¬ d = ' ' := fun h => by rw [h] at hd; simp [isSpace] at hd
      cases b with
      | true =>
        simp only [regex_replace_ws, hc, if_true]
        rw [ih true, List.infix_cons_iff, List.cons_prefix_cons]
        simp [hcd]
      | false =>
        simp only [regex_replace_ws, hc, if_true, Bool.false_eq_true, if_false, String.toList,
          List.singleton_append]
        have ih1 := ih true
        simp only [String.toList] at ih1
        rw [List.infix_cons_iff, List.infix_cons_iff, ih1, List.cons_prefix_cons,
          List.cons_prefix_cons]
        simp [hcd, hsp]
    · simp only [regex_replace_ws, hc, Bool.false_eq_true, if_false]
      rw [List.infix_cons_iff, List.infix_cons_iff, ih false, List.cons_prefix_cons,
        List.cons_prefix_cons]
      constructor
      · rintro (⟨h1, h2⟩ | h)
        · exact Or.inl ⟨h1, prefix_of_regex q hq cs h2⟩
        · exact Or.inr h
      · rintro (⟨h1, h2⟩ | h)
        · exact Or.inl ⟨h1, prefix_to_regex q hq cs h2⟩
        · exact Or.inr h

/-- Dropping leading characters that a word does not begin with keeps its
occurrences. -/
theorem infix_dropWhile_iff (f : Char → Bool) (d : Char) (q : Str) (hd : f d = false) :
    ∀ s : Str, d :: q <:+: s.dropWhile f ↔ d :: q <:+: s := by
  intro s
  induction s with
  | nil => simp
  | cons c cs ih =>
    by_cases hc : f c = true
    · have hcd : ¬ d = c := fun h => by rw [h, hc] at hd; exact absurd hd (by simp)
      rw [List.dropWhile_cons_of_pos hc, ih, List.infix_cons_iff, List.cons_prefix_cons]
      simp [hcd]
    · rw [List.dropWhile_cons_of_neg hc]

/-- Trimming a text keeps the occurrences of a word: a non-empty run of
characters none of which `trim` removes. -/
theorem infix_trim_iff (p : Str) (hne : p ≠ []) (hp : ∀ c ∈ p, isTrimChar c = false) (s : Str) :
    p <:+: trim s ↔ p <:+: s := by
  rw [trim_eq, List.rdropWhile]
  have hne1 : p.reverse ≠ [] := by simpa using hne
  obtain ⟨d1, q1, h1⟩ := List.exists_cons_of_ne_nil hne1
  obtain ⟨d, q, rfl⟩ := List.exists_cons_of_ne_nil hne
  have hd1 : isTrimChar d1 = false :=
    hp d1 (by rw [← List.mem_reverse, h1]; exact List.mem_cons_self _ _)
  rw [← List.reverse_infix, List.reverse_reverse, h1,
    infix_dropWhile_iff isTrimChar d1 q1 hd1, ← h1, List.reverse_infix,
    infix_dropWhile_iff isTrimChar d q (hp d (List.mem_cons_self _ _))]

/-- `strip_delimit_string` keeps the occurrences of a word. -/
theorem contains_strip (p : Str) (hne : p ≠ []) (hp : ∀ c ∈ p, isTrimChar c = false) (s : Str) :
    contains (strip_delimit_string s " ".toList) p = contains s p := by
  have hsp : ∀ c ∈ p, isSpace c = false := by
    intro c hc
    have := hp c hc
    simp only [isTrimChar, Bool.or_eq_false_iff] at this
    simp only [isSpace, Bool.or_eq_false_iff]
    tauto
  rw [Bool.eq_iff_iff, contains_iff, contains_iff, strip_delimit_string,
    infix_regex_iff p hne hsp, infix_trim_iff p hne hp]

/-! ## The fragment reader: C19, C20 -/

/-- The line after the `POINT_COUNTS` part of the loop body. -/
theorem read_point_counts_line (line tLine : Str) (counts : Option (Int × Int))
    (h : read_point_counts line = some (tLine, counts)) :
    tLine = if contains line "POINT_COUNTS".toList then strip_delimit_string line " ".toList
      else line := by
  unfold read_point_counts at h
  split_ifs at h with hc
  · simp only [] at h
    split at h
    · split at h
      · simp only [Option.some.injEq, Prod.mk.injEq] at h
        rw [if_pos hc]
        exact h.1.symm
      · exact absurd h (by simp)
    · exact absurd h (by simp)
  · simp only [Option.some.injEq, Prod.mk.injEq] at h
    rw [if_neg hc]
    exact h.1.symm

/-- The line after the `VT` part of the loop body. -/
theorem read_vt_line {R : Type} [Field R] [DecidableEq R] (stof : Str → Option R)
    (fmt : R → Str) (T : Trig R) (init : xp_vt R) (acf : xp_acf_file R) (tLine1 tLine2 : Str)
    (out : Option Str) (h : read_vt stof fmt T init acf tLine1 = some (tLine2, out)) :
    tLine2 = if contains tLine1 "VT".toList then strip_delimit_string tLine1 " ".toList
      else tLine1 := by
  unfold read_vt at h
  split_ifs at h with hc
  · simp only [] at h
    split at h
    · exact absurd h (by simp)
    · simp only [Option.some.injEq, Prod.mk.injEq] at h
      rw [if_pos hc]
      exact h.1.symm
  · simp only [Option.some.injEq, Prod.mk.injEq] at h
    rw [if_neg hc]
    exact h.1.symm

/-- Normalizing a line does not change whether it holds `IDX`. -/
theorem contains_normalized (line : Str) :
    contains (normalized_line line) "IDX".toList = idx_line line := by
  have e : ∀ s, contains (strip_delimit_string s " ".toList) "IDX".toList
      = contains s "IDX".toList :=
    contains_strip "IDX".toList (by decide) (by decide)
  unfold normalized_line idx_line
  simp only []
  split_ifs <;> simp only [e]

/-- The loop body on a readable line: the line is classified by whether it
holds `IDX` and by `found_idx`, and the text stored is the normalized line. -/
theorem transform_vts_line_regions {R : Type} [Field R] [DecidableEq R]
    (stof : Str → Option R) (fmt : R → Str) (T : Trig R) (init : xp_vt R)
    (acf : xp_acf_file R) (st : xp_manip_file × Bool) (line : Str)
    (hr : line_readable stof fmt T init acf line = true) :
    ∃ m1, transform_vts_line stof fmt T init acf st line = some (m1, st.2 || idx_line line) ∧
      m1.xp_idx_lines = st.1.xp_idx_lines ++
        (if idx_line line then [normalized_line line ++ "\n".toList] else []) ∧
      m1.xp_anim_footer = st.1.xp_anim_footer ++
        (if !idx_line line && st.2 then [normalized_line line ++ "\n".toList] else []) := by
  unfold line_readable at hr
  cases h1 : read_point_counts line with
  | none => simp [h1] at hr
  | some r1 =>
    obtain ⟨tLine1, counts⟩ := r1
    simp only [h1] at hr
    cases h2 : read_vt stof fmt T init acf tLine1 with
    | none => simp [h2] at hr
    | some r2 =>
      obtain ⟨tLine2, out⟩ := r2
      have e1 := read_point_counts_line line tLine1 counts h1
      have e2 := read_vt_line stof fmt T init acf tLine1 tLine2 out h2
      have e3 : tLine2 = normalized_line line := by
        rw [e2, e1]; rfl
      have e4 := contains_normalized line
      rw [← e3] at e4
      obtain ⟨m, f⟩ := st
      simp only [transform_vts_line, h1, h2, e4]
      rw [← e3]
      cases hi : idx_line line <;> cases f <;> cases counts <;> cases out <;> simp

/-- The loop over readable lines: what it adds to `xp_idx_lines` and to
`xp_anim_footer`. -/
theorem transform_vts_loop_regions {R : Type} [Field R] [DecidableEq R]
    (stof : Str → Option R) (fmt : R → Str) (T : Trig R) (init : xp_vt R)
    (acf : xp_acf_file R) (lines : List Str)
    (hr : ∀ l ∈ lines, line_readable stof fmt T init acf l = true) :
    ∀ (m : xp_manip_file) (f : Bool),
    ∃ m1 f1, transform_vts_loop stof fmt T init acf lines (m, f) = some (m1, f1) ∧
      m1.xp_idx_lines = m.xp_idx_lines ++
        withNewlines ((lines.filter idx_line).map normalized_line) ∧
      m1.xp_anim_footer = m.xp_anim_footer ++
        withNewlines (((if f then lines else lines.dropWhile (fun l => !idx_line l)).filter
          (fun l => !idx_line l)).map normalized_line) := by
  induction lines with
  | nil =>
    intro m f
    exact ⟨m, f, rfl, by simp [withNewlines], by simp [withNewlines]⟩
  | cons l ls ih =>
    intro m f
    obtain ⟨m1, h1, hi1, hf1⟩ := transform_vts_line_regions stof fmt T init acf (m, f) l
      (hr l (List.mem_cons_self _ _))
    obtain ⟨m2, f2, h2, hi2, hf2⟩ := ih (fun x hx => hr x (List.mem_cons_of_mem _ hx)) m1
      (f || idx_line l)
    refine ⟨m2, f2, by simp only [transform_vts_loop, h1, h2], ?_, ?_⟩
    · rw [hi2, hi1]
      cases hi : idx_line l <;> simp [withNewlines, List.filter, hi]
    · rw [hf2, hf1]
      cases hi : idx_line l <;> cases f <;> simp [withNewlines, List.filter, List.dropWhile, hi]


/-- C19: a footer line is not stored verbatim.  The footer line
`<tab>ANIM_hide 0 1 sim/cockpit/VTOL_switch` holds the letters `VT` inside
the word `VTOL_switch`; the test `tLine.find("VT")` takes it for a vertex
line, so `tLine` is overwritten by `strip_delimit_string (tLine)` before it
is pushed to `xp_anim_footer`: the footer holds the line without its
indentation, and `xp_vt_lines` gets a second vertex line for a fragment with
one vertex line. -/
theorem footer_line_not_verbatim :
    transform_vts sample_stof sample_fmt zero_angle_trig sample_init
        (some vtol_manip_text) sample_placement empty_manip =
      some { empty_manip with
        xp_vt_lines :=
          [ "VT\t11.00000000\t22.00000000\t33.00000000\t0.00000000\t1.00000000\t0.00000000\t0.50000000\t0.25000000\n".toList,
            "VT\t10.00000000\t20.00000000\t30.00000000\t0.00000000\t0.00000000\t0.00000000\t0.00000000\t0.00000000\n".toList ],
        xp_idx_lines := [ "IDX 0\n".toList ],
        xp_anim_footer := [ "ANIM_hide 0 1 sim/cockpit/VTOL_switch\n".toList ] } ∧
    [ "ANIM_hide 0 1 sim/cockpit/VTOL_switch\n".toList ] ≠
      withNewlines [ "\tANIM_hide 0 1 sim/cockpit/VTOL_switch".toList ] := by
  decide!

/-- Only the lines from the first line that holds `IDX` on can hold `IDX`. -/
theorem filter_idx_dropWhile (lines : List Str) :
    lines.filter idx_line = (lines.dropWhile (fun l => !idx_line l)).filter idx_line := by
  induction lines with
  | nil => rfl
  | cons l ls ih =>
    cases hi : idx_line l <;> simp [List.filter, List.dropWhile, hi, ih]

/-- Lines that hold neither `VT` nor `POINT_COUNTS` are stored as they are. -/
theorem map_normalized_plain (ls : List Str)
    (h : ∀ l ∈ ls, contains l "VT".toList = false ∧ contains l "POINT_COUNTS".toList = false) :
    ls.map normalized_line = ls := by
  induction ls with
  | nil => rfl
  | cons l ls ih =>
    have hl := h l (List.mem_cons_self _ _)
    rw [List.map_cons, ih (fun x hx => h x (List.mem_cons_of_mem _ hx))]
    simp only [normalized_line, hl.1, hl.2, Bool.false_eq_true, if_false]

/-- The regions away from the substring test: on a fragment whose lines can
be read and in which no line from the first line that holds `IDX` on holds
`VT` or `POINT_COUNTS`,
`transform_vts` returns; what it adds to `xp_idx_lines` is the lines that
hold `IDX`, in file order and verbatim (each with a newline), and what it
adds to `xp_anim_footer` is the lines after the first line that holds `IDX`
that do not hold `IDX`, in file order and verbatim; so no line before the
first index line is in the footer. -/
theorem fragment_regions {R : Type} [Field R] [DecidableEq R]
    (stof : Str → Option R) (fmt : R → Str) (T : Trig R) (init : xp_vt R)
    (acf : xp_acf_file R) (m : xp_manip_file) (lines : List Str)
    (hr : ∀ l ∈ lines, line_readable stof fmt T init acf l = true)
    (hplain : ∀ l ∈ lines.dropWhile (fun l => !contains l "IDX".toList),
      contains l "VT".toList = false ∧ contains l "POINT_COUNTS".toList = false) :
    ∃ m1, transform_vts stof fmt T init (some lines) acf m = some m1 ∧
      m1.xp_idx_lines = m.xp_idx_lines ++
        withNewlines (lines.filter (fun l => contains l "IDX".toList)) ∧
      m1.xp_anim_footer = m.xp_anim_footer ++
        withNewlines ((lines.dropWhile (fun l => !contains l "IDX".toList)).filter
          (fun l => !contains l "IDX".toList)) := by
  obtain ⟨m1, f1, h, hi, hf⟩ :=
    transform_vts_loop_regions stof fmt T init acf lines hr m false
  refine ⟨m1, ?_, ?_, ?_⟩
  · simp only [transform_vts, h, Option.map_some']
  · rw [hi, filter_idx_dropWhile, map_normalized_plain]
    · exact congrArg _ (congrArg _ (filter_idx_dropWhile lines).symm)
    · intro l hl
      exact hplain l (List.mem_of_mem_filter hl)
  · rw [hf]
    simp only [Bool.false_eq_true, if_false]
    rw [map_normalized_plain]
    · rfl
    · intro l hl
      exact hplain l (List.mem_of_mem_filter hl)

/-- The regions of the sample fragment, whose index lines and footer hold
neither `VT` nor `POINT_COUNTS`. -/
theorem fragment_regions_witness :
    (∀ l ∈ sample_manip_text,
      line_readable sample_stof sample_fmt zero_angle_trig sample_init sample_placement l
        = true) ∧
    (∀ l ∈ sample_manip_text.dropWhile (fun l => !contains l "IDX".toList),
      contains l "VT".toList = false ∧ contains l "POINT_COUNTS".toList = false) ∧
    ∃ m1, transform_vts sample_stof sample_fmt zero_angle_trig sample_init
        (some sample_manip_text) sample_placement empty_manip = some m1 ∧
      m1.xp_idx_lines = [ "IDX10 0 0 0 0 0 0 0 0 0 0\n".toList, "IDX 0\n".toList ] ∧
      m1.xp_anim_footer =
        [ "ANIM_begin\n".toList, "\tTRIS 0 3\n".toList, "ANIM_end\n".toList ] := by
  refine ⟨by decide, by decide, ?_⟩
  obtain ⟨m1, h, hi, hf⟩ :=
    fragment_regions sample_stof sample_fmt zero_angle_trig sample_init sample_placement
      empty_manip sample_manip_text (by decide) (by decide)
  exact ⟨m1, h, hi.trans (by decide), hf.trans (by decide)⟩

/-- C20: a line that is not a vertex line adds a line to `xp_vt_lines`.  The
comment `# VT lines of the wiper` holds the word `VT`; it is given to the
constructor, which sets the eight fields to 0, and `transform` then moves
that vertex by the offsets `(10, 20, 30)`: the output has two vertex lines
for a fragment with one vertex line. -/
theorem comment_line_adds_vertex :
    transform_vts sample_stof sample_fmt zero_angle_trig sample_init
        (some comment_manip_text) sample_placement empty_manip =
      some { empty_manip with
        xp_vt_lines :=
          [ "VT\t10.00000000\t20.00000000\t30.00000000\t0.00000000\t0.00000000\t0.00000000\t0.00000000\t0.00000000\n".toList,
            "VT\t11.00000000\t22.00000000\t33.00000000\t0.00000000\t1.00000000\t0.00000000\t0.50000000\t0.25000000\n".toList ],
        xp_idx_lines := [ "IDX 0\n".toList ] } := by
  decide!

/-! ## Pass 1: C25 -/

/-- Either no element passes a test or the list splits at the last element
that passes it. -/
theorem last_split (p : Str → Bool) (lines : List Str) :
    (∀ l ∈ lines, p l = false) ∨
    (∃ (before : List Str) (v : Str) (after : List Str),
      lines = before ++ v :: after ∧ p v = true ∧ (∀ y ∈ after, p y = false)) := by
  induction lines with
  | nil => left; simp
  | cons x xs ih =>
    rcases ih with h | ⟨b, v, a, e, hv, ha⟩
    · cases hx : p x with
      | false =>
        left
        intro l hl
        rcases List.mem_cons.mp hl with rfl | hl
        · exact hx
        · exact h l hl
      | true => exact Or.inr ⟨[], x, xs, rfl, hx, h⟩
    · exact Or.inr ⟨x :: b, v, a, by rw [e]; rfl, hv, ha⟩

/-- C25: pass 1 on an object whose two indices start at 0.  The recorded
`orig_vt_end_index` is the 1-based number of the last line whose trimmed
text begins with `VT`, or 0 when there is none; the recorded
`orig_idx_end_index` is the same for `IDX`; and a line is counted exactly
when its trimmed text begins with the tag, so a line that holds the tag only
after other characters is not counted. -/
theorem analyze_records_last_lines (target : List Str) (vt0 : Int) :
    IsLastLine (fun l => startsWith (trim l) "VT".toList) target
      (analyze_xp_cockpit_file target (0, 0, vt0)).1 ∧
    IsLastLine (fun l => startsWith (trim l) "IDX".toList) target
      (analyze_xp_cockpit_file target (0, 0, vt0)).2.1 ∧
    (∀ l : Str, startsWith (trim l) "VT".toList = true ↔ "VT".toList <+: trim l) ∧
    (∀ l : Str, startsWith (trim l) "IDX".toList = true ↔ "IDX".toList <+: trim l) := by
  refine ⟨?_, ?_, ?_, ?_⟩
  · rcases last_split isVtLine target with h | ⟨b, v, a, e, hv, ha⟩
    · left
      exact ⟨by
        unfold analyze_xp_cockpit_file
        rw [analyze_loop_vt_same target 0 _ h], h⟩
    · right
      refine ⟨b, v, a, e, hv, ha, ?_⟩
      unfold analyze_xp_cockpit_file
      rw [e, analyze_loop_vt_last b v a hv ha]
      omega
  · rcases last_split isIdxLine target with h | ⟨b, v, a, e, hv, ha⟩
    · left
      exact ⟨by
        unfold analyze_xp_cockpit_file
        rw [analyze_loop_idx_same target 0 _ h], h⟩
    · right
      refine ⟨b, v, a, e, hv, ha, ?_⟩
      unfold analyze_xp_cockpit_file
      rw [e, analyze_loop_idx_last b v a hv ha]
      omega
  · intro l
    rw [startsWith_eq, List.isPrefixOf_iff_prefix]
  · intro l
    rw [startsWith_eq, List.isPrefixOf_iff_prefix]

/-! ## The constructor on a malformed line: C27 -/

/-- The constructor on a line whose first token is not `VT`: the eight
fields are 0. -/
theorem construct_other_tag {R : Type} [Field R] (stof : Str → Option R) (init : xp_vt R)
    (vt_string tag : Str) (rest : List Str)
    (h : split_string (strip_delimit_string vt_string " ".toList) " ".toList = tag :: rest)
    (htag : tag ≠ "VT".toList) :
    xp_vt.construct stof init vt_string =
      some { init with x := 0, y := 0, z := 0, nx := 0, ny := 0, nz := 0, u := 0, v := 0 } := by
  simp only [xp_vt.construct, h, List.getElem?_cons_zero, if_pos htag]

/-- The constructor on a line whose first token is `VT` and that has fewer
than nine tokens: no member is assigned. -/
theorem construct_short {R : Type} [Field R] (stof : Str → Option R) (init : xp_vt R)
    (vt_string : Str) (rest : List Str)
    (h : split_string (strip_delimit_string vt_string " ".toList) " ".toList
      = "VT".toList :: rest)
    (hlen : rest.length < 8) :
    xp_vt.construct stof init vt_string = some init := by
  have h9 : ¬ (rest.length + 1 ≥ 9) := by omega
  have hvt : ¬ ("VT".toList ≠ "VT".toList) := fun hne => hne rfl
  simp only [xp_vt.construct, h, List.getElem?_cons_zero, if_neg hvt, List.length_cons,
    if_neg h9]

/-- C27: a vertex line with fewer than eight numbers after the tag does not
give a vertex with eight zero fields.  On `VT 1 2 3` the constructor assigns
no member: the eight fields keep what the storage of the object held, here
the number 7. -/
theorem short_vertex_line_keeps_stale_fields :
    xp_vt.construct sample_stof stale_vt "VT 1 2 3".toList = some stale_vt ∧
    stale_vt.x = 7 ∧ stale_vt.y = 7 ∧ stale_vt.z = 7 ∧ stale_vt.nx = 7 ∧ stale_vt.ny = 7 ∧
    stale_vt.nz = 7 ∧ stale_vt.u = 7 ∧ stale_vt.v = 7 := by
  decide!

/-! ## Rotation keeps lengths: C28 -/

/-- A plane rotation keeps the sum of two squares. -/
theorem plane_rotation_sq {R : Type} [Field R] (c s a b : R) (h : c ^ 2 + s ^ 2 = 1) :
    (c * a + s * b) ^ 2 + (-s * a + c * b) ^ 2 = a ^ 2 + b ^ 2 := by
  linear_combination (a ^ 2 + b ^ 2) * h

/-- The other orientation of a plane rotation keeps the sum of two squares. -/
theorem plane_rotation_sq' {R : Type} [Field R] (c s a b : R) (h : c ^ 2 + s ^ 2 = 1) :
    (c * a + -s * b) ^ 2 + (s * a + c * b) ^ 2 = a ^ 2 + b ^ 2 := by
  linear_combination (a ^ 2 + b ^ 2) * h

/-- The rotation of `rotation_transform` keeps the squared distance between
two vertices that hold the same angles. -/
theorem rotation_transform_dist {R : Type} [Field R] (T : Trig R)
    (hT : ∀ a : R, T.cos a ^ 2 + T.sin a ^ 2 = 1) (p q : xp_vt R)
    (hpsi : p.psi = q.psi) (htheta : p.theta = q.theta) (hphi : p.phi = q.phi) :
    dist_sq (p.rotation_transform T).position (q.rotation_transform T).position =
      dist_sq p.position q.position := by
  simp only [xp_vt.rotation_transform, xp_vt.position, dist_sq, hpsi, htheta, hphi]
  have h1 := hT (q.phi * PI / 180)
  have h2 := hT (q.theta * PI / 180)
  have h3 := hT (q.psi * PI / 180)
  generalize T.cos (q.phi * PI / 180) = c1 at h1 ⊢
  generalize T.sin (q.phi * PI / 180) = s1 at h1 ⊢
  generalize T.cos (q.theta * PI / 180) = c2 at h2 ⊢
  generalize T.sin (q.theta * PI / 180) = s2 at h2 ⊢
  generalize T.cos (q.psi * PI / 180) = c3 at h3 ⊢
  generalize T.sin (q.psi * PI / 180) = s3 at h3 ⊢
  have e1 := plane_rotation_sq c1 s1 (p.x - q.x) (p.y - q.y) h1
  have e2 := plane_rotation_sq' c2 s2 (-s1 * (p.x - q.x) + c1 * (p.y - q.y)) (p.z - q.z) h2
  have e3 := plane_rotation_sq' c3 s3 (c1 * (p.x - q.x) + s1 * (p.y - q.y))
    (s2 * (-s1 * (p.x - q.x) + c1 * (p.y - q.y)) + c2 * (p.z - q.z)) h3
  linear_combination e1 + e2 + e3

/-- The vertex at the origin stays at the origin under the rotation. -/
theorem rotation_transform_origin {R : Type} [Field R] (T : Trig R) (psi theta phi : R) :
    ((xp_vt.mk 0 0 0 0 0 0 0 0 psi theta phi 0 0 0 : xp_vt R).rotation_transform T).position
      = (0, 0, 0) := by
  simp [xp_vt.rotation_transform, xp_vt.position]

/-- C28: in exact arithmetic, with `cos a ^ 2 + sin a ^ 2 = 1` for every
angle, `rotation_transform` keeps `x^2 + y^2 + z^2` of every vertex for all
angles, and `transform` is a rigid motion: it keeps the squared distance
between any two vertices transformed with the same angles and offsets. -/
theorem rotation_preserves_length {R : Type} [Field R] [DecidableEq R] (T : Trig R)
    (hT : ∀ a : R, T.cos a ^ 2 + T.sin a ^ 2 = 1) (vt : xp_vt R) :
    norm_sq (vt.rotation_transform T).position = norm_sq vt.position ∧
    ∀ (q : xp_vt R) (tPsi tTheta tPhi xx yy zz : R),
      dist_sq (vt.transform T tPsi tTheta tPhi xx yy zz).position
          (q.transform T tPsi tTheta tPhi xx yy zz).position =
        dist_sq vt.position q.position := by
  constructor
  · have h := rotation_transform_dist T hT vt
      (xp_vt.mk 0 0 0 0 0 0 0 0 vt.psi vt.theta vt.phi 0 0 0) rfl rfl rfl
    rw [rotation_transform_origin] at h
    simpa [dist_sq, norm_sq, xp_vt.position] using h
  · intro q tPsi tTheta tPhi xx yy zz
    have hrot := rotation_transform_dist T hT
      ((vt.set_rotation_axis tPsi tTheta tPhi).set_xyz_offsets xx yy zz)
      ((q.set_rotation_axis tPsi tTheta tPhi).set_xyz_offsets xx yy zz) rfl rfl rfl
    have hset : dist_sq ((vt.set_rotation_axis tPsi tTheta tPhi).set_xyz_offsets xx yy zz).position
        ((q.set_rotation_axis tPsi tTheta tPhi).set_xyz_offsets xx yy zz).position
        = dist_sq vt.position q.position := rfl
    have hoff : ∀ a b : xp_vt R, a.off_x = b.off_x → a.off_y = b.off_y → a.off_z = b.off_z →
        dist_sq a.offset_tranform.position b.offset_tranform.position
          = dist_sq a.position b.position := by
      intro a b hx hy hz
      simp only [xp_vt.offset_tranform, xp_vt.position, dist_sq, hx, hy, hz]
      ring
    unfold xp_vt.transform
    simp only []
    split_ifs
    · exact (hoff (((vt.set_rotation_axis tPsi tTheta tPhi).set_xyz_offsets xx yy zz).rotation_transform T)
        (((q.set_rotation_axis tPsi tTheta tPhi).set_xyz_offsets xx yy zz).rotation_transform T)
        rfl rfl rfl).trans (hrot.trans hset)
    · exact (hoff ((vt.set_rotation_axis tPsi tTheta tPhi).set_xyz_offsets xx yy zz)
        ((q.set_rotation_axis tPsi tTheta tPhi).set_xyz_offsets xx yy zz) rfl rfl rfl).trans hset
    · exact hrot.trans hset
    · exact hset

/-- Witness of C28 on the real numbers: the vertex `(1, 2, 3)` with the
angles psi = 30, theta = 45, phi = 60 degrees. -/
theorem rotation_preserves_length_witness :
    (∀ a : ℝ, Real.cos a ^ 2 + Real.sin a ^ 2 = 1) ∧
    norm_sq ((xp_vt.mk 1 2 3 0 0 1 0 0 30 45 60 0 0 0 : xp_vt ℝ).rotation_transform
      ⟨Real.cos, Real.sin⟩).position = norm_sq ((1 : ℝ), (2 : ℝ), (3 : ℝ)) :=
  ⟨Real.cos_sq_add_sin_sq,
    (rotation_preserves_length ⟨Real.cos, Real.sin⟩ Real.cos_sq_add_sin_sq
      (xp_vt.mk 1 2 3 0 0 1 0 0 30 45 60 0 0 0)).1⟩

/-! ## The descriptor look-up: C29, C30 -/

/-- C29: lines that do not hold the name and come ahead of the first line
that holds it cannot influence the look-up.  When no line of `p1` and no
line of `ins` holds the name, `set_pObj_fName` on the descriptor
`p1 ++ ins ++ rest` gives what it gives on `p1 ++ rest`: the same return
value and the same object, hence the same six numbers, or the same failure;
the lines of `ins` are never read, whatever they hold. -/
theorem lines_before_match_ignored {R : Type} [Field R] (stof : Str → Option R)
    (disk1 disk2 : Str → Option (List Str)) (a : xp_acf_file R) (tName : Str)
    (p1 ins rest : List Str)
    (h1 : disk1 a.xp_acf_fName = some (p1 ++ rest))
    (h2 : disk2 a.xp_acf_fName = some (p1 ++ ins ++ rest))
    (hp1 : ∀ l ∈ p1, contains (string_to_lower l) (string_to_lower tName) = false)
    (hins : ∀ l ∈ ins, contains (string_to_lower l) (string_to_lower tName) = false) :
    set_pObj_fName stof disk2 a tName = set_pObj_fName stof disk1 a tName := by
  unfold set_pObj_fName
  split_ifs with hn
  · rfl
  · simp only [h1, h2]
    rw [set_pObj_fName_loop_append, set_pObj_fName_loop_append, set_pObj_fName_loop_append,
      loop_before_match stof tName a p1 hp1]
    simp only [Option.some_bind]
    rw [loop_before_match stof tName a ins hins]
    simp only [Option.some_bind]

/-- Witness of C29: a key line of slot 3 with the value 99.0 put between a
line of another slot and the name line of `wiper1` is not read. -/
theorem lines_before_match_ignored_witness :
    sample_disk (["P _obja/2/_v10_att_file_stl Yoke.obj".toList] ++ incomplete_descriptor)
        sample_acf.xp_acf_fName
      = some (["P _obja/2/_v10_att_file_stl Yoke.obj".toList] ++ incomplete_descriptor) ∧
    sample_disk (["P _obja/2/_v10_att_file_stl Yoke.obj".toList] ++
          ["P _obja/3/_v10_att_psi_ref 99.0".toList] ++ incomplete_descriptor)
        sample_acf.xp_acf_fName
      = some (["P _obja/2/_v10_att_file_stl Yoke.obj".toList] ++
          ["P _obja/3/_v10_att_psi_ref 99.0".toList] ++ incomplete_descriptor) ∧
    (∀ l ∈ ["P _obja/2/_v10_att_file_stl Yoke.obj".toList],
      contains (string_to_lower l) (string_to_lower sample_name) = false) ∧
    (∀ l ∈ ["P _obja/3/_v10_att_psi_ref 99.0".toList],
      contains (string_to_lower l) (string_to_lower sample_name) = false) ∧
    set_pObj_fName sample_stof
        (sample_disk (["P _obja/2/_v10_att_file_stl Yoke.obj".toList] ++
          ["P _obja/3/_v10_att_psi_ref 99.0".toList] ++ incomplete_descriptor))
        sample_acf sample_name =
      set_pObj_fName sample_stof
        (sample_disk (["P _obja/2/_v10_att_file_stl Yoke.obj".toList] ++ incomplete_descriptor))
        sample_acf sample_name :=
  ⟨by decide, by decide, by decide, by decide,
    lines_before_match_ignored sample_stof
      (sample_disk (["P _obja/2/_v10_att_file_stl Yoke.obj".toList] ++ incomplete_descriptor))
      (sample_disk (["P _obja/2/_v10_att_file_stl Yoke.obj".toList] ++
          ["P _obja/3/_v10_att_psi_ref 99.0".toList] ++ incomplete_descriptor))
      sample_acf sample_name ["P _obja/2/_v10_att_file_stl Yoke.obj".toList]
      ["P _obja/3/_v10_att_psi_ref 99.0".toList] incomplete_descriptor
      (by decide) (by decide) (by decide) (by decide)⟩

/-- C30: the look-up is not total.  On a descriptor whose only line is
`wiper1.obj` the line holds the name and has no space, so `line_parts[1]`
does not exist; on a descriptor whose key line `P _obja/3/_v10_att_psi_ref`
has no value, `psi_parts[2]` does not exist.  Both runs end in the read out
of range. -/
theorem lookup_reads_out_of_range :
    set_pObj_fName sample_stof (sample_disk ["wiper1.obj".toList]) sample_acf sample_name
      = none ∧
    set_pObj_fName sample_stof
      (sample_disk ["P _obja/3/_v10_att_file_stl wiper1.obj".toList,
        "P _obja/3/_v10_att_psi_ref".toList]) sample_acf sample_name = none := by
  decide!

/-! ## The backup: C23 -/

/-- The loop of the backup when every remaining name fails. -/
theorem backup_loop_all_fail (rename : Disk → Str → Str → Option Disk) (d : Disk) (path : Str) :
    ∀ (fuel i : Nat) (tried : List Str), i ≤ 999 → 1000 ≤ i + fuel →
    (∀ k, i < k → k ≤ 999 → rename d path (new_cockpit_fName path k) = none) →
    backup_loop rename d path fuel i tried = (false, d, tried ++ save_names path (i + 1) (999 - i)) := by
  intro fuel
  induction fuel with
  | zero => intro i tried h1 h2; omega
  | succ fuel ih =>
    intro i tried h1 h2 hfail
    by_cases hi : i + 1 > 999
    · have : 999 - i = 0 := by omega
      simp [backup_loop, hi, this, save_names]
    · have hlt : i + 1 ≤ 999 := by omega
      simp only [backup_loop, hi, if_false, hfail (i + 1) (by omega) hlt]
      rw [ih (i + 1) _ hlt (by omega) (fun k hk1 hk2 => hfail k (by omega) hk2)]
      have : 999 - i = (999 - (i + 1)) + 1 := by omega
      rw [this, save_names, save_names, List.range'_succ]
      simp

/-- The loop of the backup when the name of round `k` is the first that
succeeds. -/
theorem backup_loop_first_success (rename : Disk → Str → Str → Option Disk) (d d1 : Disk)
    (path : Str) (k : Nat) (hk : k ≤ 999)
    (hok : rename d path (new_cockpit_fName path k) = some d1) :
    ∀ (fuel i : Nat) (tried : List Str), i < k → 1000 ≤ i + fuel →
    (∀ j, i < j → j < k → rename d path (new_cockpit_fName path j) = none) →
    backup_loop rename d path fuel i tried = (true, d1, tried ++ save_names path (i + 1) (k - i)) := by
  intro fuel
  induction fuel with
  | zero => intro i tried h1 h2; omega
  | succ fuel ih =>
    intro i tried h1 h2 hfail
    have hi : ¬ (i + 1 > 999) := by omega
    by_cases hik : i + 1 = k
    · subst hik
      have : i + 1 - i = 1 := by omega
      simp [backup_loop, hi, hok, this, save_names]
    · simp only [backup_loop, hi, if_false, hfail (i + 1) (by omega) (by omega)]
      rw [ih (i + 1) _ (by omega) (by omega) (fun j hj1 hj2 => hfail j (by omega) hj2)]
      have : k - i = (k - (i + 1)) + 1 := by omega
      rw [this, save_names, save_names, List.range'_succ]
      simp

/-- Among the names 1 to 999 either all fail or there is a first that
succeeds. -/
theorem first_success (rename : Disk → Str → Str → Option Disk) (d : Disk) (path : Str) :
    ∀ n : Nat, (∀ k, 1 ≤ k → k ≤ n → rename d path (new_cockpit_fName path k) = none) ∨
      ∃ k d1, 1 ≤ k ∧ k ≤ n ∧ rename d path (new_cockpit_fName path k) = some d1 ∧
        ∀ j, 1 ≤ j → j < k → rename d path (new_cockpit_fName path j) = none := by
  intro n
  induction n with
  | zero => left; intro k h1 h2; omega
  | succ n ih =>
    rcases ih with h | ⟨k, d1, h1, h2, h3, h4⟩
    · cases hr : rename d path (new_cockpit_fName path (n + 1)) with
      | none =>
        left
        intro k h1 h2
        by_cases hk : k = n + 1
        · rw [hk]; exact hr
        · exact h k h1 (by omega)
      | some d1 =>
        right
        exact ⟨n + 1, d1, by omega, le_refl _, hr, fun j hj1 hj2 => h j hj1 (by omega)⟩
    · right
      exact ⟨k, d1, h1, by omega, h3, h4⟩

/-- The suffix of every round is the three digits of the round number. -/
theorem ext_num_three_digits : ∀ k : Nat, k ≤ 999 → ext_num k = three_digits k := by
  decide!


/-- What `backup_cockpit_file` returns, leaves and tries, in terms of the
rounds whose `rename` fails. -/
theorem backup_cockpit_file_rounds (rename : Disk → Str → Str → Option Disk) (d : Disk) (path : Str) :
    (∀ (k : Nat) (d1 : Disk), 1 ≤ k → k ≤ 999 →
      (∀ j, 1 ≤ j → j < k → rename d path (new_cockpit_fName path j) = none) →
      rename d path (new_cockpit_fName path k) = some d1 →
      backup_cockpit_file rename d path = (true, d1, save_names path 1 k)) ∧
    ((backup_cockpit_file rename d path).1 = false ↔
      ∀ k, 1 ≤ k → k ≤ 999 → rename d path (new_cockpit_fName path k) = none) ∧
    ((backup_cockpit_file rename d path).1 = false →
      backup_cockpit_file rename d path = (false, d, save_names path 1 999)) ∧
    (∀ k, k ≤ 999 → new_cockpit_fName path k = path ++ ".SAVE".toList ++ three_digits k) := by
  have hsucc : ∀ (k : Nat) (d1 : Disk), 1 ≤ k → k ≤ 999 →
      (∀ j, 1 ≤ j → j < k → rename d path (new_cockpit_fName path j) = none) →
      rename d path (new_cockpit_fName path k) = some d1 →
      backup_cockpit_file rename d path = (true, d1, save_names path 1 k) := by
    intro k d1 h1 h2 hfail hok
    have h := backup_loop_first_success rename d d1 path k h2 hok 1000 0 [] (by omega)
      (by omega) (fun j hj1 hj2 => hfail j (by omega) hj2)
    simpa [backup_cockpit_file] using h
  have hfail : (∀ k, 1 ≤ k → k ≤ 999 → rename d path (new_cockpit_fName path k) = none) →
      backup_cockpit_file rename d path = (false, d, save_names path 1 999) := by
    intro h
    have h := backup_loop_all_fail rename d path 1000 0 [] (by omega) (by omega)
      (fun k hk1 hk2 => h k (by omega) hk2)
    simpa [backup_cockpit_file] using h
  have hiff : (backup_cockpit_file rename d path).1 = false ↔
      ∀ k, 1 ≤ k → k ≤ 999 → rename d path (new_cockpit_fName path k) = none := by
    constructor
    · intro hf
      rcases first_success rename d path 999 with h | ⟨k, d1, h1, h2, h3, h4⟩
      · exact h
      · rw [hsucc k d1 h1 h2 h4 h3] at hf
        exact absurd hf (by simp)
    · intro h
      rw [hfail h]
  refine ⟨hsucc, hiff, fun hf => hfail (hiff.mp hf), ?_⟩
  intro k hk
  rw [new_cockpit_fName, ext_num_three_digits k hk]

/-- C23: the names `backup_cockpit_file` tries.  With `rename` an oracle that
returns the new disk on success and fails otherwise: when the names of the
rounds 1 to `k - 1` fail and that of round `k` (at most 999) succeeds, the
call returns true, leaves the disk of that `rename`, and has tried exactly
the names of the rounds 1 to `k`, in increasing order; the call returns
false exactly when the names of all the rounds 1 to 999 fail, and then it
has tried these 999 names and left the disk as it was; the name of round
`k` is `<path>.SAVE` followed by the three decimal digits of `k`. -/
theorem backup_naming (rename : Disk → Str → Str → Option Disk) (d : Disk) (path : Str) :
    (∀ (k : Nat) (d1 : Disk), 1 ≤ k → k ≤ 999 →
      (∀ j, 1 ≤ j → j < k → rename d path (new_cockpit_fName path j) = none) →
      rename d path (new_cockpit_fName path k) = some d1 →
      backup_cockpit_file rename d path = (true, d1, save_names path 1 k)) ∧
    ((backup_cockpit_file rename d path).1 = false ↔
      ∀ k, 1 ≤ k → k ≤ 999 → rename d path (new_cockpit_fName path k) = none) ∧
    ((backup_cockpit_file rename d path).1 = false →
      backup_cockpit_file rename d path = (false, d, save_names path 1 999)) ∧
    (∀ k, k ≤ 999 → new_cockpit_fName path k = path ++ ".SAVE".toList ++ three_digits k) :=
  backup_cockpit_file_rounds rename d path

/-- Witness of C23: with `cockpit.obj.SAVE001` taken, the original is renamed
to `cockpit.obj.SAVE002`, after `cockpit.obj.SAVE001` was tried. -/
theorem backup_naming_witness :
    rename_if_free backup_disk "cockpit.obj".toList
        (new_cockpit_fName "cockpit.obj".toList 1) = none ∧
    new_cockpit_fName "cockpit.obj".toList 2 = "cockpit.obj.SAVE002".toList ∧
    ∃ d1 : Disk,
      rename_if_free backup_disk "cockpit.obj".toList
        (new_cockpit_fName "cockpit.obj".toList 2) = some d1 ∧
      backup_cockpit_file rename_if_free backup_disk "cockpit.obj".toList =
        (true, d1, ["cockpit.obj.SAVE001".toList, "cockpit.obj.SAVE002".toList]) ∧
      d1 "cockpit.obj.SAVE002".toList = some sample_target ∧
      d1 "cockpit.obj".toList = none := by
  have h1 : rename_if_free backup_disk "cockpit.obj".toList
      (new_cockpit_fName "cockpit.obj".toList 1) = none := by rfl
  refine ⟨h1, by decide, _, rfl, ?_, by decide, by decide⟩
  exact (backup_naming rename_if_free backup_disk "cockpit.obj".toList).1 2 _ (by decide)
    (by decide)
    (fun j hj1 hj2 => by
      have : j = 1 := by omega
      rw [this]; exact h1) rfl

/-! ## The files of the splicer: C21, C22 -/

/-- On a target whose header lines can be read, with a fragment whose index
lines and footer can be read, the loop and the lines after it complete. -/
theorem read_completes (pObj_name : Str) (m : xp_manip_file) (target : List Str)
    (st0 : CockpitState) (hig : st0.ignoring_vt_lines = false)
    (hh : ∀ l ∈ target, header_ok l = true)
    (hok : ∀ x ∈ m.xp_idx_lines, idx_line_ok x = true)
    (ha : ∀ l ∈ m.xp_anim_footer, anim_line_ok l = true) :
    ∃ st st1, read_loop pObj_name m target st0 = some st ∧
      read_finish pObj_name m st = some st1 := by
  obtain ⟨st, inss, h1, -⟩ := read_loop_total pObj_name m hok target st0 hig hh
  obtain ⟨fs, hfs⟩ := anim_all_total st.orig_tris_count m.xp_anim_footer ha
  have h2 := read_finish_eq pObj_name m st fs hfs
  cases hf : read_finish pObj_name m st with
  | none => rw [hf] at h2; simp at h2
  | some st1 => exact ⟨st, st1, h1, hf⟩

/-- The call on a target that cannot be opened. -/
theorem run_unopened (rename : Disk → Str → Str → Option Disk) (d : Disk)
    (c : xp_cockpit_file) (pObj_name : Str) (m : xp_manip_file) (ow_flag : Bool)
    (hd : d c.xp_cockpit_fName = none) :
    c.read_xp_cockpit_file rename d pObj_name m ow_flag =
      some { status := if c.is_analyzed then 1 else 4, disk := d, tried := [],
             written := none } := by
  unfold xp_cockpit_file.read_xp_cockpit_file
  cases c.is_analyzed <;> simp [hd]

/-- The call on a target that opens, up to the backup. -/
theorem run_opened (rename : Disk → Str → Str → Option Disk) (d : Disk)
    (c : xp_cockpit_file) (pObj_name : Str) (m : xp_manip_file) (ow_flag : Bool)
    (target : List Str) (hd : d c.xp_cockpit_fName = some target) :
    c.read_xp_cockpit_file rename d pObj_name m ow_flag =
      match read_loop pObj_name m target (loop_start c (analyzed_members c target)) with
      | none => none
      | some st =>
        match read_finish pObj_name m st with
        | none => none
        | some st1 =>
          match backup_cockpit_file rename d c.xp_cockpit_fName with
          | (false, d1, tried) => some { status := 2, disk := d1, tried := tried, written := none }
          | (true, d1, tried) =>
            some { status := 0
                   disk := write_file d1 c.xp_cockpit_fName st1.xp_cockpit_lines
                   tried := tried
                   written := some st1.xp_cockpit_lines } := by
  unfold xp_cockpit_file.read_xp_cockpit_file analyzed_members
  cases c.is_analyzed <;> simp [hd]

/-- The four ways a call can end. -/
theorem run_shape (rename : Disk → Str → Str → Option Disk) (d : Disk)
    (c : xp_cockpit_file) (pObj_name : Str) (m : xp_manip_file) (ow_flag : Bool) :
    c.read_xp_cockpit_file rename d pObj_name m ow_flag = none ∨
    (∃ s : Int, (s = 1 ∨ s = 4) ∧ c.read_xp_cockpit_file rename d pObj_name m ow_flag =
      some { status := s, disk := d, tried := [], written := none }) ∨
    (∃ (d1 : Disk) (tried : List Str),
      backup_cockpit_file rename d c.xp_cockpit_fName = (false, d1, tried) ∧
      c.read_xp_cockpit_file rename d pObj_name m ow_flag =
        some { status := 2, disk := d1, tried := tried, written := none }) ∨
    (∃ (d1 : Disk) (tried : List Str) (lines : List Str),
      backup_cockpit_file rename d c.xp_cockpit_fName = (true, d1, tried) ∧
      c.read_xp_cockpit_file rename d pObj_name m ow_flag =
        some { status := 0, disk := write_file d1 c.xp_cockpit_fName lines, tried := tried,
               written := some lines }) := by
  cases hd : d c.xp_cockpit_fName with
  | none =>
    right; left
    refine ⟨if c.is_analyzed then 1 else 4, ?_, run_unopened rename d c pObj_name m ow_flag hd⟩
    cases c.is_analyzed <;> simp
  | some target =>
    rw [run_opened rename d c pObj_name m ow_flag target hd]
    cases h1 : read_loop pObj_name m target (loop_start c (analyzed_members c target)) with
    | none => exact Or.inl rfl
    | some st =>
      cases h2 : read_finish pObj_name m st with
      | none => left; simp only [h2]
      | some st1 =>
        rcases hbk : backup_cockpit_file rename d c.xp_cockpit_fName with ⟨b, d1, tr⟩
        cases b with
        | false =>
          right; right; left
          exact ⟨d1, tr, rfl, by simp only [h2]⟩
        | true =>
          right; right; right
          exact ⟨d1, tr, st1.xp_cockpit_lines, rfl, by simp only [h2]⟩

/-- C22: the target path is written strictly after the backup.  When the
target cannot be opened the call returns 4 (object not analyzed) or 1
(analyzed before), with the disk as it was, no `rename` tried and nothing
written.  When the target opens and the lines can be read, a failing backup
gives the value 2 with the disk as it was and nothing written, and a backup
that returns true gives the value 0 with the lines written over the disk
that the backup left.  And whenever something was written, the backup had
returned true. -/
theorem write_after_backup (rename : Disk → Str → Str → Option Disk) (d : Disk)
    (c : xp_cockpit_file) (pObj_name : Str) (m : xp_manip_file) (ow_flag : Bool) :
    (d c.xp_cockpit_fName = none →
      c.read_xp_cockpit_file rename d pObj_name m ow_flag =
        some { status := if c.is_analyzed then 1 else 4, disk := d, tried := [],
               written := none }) ∧
    (∀ target : List Str, d c.xp_cockpit_fName = some target →
      (∀ l ∈ target, header_ok l = true) →
      (∀ x ∈ m.xp_idx_lines, idx_line_ok x = true) →
      (∀ l ∈ m.xp_anim_footer, anim_line_ok l = true) →
      ∃ lines : List Str,
        ((backup_cockpit_file rename d c.xp_cockpit_fName).1 = false →
          c.read_xp_cockpit_file rename d pObj_name m ow_flag =
            some { status := 2, disk := d,
                   tried := (backup_cockpit_file rename d c.xp_cockpit_fName).2.2,
                   written := none }) ∧
        ((backup_cockpit_file rename d c.xp_cockpit_fName).1 = true →
          c.read_xp_cockpit_file rename d pObj_name m ow_flag =
            some { status := 0,
                   disk := write_file (backup_cockpit_file rename d c.xp_cockpit_fName).2.1
                     c.xp_cockpit_fName lines,
                   tried := (backup_cockpit_file rename d c.xp_cockpit_fName).2.2,
                   written := some lines })) ∧
    (∀ out : Outcome, c.read_xp_cockpit_file rename d pObj_name m ow_flag = some out →
      out.written ≠ none →
      (backup_cockpit_file rename d c.xp_cockpit_fName).1 = true ∧ out.status = 0) := by
  refine ⟨run_unopened rename d c pObj_name m ow_flag, ?_, ?_⟩
  · intro target hd hh hok ha
    obtain ⟨st, st1, h1, h2⟩ := read_completes pObj_name m target
      (loop_start c (analyzed_members c target)) rfl hh hok ha
    refine ⟨st1.xp_cockpit_lines, ?_, ?_⟩
    · intro hb
      have hb2 := (backup_cockpit_file_rounds rename d c.xp_cockpit_fName).2.2.1 hb
      rw [run_opened rename d c pObj_name m ow_flag target hd, h1]
      simp only [h2, hb2]
    · intro hb
      rw [run_opened rename d c pObj_name m ow_flag target hd, h1]
      rcases hbk : backup_cockpit_file rename d c.xp_cockpit_fName with ⟨b, d1, tr⟩
      rw [hbk] at hb
      simp only at hb
      subst hb
      simp only [h2]
  · intro out hrun hw
    rcases run_shape rename d c pObj_name m ow_flag with h | ⟨s, -, h⟩ | ⟨d1, tr, -, h⟩ |
      ⟨d1, tr, lines, hbk, h⟩
    · rw [h] at hrun; exact absurd hrun (by simp)
    · rw [h] at hrun; obtain rfl := Option.some.inj hrun; exact absurd rfl hw
    · rw [h] at hrun; obtain rfl := Option.some.inj hrun; exact absurd rfl hw
    · rw [h] at hrun; obtain rfl := Option.some.inj hrun
      exact ⟨by rw [hbk], rfl⟩

/-- C21: `read_xp_cockpit_file` never returns 3.  Whatever the disk, the
object, the fragment, the name and `ow_flag` are, a call that returns
returns 0, 1, 2 or 4. -/
theorem never_already_merged (rename : Disk → Str → Str → Option Disk) (d : Disk)
    (c : xp_cockpit_file) (pObj_name : Str) (m : xp_manip_file) (ow_flag : Bool) (s : Int)
    (h : (c.read_xp_cockpit_file rename d pObj_name m ow_flag).map Outcome.status = some s) :
    s ≠ 3 ∧ (s = 0 ∨ s = 1 ∨ s = 2 ∨ s = 4) := by
  have key : s = 0 ∨ s = 1 ∨ s = 2 ∨ s = 4 := by
    rcases run_shape rename d c pObj_name m ow_flag with h1 | ⟨s1, hs, h1⟩ | ⟨d1, tr, -, h1⟩ |
      ⟨d1, tr, lines, -, h1⟩
    · rw [h1] at h; exact absurd h (by simp)
    · rw [h1] at h
      obtain rfl : s1 = s := by simpa using h
      rcases hs with rfl | rfl
      · exact Or.inr (Or.inl rfl)
      · exact Or.inr (Or.inr (Or.inr rfl))
    · rw [h1] at h
      obtain rfl : 2 = s := by simpa using h
      exact Or.inr (Or.inr (Or.inl rfl))
    · rw [h1] at h
      obtain rfl : 0 = s := by simpa using h
      exact Or.inl rfl
  refine ⟨?_, key⟩
  rcases key with rfl | rfl | rfl | rfl <;> decide

/-- The merged target is what a first run writes for the samples. -/
theorem merged_sample_target_eq :
    (read_xp_cockpit_file sample_name sample_fragment sample_target 0 0).map
      (fun ls => getlines ls.flatten) = some merged_sample_target := by
  decide

/-- Witness of C21: a second run on a target that already holds the markers
of `wiper1`, with `ow_flag = false`, returns 0. -/
theorem never_already_merged_witness :
    (sample_cockpit.read_xp_cockpit_file rename_if_free merged_disk sample_name sample_fragment
      false).map Outcome.status = some 0 ∧
    ((0 : Int) ≠ 3 ∧ ((0 : Int) = 0 ∨ (0 : Int) = 1 ∨ (0 : Int) = 2 ∨ (0 : Int) = 4)) :=
  ⟨by decide!,
    never_already_merged rename_if_free merged_disk sample_cockpit sample_name sample_fragment
      false 0 (by decide!)⟩

/-- A run with a backup that fails: the value is 2 and `cockpit.obj` still
holds the target. -/
theorem failed_backup_sample :
    (sample_cockpit.read_xp_cockpit_file rename_fails cockpit_disk sample_name sample_fragment
      false).map (fun out => (out.status, out.disk "cockpit.obj".toList)) =
        some (2, some sample_target) := by
  decide!

/-! ## The markers: C24 -/

/-- The six markers of the source are of the form of `section_marker`. -/
theorem marker_forms (pObj_name : Str) :
    marker pObj_name " start VT section\n" = section_marker pObj_name "start" "VT" ∧
    marker pObj_name " end VT section\n" = section_marker pObj_name "end" "VT" ∧
    marker pObj_name " start IDX section\n" = section_marker pObj_name "start" "IDX" ∧
    marker pObj_name " end IDX section\n" = section_marker pObj_name "end" "IDX" ∧
    marker pObj_name " start ANIM section\n" = section_marker pObj_name "start" "ANIM" ∧
    marker pObj_name " end ANIM section\n" = section_marker pObj_name "end" "ANIM" := by
  simp [marker, section_marker]

/-- C24, the claim as worded fails: the lines of the merged sample that begin
with `# KITBASH - wiper1 ` are the summary comment and six markers in which
the name is followed by `start` or `end` and then by the section name and
the word `section`; no line has the form name, section name, `start` or
`end`. -/
theorem markers_put_word_first :
    (read_xp_cockpit_file sample_name sample_fragment sample_target 0 0).map
        (fun out => out.filter (fun l => "# KITBASH - wiper1 ".toList.isPrefixOf l)) =
      some [ "# KITBASH - wiper1 VTs: 4 TRIs: 2\n".toList,
             "# KITBASH - wiper1 start VT section\n".toList,
             "# KITBASH - wiper1 end VT section\n".toList,
             "# KITBASH - wiper1 start IDX section\n".toList,
             "# KITBASH - wiper1 end IDX section\n".toList,
             "# KITBASH - wiper1 start ANIM section\n".toList,
             "# KITBASH - wiper1 end ANIM section\n".toList ] ∧
    (read_xp_cockpit_file sample_name sample_fragment sample_target 0 0).map
        (fun out => out.filter (fun l =>
          [ section_first_marker sample_name "VT" "start",
            section_first_marker sample_name "VT" "end",
            section_first_marker sample_name "IDX" "start",
            section_first_marker sample_name "IDX" "end",
            section_first_marker sample_name "ANIM" "start",
            section_first_marker sample_name "ANIM" "end" ].contains l)) = some [] := by
  decide

/-- C24, amended: every section marker has the literal form
`# KITBASH - <name> <start|end> <section> section`.  For a target in the
standard layout the output is, in this order: the preamble, the summary
comment, the rewritten header, the lines up to the line after the last
vertex line, the `start VT` marker, the fragment vertex lines, the `end VT`
marker, the lines up to the last index line, the `start IDX` marker, the
re-based index lines, the `end IDX` marker, the footer, the `start ANIM`
marker, the fragment footer, the `end ANIM` marker and the attribution. -/
theorem marker_format (pObj_name : Str) (m : xp_manip_file) (pre : List Str) (hdr : Str)
    (vts : List Str) (i1 : Str) (ixs : List Str) (f1 : Str) (fs : List Str)
    (vt0 tris0 V I : Int) (b c : Str) (rs as : List Str)
    (hL : StandardLayout pre hdr vts i1 ixs f1 fs)
    (hp : point_counts hdr = some (V, b, c, I))
    (hrs : rebase_all V m.xp_idx_lines = some rs)
    (has : anim_all I m.xp_anim_footer = some as) :
    read_xp_cockpit_file pObj_name m (pre ++ hdr :: (vts ++ i1 :: (ixs ++ f1 :: fs))) vt0 tris0
      = some (withNewlines pre ++ summary_line pObj_name m ::
          (header_text (wrapInt (V + m.vt_count)) b c (wrapInt (I + m.idx_count)) ++ "\n".toList) ::
          (withNewlines vts ++ (i1 ++ "\n".toList) ::
            section_marker pObj_name "start" "VT" ::
            (m.xp_vt_lines ++ section_marker pObj_name "end" "VT" ::
              (withNewlines ixs ++ section_marker pObj_name "start" "IDX" ::
                (rs ++ section_marker pObj_name "end" "IDX" ::
                  (withNewlines (f1 :: fs) ++ section_marker pObj_name "start" "ANIM" ::
                    (as ++ [section_marker pObj_name "end" "ANIM", attribution_line]))))))) := by
  obtain ⟨e1, e2, e3, e4, e5, e6⟩ := marker_forms pObj_name
  rw [read_layout pObj_name m pre hdr vts i1 ixs f1 fs vt0 tris0 V I b c rs as hL hp hrs has]
  simp only [layout_lines, vt_block, idx_block, anim_block, e1, e2, e3, e4, e5, e6,
    List.append_assoc, List.cons_append, List.nil_append]

/-- Witness of C24, amended: the sample target and the sample fragment. -/
theorem marker_format_witness :
    StandardLayout [] "POINT_COUNTS 100 0 0 50".toList
      ["VT 0 0 0 0 1 0 0 0".toList, "VT 1 0 0 0 1 0 1 0".toList]
      "IDX10 0 1 0 1 0 1 0 1 0 1".toList ["IDX 1".toList] "TRIS 0 50".toList [] ∧
    point_counts "POINT_COUNTS 100 0 0 50".toList = some (100, "0".toList, "0".toList, 50) ∧
    rebase_all 100 sample_fragment.xp_idx_lines = some ["IDX 100\n".toList, "IDX 103\n".toList] ∧
    anim_all 50 sample_fragment.xp_anim_footer =
      some ["ANIM_begin\n".toList, "TRIS 50 2\n".toList, "ANIM_end\n".toList] ∧
    read_xp_cockpit_file sample_name sample_fragment
        ([] ++ "POINT_COUNTS 100 0 0 50".toList ::
          (["VT 0 0 0 0 1 0 0 0".toList, "VT 1 0 0 0 1 0 1 0".toList] ++
            "IDX10 0 1 0 1 0 1 0 1 0 1".toList :: (["IDX 1".toList] ++ "TRIS 0 50".toList :: [])))
        0 0
      = some (withNewlines [] ++ summary_line sample_name sample_fragment ::
          (header_text (wrapInt (100 + sample_fragment.vt_count)) "0".toList "0".toList
            (wrapInt (50 + sample_fragment.idx_count)) ++ "\n".toList) ::
          (withNewlines ["VT 0 0 0 0 1 0 0 0".toList, "VT 1 0 0 0 1 0 1 0".toList] ++
            ("IDX10 0 1 0 1 0 1 0 1 0 1".toList ++ "\n".toList) ::
            section_marker sample_name "start" "VT" ::
            (sample_fragment.xp_vt_lines ++ section_marker sample_name "end" "VT" ::
              (withNewlines ["IDX 1".toList] ++ section_marker sample_name "start" "IDX" ::
                (["IDX 100\n".toList, "IDX 103\n".toList] ++
                  section_marker sample_name "end" "IDX" ::
                  (withNewlines ("TRIS 0 50".toList :: []) ++
                    section_marker sample_name "start" "ANIM" ::
                    (["ANIM_begin\n".toList, "TRIS 50 2\n".toList, "ANIM_end\n".toList] ++
                      [section_marker sample_name "end" "ANIM", attribution_line]))))))) :=
  ⟨by decide, by decide, by decide, by decide,
    marker_format sample_name sample_fragment [] "POINT_COUNTS 100 0 0 50".toList
      ["VT 0 0 0 0 1 0 0 0".toList, "VT 1 0 0 0 1 0 1 0".toList]
      "IDX10 0 1 0 1 0 1 0 1 0 1".toList ["IDX 1".toList] "TRIS 0 50".toList [] 0 0 100 50
      "0".toList "0".toList _ _ (by decide) (by decide) (by decide) (by decide)⟩

/-! ## A repeated merge: C26 -/

/-- Reading back a line written with its newline. -/
theorem getlines_line (l rest : Str) (h : OneLine l) :
    getlines (l ++ '\n' :: rest) = l :: getlines rest := by
  induction l with
  | nil => simp [getlines]
  | cons c l ih =>
    have hc : c ≠ '\n' := fun e => h (by rw [e]; exact List.mem_cons_self _ _)
    have hl : OneLine l := fun e => h (List.mem_cons_of_mem _ e)
    simp only [List.cons_append, getlines, hc, if_false, List.append_eq, ih hl]

/-- Reading back lines written each with its newline gives the lines. -/
theorem getlines_withNewlines (ls : List Str) (h : ∀ l ∈ ls, OneLine l) :
    getlines (withNewlines ls).flatten = ls := by
  induction ls with
  | nil => rfl
  | cons l ls ih =>
    have := getlines_line l (withNewlines ls).flatten (h l (List.mem_cons_self _ _))
    simp only [withNewlines, List.map_cons, List.flatten_cons, List.append_assoc,
      String.toList, List.singleton_append] at this ⊢
    rw [this]
    congr 1
    exact ih (fun x hx => h x (List.mem_cons_of_mem _ hx))

/-- A line that begins with `#` is neither a vertex line nor an index line. -/
theorem hash_line (s : Str) : isVtLine ('#' :: s) = false ∧ isIdxLine ('#' :: s) = false := by
  have key : ∃ t, trim ('#' :: s) = '#' :: t := by
    rw [trim_eq]
    have h1 : ('#' :: s).dropWhile isTrimChar = '#' :: s := by
      rw [List.dropWhile_cons_of_neg (by decide)]
    rw [h1]
    have hp := List.rdropWhile_prefix isTrimChar ('#' :: s)
    cases hr : ('#' :: s).rdropWhile isTrimChar with
    | nil =>
      have := (List.rdropWhile_eq_nil_iff).mp hr '#' (List.mem_cons_self _ _)
      exact absurd this (by decide)
    | cons a t =>
      rw [hr, List.cons_prefix_cons] at hp
      exact ⟨t, by rw [hp.1]⟩
  obtain ⟨t, ht⟩ := key
  unfold isVtLine isIdxLine
  rw [ht, startsWith_eq, startsWith_eq]
  exact ⟨by simp [List.isPrefixOf], by simp [List.isPrefixOf]⟩

/-- The tokens of words joined by single spaces are the words. -/
theorem line_tokens_join_plain (w : Str) (ws : List Str) (hw : ∀ x ∈ w :: ws, IsWord x)
    (ht : Tight (join_tokens (w :: ws))) :
    line_tokens (join_tokens (w :: ws)) = w :: ws := by
  obtain ⟨hh, hl⟩ := ht
  have hne : join_tokens (w :: ws) ≠ [] := by
    intro h
    rw [h] at hh
    simp at hh
  obtain ⟨ys, c, hyc⟩ : ∃ ys c, join_tokens (w :: ws) = ys ++ [c] :=
    ⟨_, _, (List.dropLast_append_getLast hne).symm⟩
  have hc : isTrimChar c = false := by
    rw [hyc, List.getLast?_concat] at hl
    simpa using hl
  have ht : trim (join_tokens (w :: ws)) = join_tokens (w :: ws) := by
    have := trim_of_parts [] ys c [] (by simp) (by simp) (by rw [← hyc]; exact hh) hc
    rw [hyc]
    simpa using this
  unfold line_tokens strip_delimit_string
  rw [ht, regex_join_tokens ws w hw]
  exact split_join_tokens w ws (fun x hx => not_space_of_word x (hw x hx))

/-- The header written by the `POINT_COUNTS` block reads back as its four
fields. -/
theorem point_counts_header_text (a d : Int) (b c : Str) (hb : IsWord b) (hc : IsWord c)
    (ha : inIntRange a) (hd : inIntRange d) :
    point_counts (header_text a b c d) = some (a, b, c, d) ∧
    contains (header_text a b c d) "POINT_COUNTS".toList = true := by
  have e : header_text a b c d =
      join_tokens ["POINT_COUNTS".toList, showInt a, b, c, showInt d] := by
    simp [header_text, join_tokens]
  have hwa := showInt_word a
  have hwd := showInt_word d
  have hpc : IsWord "POINT_COUNTS".toList := ⟨by decide, by decide⟩
  have hw : ∀ x ∈ ["POINT_COUNTS".toList, showInt a, b, c, showInt d], IsWord x := by
    intro x hx
    simp only [List.mem_cons, List.mem_singleton, List.not_mem_nil, or_false] at hx
    rcases hx with rfl | rfl | rfl | rfl | rfl
    · exact hpc
    · exact hwa.1
    · exact hb
    · exact hc
    · exact hwd.1
  have htight : Tight (join_tokens ["POINT_COUNTS".toList, showInt a, b, c, showInt d]) := by
    constructor
    · rw [head?_join_tokens _ _ (by decide)]
      decide
    · rw [getLast?_join_tokens [showInt a, b, c, showInt d] _ (showInt d) [showInt a, b, c] rfl
        hwd.1.1]
      exact hwd.2.2
  constructor
  · have ht := line_tokens_join_plain _ _ hw htight
    unfold line_tokens at ht
    unfold point_counts
    rw [e, ht]
    simp [stoi_showInt a ha.1 ha.2, stoi_showInt d hd.1 hd.2]
  · rw [contains_iff]
    simp only [header_text, List.append_assoc]
    exact List.IsPrefix.isInfix
      ((show "POINT_COUNTS".toList <+: "POINT_COUNTS ".toList from ⟨[' '], rfl⟩).trans
        (List.prefix_append _ _))

/-- The third and fourth field of a header line are words. -/
theorem point_counts_words (hdr : Str) (V I : Int) (b c : Str)
    (h : point_counts hdr = some (V, b, c, I)) : IsWord b ∧ IsWord c := by
  have hmem : b ∈ line_tokens hdr ∧ c ∈ line_tokens hdr := by
    unfold point_counts at h
    unfold line_tokens
    revert h
    generalize split_string (strip_delimit_string hdr " ".toList) " ".toList = parts
    intro h
    simp only [] at h
    split at h
    · rename_i p1 p2 p3 p4 h1 h2 h3 h4
      split at h
      · simp only [Option.some.injEq, Prod.mk.injEq] at h
        obtain ⟨-, rfl, rfl, -⟩ := h
        exact ⟨List.getElem?_mem h2, List.getElem?_mem h3⟩
      · exact absurd h (by simp)
    · exact absurd h (by simp)
  rcases line_tokens_words hdr with e | ⟨w, ws, e, hw, -⟩
  · rw [e] at hmem
    have hb : b = [] := by simpa using hmem.1
    unfold point_counts at h
    unfold line_tokens at e
    rw [e] at h
    simp at h
  · rw [e] at hmem
    exact ⟨hw b hmem.1, hw c hmem.2⟩


/-- A marker with its newline. -/
theorem marker_newline (pObj_name : Str) :
    marker pObj_name " start VT section\n" = marker pObj_name " start VT section" ++ "\n".toList ∧
    marker pObj_name " end VT section\n" = marker pObj_name " end VT section" ++ "\n".toList ∧
    marker pObj_name " start IDX section\n" = marker pObj_name " start IDX section" ++ "\n".toList ∧
    marker pObj_name " end IDX section\n" = marker pObj_name " end IDX section" ++ "\n".toList ∧
    marker pObj_name " start ANIM section\n" = marker pObj_name " start ANIM section" ++ "\n".toList ∧
    marker pObj_name " end ANIM section\n" = marker pObj_name " end ANIM section" ++ "\n".toList ∧
    attribution_line = attribution_text ++ "\n".toList := by
  refine ⟨?_, ?_, ?_, ?_, ?_, ?_, by decide⟩ <;> simp [marker]

/-- The output of a first merge, as lines written each with its newline. -/
theorem layout_as_lines (pObj_name : Str) (m : xp_manip_file) (pre : List Str) (hdr2 : Str)
    (vts : List Str) (i1 : Str) (ixs : List Str) (foot : List Str) (vt1 rs1 as1 : List Str)
    (hvt : m.xp_vt_lines = withNewlines vt1) :
    layout_lines pObj_name m pre hdr2 vts i1 ixs foot (withNewlines rs1) ++
        anim_block pObj_name (withNewlines as1) =
      withNewlines ((pre ++ [summary_text pObj_name m]) ++ hdr2 ::
        ((vts ++ i1 :: marker pObj_name " start VT section" :: vt1) ++
          marker pObj_name " end VT section" ::
          ((ixs ++ marker pObj_name " start IDX section" :: rs1) ++
            marker pObj_name " end IDX section" ::
            (foot ++ marker pObj_name " start ANIM section" ::
              (as1 ++ [marker pObj_name " end ANIM section", attribution_text]))))) := by
  obtain ⟨e1, e2, e3, e4, e5, e6, e7⟩ := marker_newline pObj_name
  have es : summary_line pObj_name m = summary_text pObj_name m ++ "\n".toList := by
    simp [summary_line, summary_text]
  simp only [layout_lines, vt_block, idx_block, anim_block, hvt, e1, e2, e3, e4, e5, e6, e7, es,
    withNewlines, List.map_append, List.map_cons, List.map_nil, List.append_assoc,
    List.cons_append, List.nil_append]


/-- A word holds no newline. -/
theorem oneLine_of_word (w : Str) (h : IsWord w) : OneLine w := by
  intro hmem
  have := h.2 _ hmem
  exact absurd this (by decide)

/-- A text put together from two texts without newline holds no newline. -/
theorem oneLine_append (a b : Str) (ha : OneLine a) (hb : OneLine b) : OneLine (a ++ b) := by
  intro h
  rcases List.mem_append.mp h with h | h
  · exact ha h
  · exact hb h

/-- A marker of a name without newline holds no newline. -/
theorem oneLine_marker (pObj_name : Str) (what : String) (hn : OneLine pObj_name)
    (hw : OneLine what.toList) : OneLine (marker pObj_name what) :=
  oneLine_append _ _ (oneLine_append _ _ (by decide) hn) hw

/-- The summary comment of a name without newline holds no newline. -/
theorem oneLine_summary (pObj_name : Str) (m : xp_manip_file) (hn : OneLine pObj_name) :
    OneLine (summary_text pObj_name m) := by
  intro h
  simp only [summary_text, List.mem_append] at h
  rcases h with ((((h | h) | h) | h) | h) | h
  · exact absurd h (by decide)
  · exact hn h
  · exact absurd h (by decide)
  · exact oneLine_of_word _ (showInt_word _).1 h
  · exact absurd h (by decide)
  · exact oneLine_of_word _ (showInt_word _).1 h

/-- A header written from two numbers and two words holds no newline. -/
theorem oneLine_header (a d : Int) (b c : Str) (hb : IsWord b) (hc : IsWord c) :
    OneLine (header_text a b c d) := by
  intro h
  simp only [header_text, List.mem_append] at h
  rcases h with ((((((h | h) | h) | h) | h) | h) | h) | h
  · exact absurd h (by decide)
  · exact oneLine_of_word _ (showInt_word _).1 h
  · exact absurd h (by decide)
  · exact oneLine_of_word _ hb h
  · exact absurd h (by decide)
  · exact oneLine_of_word _ hc h
  · exact absurd h (by decide)
  · exact oneLine_of_word _ (showInt_word _).1 h

/-- A marker is neither a vertex line nor an index line. -/
theorem marker_plain (pObj_name : Str) (what : String) :
    isVtLine (marker pObj_name what) = false ∧ isIdxLine (marker pObj_name what) = false :=
  hash_line (" KITBASH - ".toList ++ pObj_name ++ what.toList)

/-- The summary comment is neither a vertex line nor an index line. -/
theorem summary_plain (pObj_name : Str) (m : xp_manip_file) :
    isVtLine (summary_text pObj_name m) = false ∧ isIdxLine (summary_text pObj_name m) = false :=
  hash_line (" KITBASH - ".toList ++ pObj_name ++ " VTs: ".toList ++ showInt m.vt_count
    ++ " TRIs: ".toList ++ showInt m.idx_count)

/-- Re-basing with another vertex count completes when re-basing with one
does. -/
theorem rebase_all_change (V V2 : Int) (ls : List Str) (rs : List Str)
    (h : rebase_all V ls = some rs) : ∃ rs2, rebase_all V2 ls = some rs2 := by
  have htok : ∀ ps r, rebase_tokens V ps = some r → ∃ r2, rebase_tokens V2 ps = some r2 := by
    intro ps
    induction ps with
    | nil => intro r _; exact ⟨_, rfl⟩
    | cons p ps ih =>
      intro r hr
      simp only [rebase_tokens] at hr ⊢
      cases hs : stoi p with
      | none => simp [hs] at hr
      | some k =>
        simp only [hs] at hr
        cases ht : rebase_tokens V ps with
        | none => simp [ht] at hr
        | some t =>
          obtain ⟨t2, ht2⟩ := ih t ht
          simp only [ht2, Option.map_some']
          exact ⟨_, rfl⟩
  induction ls generalizing rs with
  | nil => exact ⟨_, rfl⟩
  | cons l ls ih =>
    simp only [rebase_all] at h ⊢
    cases h1 : rebase_idx_line V l with
    | none => simp [h1] at h
    | some r =>
      cases h2 : rebase_all V ls with
      | none => simp [h1, h2] at h
      | some rs1 =>
        obtain ⟨rs2, hrs2⟩ := ih rs1 h2
        have : ∃ r2, rebase_idx_line V2 l = some r2 := by
          unfold rebase_idx_line at h1 ⊢
          revert h1
          generalize split_string (strip_delimit_string l " ".toList) " ".toList = parts
          intro h1
          cases parts with
          | nil => simp at h1
          | cons tag ps =>
            simp only at h1 ⊢
            cases ht : rebase_tokens V ps with
            | none => simp [ht] at h1
            | some t =>
              obtain ⟨t2, ht2⟩ := htok ps t ht
              simp only [ht2, Option.map_some']
              exact ⟨_, rfl⟩
        obtain ⟨r2, hr2⟩ := this
        simp only [hr2, hrs2]
        exact ⟨_, rfl⟩

/-- The footer as pushed with another index count completes when it does
with one. -/
theorem anim_all_change (I I2 : Int) (ls : List Str) (fs : List Str)
    (h : anim_all I ls = some fs) : ∃ fs2, anim_all I2 ls = some fs2 := by
  induction ls generalizing fs with
  | nil => exact ⟨_, rfl⟩
  | cons l ls ih =>
    simp only [anim_all] at h ⊢
    cases h1 : anim_line I l with
    | none => simp [h1] at h
    | some r =>
      cases h2 : anim_all I ls with
      | none => simp [h1, h2] at h
      | some fs1 =>
        obtain ⟨fs2, hfs2⟩ := ih fs1 h2
        have : ∃ r2, anim_line I2 l = some r2 := by
          unfold anim_line at h1 ⊢
          split_ifs at h1 ⊢ with hc
          · simp only [] at h1 ⊢
            split at h1
            · rename_i p0 p1 p2 e0 e1 e2
              cases hs : stoi p1 with
              | none => simp [hs] at h1
              | some k => simp only [e0, e1, e2, hs]; exact ⟨_, rfl⟩
            · exact absurd h1 (by simp)
          · exact ⟨_, rfl⟩
        obtain ⟨r2, hr2⟩ := this
        simp only [hr2, hfs2]
        exact ⟨_, rfl⟩

/-- The last element of a concatenation is that of its second part when
there is one. -/
theorem getLast?_append_some (p : Str → Bool) (xs ys : List Str)
    (h : ys.getLast?.map p = some true) : (xs ++ ys).getLast?.map p = some true := by
  cases hy : ys.getLast? with
  | none => rw [hy] at h; simp at h
  | some v =>
    obtain ⟨init, rfl⟩ : ∃ init, ys = init ++ [v] := by
      have hne : ys ≠ [] := by
        intro e; rw [e] at hy; simp at hy
      refine ⟨ys.dropLast, ?_⟩
      have := List.dropLast_append_getLast hne
      rw [List.getLast?_eq_getLast _ hne] at hy
      rw [← Option.some.inj hy]
      exact this.symm
    rw [← List.append_assoc, List.getLast?_concat]
    rw [List.getLast?_concat] at h
    exact h

/-- The target that a first merge leaves is again in the standard layout. -/
theorem merged_layout (pObj_name : Str) (m : xp_manip_file) (pre : List Str) (hdr : Str)
    (vts : List Str) (i1 : Str) (ixs : List Str) (f1 : Str) (fs : List Str)
    (a d : Int) (b c : Str) (vl rl al : List Str)
    (hL : StandardLayout pre hdr vts i1 ixs f1 fs)
    (hb : IsWord b) (hc : IsWord c) (ha : inIntRange a) (hd : inIntRange d)
    (hmark : ∀ x ∈ [summary_text pObj_name m, marker pObj_name " start VT section",
      marker pObj_name " end VT section", marker pObj_name " start IDX section",
      marker pObj_name " end IDX section", marker pObj_name " start ANIM section",
      marker pObj_name " end ANIM section"], contains x "POINT_COUNTS".toList = false)
    (hvt1 : ∀ l ∈ vl, contains l "POINT_COUNTS".toList = false)
    (hvt2 : vl.getLast?.map isVtLine = some true)
    (hrs1 : ∀ l ∈ rl, contains l "POINT_COUNTS".toList = false ∧ isVtLine l = false)
    (hrs2 : rl.getLast?.map isIdxLine = some true)
    (has1 : ∀ l ∈ al, contains l "POINT_COUNTS".toList = false ∧ isVtLine l = false ∧
      isIdxLine l = false) :
    StandardLayout (pre ++ [summary_text pObj_name m]) (header_text a b c d)
      (vts ++ i1 :: marker pObj_name " start VT section" :: vl)
      (marker pObj_name " end VT section")
      (ixs ++ marker pObj_name " start IDX section" :: rl)
      (marker pObj_name " end IDX section")
      (f1 :: fs ++ marker pObj_name " start ANIM section" ::
        (al ++ [marker pObj_name " end ANIM section", attribution_text])) := by
  obtain ⟨h1, h2, h3, h4, h5, h6, h7, h8, h9⟩ := hL
  simp only [List.forall_mem_cons, List.forall_mem_singleton, List.not_mem_nil,
    false_imp_iff, implies_true, and_true] at hmark
  obtain ⟨m0, m1, m2, m3, m4, m5, m6⟩ := hmark
  have p1 := marker_plain pObj_name
  have hatt : contains attribution_text "POINT_COUNTS".toList = false ∧
      isVtLine attribution_text = false ∧ isIdxLine attribution_text = false := by decide
  rw [List.forall_mem_cons] at h4 h7
  refine ⟨?_, (point_counts_header_text a d b c hb hc ha hd).2, ?_, ?_, ?_, ?_, ?_, ?_, ?_⟩
  · simp only [List.forall_mem_append, List.forall_mem_singleton]
    exact ⟨h1, m0⟩
  · simp only [List.forall_mem_append, List.forall_mem_cons]
    exact ⟨h3, h4.1, m1, hvt1⟩
  · simp only [List.forall_mem_append, List.forall_mem_cons]
    exact ⟨m2, h4.2, m3, fun l hl => (hrs1 l hl).1⟩
  · simp only [List.forall_mem_append, List.forall_mem_cons, List.forall_mem_singleton,
      List.cons_append]
    rw [List.forall_mem_cons] at h5
    exact ⟨m4, h5.1, h5.2, m5, fun l hl => (has1 l hl).1, m6, hatt.1, by simp⟩
  · exact getLast?_append_some isVtLine (vts ++ [i1, marker pObj_name " start VT section"]) vl
      hvt2 |> fun h => by simpa using h
  · simp only [List.forall_mem_append, List.forall_mem_cons]
    exact ⟨(p1 _).1, h7.2, (p1 _).1, fun l hl => (hrs1 l hl).2⟩
  · have := getLast?_append_some isIdxLine
      (marker pObj_name " end VT section" :: (ixs ++ [marker pObj_name " start IDX section"])) rl
      hrs2
    simpa using this
  · simp only [List.forall_mem_append, List.forall_mem_cons, List.forall_mem_singleton,
      List.cons_append]
    rw [List.forall_mem_cons] at h9
    exact ⟨p1 _, h9.1, h9.2, p1 _, fun l hl => (has1 l hl).2, p1 _, hatt.2, by simp⟩


/-- A text without the character `c0` that begins `u ++ c0 :: v` begins
`u`. -/
theorem prefix_before_sep (c0 : Char) (p : Str) (hp : c0 ∉ p) :
    ∀ (u v : Str), p <+: u ++ c0 :: v → p <+: u := by
  induction p with
  | nil => intro u v _; exact List.nil_prefix
  | cons a p ih =>
    intro u v h
    have ha : a ≠ c0 := fun e => hp (by rw [e]; exact List.mem_cons_self _ _)
    have hp1 : c0 ∉ p := fun e => hp (List.mem_cons_of_mem _ e)
    cases u with
    | nil =>
      rw [List.nil_append, List.cons_prefix_cons] at h
      exact absurd h.1 ha
    | cons b u =>
      rw [List.cons_append, List.cons_prefix_cons] at h
      rw [List.cons_prefix_cons]
      exact ⟨h.1, ih hp1 u v h.2⟩

/-- A text without the character `c0` that occurs in `u ++ c0 :: v` occurs
in `u` or in `v`. -/
theorem infix_split_sep (c0 : Char) (p : Str) (hp : c0 ∉ p) :
    ∀ (u v : Str), p <:+: u ++ c0 :: v → p <:+: u ∨ p <:+: v := by
  intro u
  induction u with
  | nil =>
    intro v h
    rw [List.nil_append, List.infix_cons_iff] at h
    rcases h with h | h
    · left
      have := prefix_before_sep c0 p hp [] v (by simpa using h)
      exact this.isInfix
    · exact Or.inr h
  | cons b u ih =>
    intro v h
    rw [List.cons_append, List.infix_cons_iff] at h
    rcases h with h | h
    · left
      exact (prefix_before_sep c0 p hp (b :: u) v (by simpa using h)).isInfix
    · rcases ih v h with h | h
      · exact Or.inl (List.infix_cons_iff.mpr (Or.inr h))
      · exact Or.inr h

/-- The decimal rendering of a number does not hold `POINT_COUNTS`. -/
theorem showInt_no_point_counts (n : Int) : ¬ "POINT_COUNTS".toList <:+: showInt n := by
  intro h
  have hP : 'P' ∈ showInt n := h.subset (by decide)
  have hd : ∀ m : Nat, 'P' ∉ Nat.toDigits 10 m := by
    intro m hm
    have := (toDigits_spec m).2.1 _ hm
    exact absurd this (by decide)
  unfold showInt at hP
  split_ifs at hP
  · rcases List.mem_cons.mp hP with e | e
    · exact absurd e (by decide)
    · exact hd _ e
  · exact hd _ hP

/-- When the name does not hold `POINT_COUNTS`, neither do the summary
comment and the six markers. -/
theorem marks_of_name (pObj_name : Str) (m : xp_manip_file)
    (hn : contains pObj_name "POINT_COUNTS".toList = false) :
    ∀ x ∈ [summary_text pObj_name m, marker pObj_name " start VT section",
      marker pObj_name " end VT section", marker pObj_name " start IDX section",
      marker pObj_name " end IDX section", marker pObj_name " start ANIM section",
      marker pObj_name " end ANIM section"], contains x "POINT_COUNTS".toList = false := by
  have hsp : ' ' ∉ "POINT_COUNTS".toList := by decide
  have hname : ¬ "POINT_COUNTS".toList <:+: pObj_name := by
    rw [← contains_iff, hn]; simp
  have hhead : ¬ "POINT_COUNTS".toList <:+: "# KITBASH -".toList := by
    rw [← contains_iff]; decide
  have key : ∀ rest : Str, ¬ "POINT_COUNTS".toList <:+: rest →
      contains ("# KITBASH - ".toList ++ pObj_name ++ ' ' :: rest) "POINT_COUNTS".toList
        = false := by
    intro rest hrest
    rw [Bool.eq_false_iff]
    intro hc
    rw [contains_iff] at hc
    have e : "# KITBASH - ".toList ++ pObj_name ++ ' ' :: rest =
        "# KITBASH -".toList ++ ' ' :: (pObj_name ++ ' ' :: rest) := by simp
    rw [e] at hc
    rcases infix_split_sep ' ' _ hsp _ _ hc with h | h
    · exact hhead h
    · rcases infix_split_sep ' ' _ hsp _ _ h with h | h
      · exact hname h
      · exact hrest h
  have hm : ∀ rest : String, ¬ "POINT_COUNTS".toList <:+: rest.toList →
      contains (marker pObj_name (String.mk (' ' :: rest.toList))) "POINT_COUNTS".toList
        = false := by
    intro rest hrest
    exact key rest.toList hrest
  intro x hx
  simp only [List.mem_cons, List.mem_singleton, List.not_mem_nil, or_false] at hx
  rcases hx with rfl | rfl | rfl | rfl | rfl | rfl | rfl
  · have e : summary_text pObj_name m = "# KITBASH - ".toList ++ pObj_name ++
        ' ' :: ("VTs:".toList ++ ' ' :: (showInt m.vt_count ++
          ' ' :: ("TRIs:".toList ++ ' ' :: showInt m.idx_count))) := by
      simp [summary_text]
    rw [e]
    apply key
    intro h
    rcases infix_split_sep ' ' _ hsp _ _ h with h | h
    · exact absurd ((contains_iff _ _).mpr h) (by decide)
    · rcases infix_split_sep ' ' _ hsp _ _ h with h | h
      · exact showInt_no_point_counts _ h
      · rcases infix_split_sep ' ' _ hsp _ _ h with h | h
        · exact absurd ((contains_iff _ _).mpr h) (by decide)
        · exact showInt_no_point_counts _ h
  · exact hm "start VT section" (by rw [← contains_iff]; decide)
  · exact hm "end VT section" (by rw [← contains_iff]; decide)
  · exact hm "start IDX section" (by rw [← contains_iff]; decide)
  · exact hm "end IDX section" (by rw [← contains_iff]; decide)
  · exact hm "start ANIM section" (by rw [← contains_iff]; decide)
  · exact hm "end ANIM section" (by rw [← contains_iff]; decide)


/-- The lines that a first merge leaves hold no newline. -/
theorem merged_oneLine (pObj_name : Str) (m : xp_manip_file) (pre : List Str) (hdr : Str)
    (vts : List Str) (i1 : Str) (ixs : List Str) (f1 : Str) (fs : List Str)
    (a d : Int) (b c : Str) (vl rl al : List Str)
    (hlines : ∀ l ∈ pre ++ hdr :: (vts ++ i1 :: (ixs ++ f1 :: fs)), OneLine l)
    (hname : OneLine pObj_name) (hb : IsWord b) (hc : IsWord c)
    (hvl : ∀ l ∈ vl, OneLine l) (hrl : ∀ l ∈ rl, OneLine l) (hal : ∀ l ∈ al, OneLine l) :
    ∀ l ∈ (pre ++ [summary_text pObj_name m]) ++ header_text a b c d ::
        ((vts ++ i1 :: marker pObj_name " start VT section" :: vl) ++
          marker pObj_name " end VT section" ::
          ((ixs ++ marker pObj_name " start IDX section" :: rl) ++
            marker pObj_name " end IDX section" ::
            (f1 :: fs ++ marker pObj_name " start ANIM section" ::
              (al ++ [marker pObj_name " end ANIM section", attribution_text])))), OneLine l := by
  simp only [List.forall_mem_append, List.forall_mem_cons, List.forall_mem_singleton,
    List.cons_append, List.not_mem_nil, false_imp_iff, implies_true, and_true] at hlines ⊢
  obtain ⟨q1, -, q3, q4, q5, q6, q7⟩ := hlines
  have mk := fun (w : String) (hw : OneLine w.toList) => oneLine_marker pObj_name w hname hw
  exact ⟨⟨q1, oneLine_summary pObj_name m hname⟩, oneLine_header a d b c hb hc,
    ⟨q3, q4, mk _ (by decide), hvl⟩, mk _ (by decide), ⟨q5, mk _ (by decide), hrl⟩,
    mk _ (by decide), q6, q7, mk _ (by decide), hal, mk _ (by decide), by decide⟩

/-- C26: repeated merges duplicate geometry.  For a target in the standard
layout whose header declares `V` vertices and `I` indices, a name without
newline and without `POINT_COUNTS`, and a fragment as `transform_vts` leaves
it (every stored line ends in its newline; the last vertex line is a vertex
line; the re-based index lines end with an index line and none is a vertex
line; the footer holds no vertex or index line; no line holds
`POINT_COUNTS`), the first run completes, and
the run on the file that it writes, with the same fragment and name,
completes as well: its header declares `V + 2 * fv` vertices and
`I + 2 * fi` indices, the summary comment and the vertex block of the
fragment are there twice, the new index block sits inside the old one, and
every line of the first merge is kept. -/
theorem repeated_merge_duplicates (pObj_name : Str) (m : xp_manip_file) (pre : List Str)
    (hdr : Str) (vts : List Str) (i1 : Str) (ixs : List Str) (f1 : Str) (fs : List Str)
    (vt0 tris0 vt1 tris1 V I : Int) (b c : Str) (vl rl al : List Str)
    (hL : StandardLayout pre hdr vts i1 ixs f1 fs)
    (hp : point_counts hdr = some (V, b, c, I))
    (hlines : ∀ l ∈ pre ++ hdr :: (vts ++ i1 :: (ixs ++ f1 :: fs)), OneLine l)
    (hname : OneLine pObj_name)
    (hname2 : contains pObj_name "POINT_COUNTS".toList = false)
    (hvt : m.xp_vt_lines = withNewlines vl)
    (hvt1 : ∀ l ∈ vl, OneLine l ∧ contains l "POINT_COUNTS".toList = false)
    (hvt2 : vl.getLast?.map isVtLine = some true)
    (hrs : rebase_all V m.xp_idx_lines = some (withNewlines rl))
    (hrs1 : ∀ l ∈ rl, OneLine l ∧ contains l "POINT_COUNTS".toList = false ∧ isVtLine l = false)
    (hrs2 : rl.getLast?.map isIdxLine = some true)
    (has : anim_all I m.xp_anim_footer = some (withNewlines al))
    (has1 : ∀ l ∈ al, OneLine l ∧ contains l "POINT_COUNTS".toList = false ∧
      isVtLine l = false ∧ isIdxLine l = false)
    (hr1 : inIntRange (V + m.vt_count)) (hr2 : inIntRange (I + m.idx_count))
    (hr3 : inIntRange (V + 2 * m.vt_count)) (hr4 : inIntRange (I + 2 * m.idx_count)) :
    ∃ (out1 out2 rs2 as2 : List Str),
      read_xp_cockpit_file pObj_name m (pre ++ hdr :: (vts ++ i1 :: (ixs ++ f1 :: fs))) vt0 tris0
        = some out1 ∧
      rebase_all (V + m.vt_count) m.xp_idx_lines = some rs2 ∧
      anim_all (I + m.idx_count) m.xp_anim_footer = some as2 ∧
      read_xp_cockpit_file pObj_name m (getlines out1.flatten) vt1 tris1 = some out2 ∧
      out2 = withNewlines pre ++ summary_line pObj_name m :: summary_line pObj_name m ::
        (header_text (V + 2 * m.vt_count) b c (I + 2 * m.idx_count) ++ "\n".toList) ::
        (withNewlines vts ++ (i1 ++ "\n".toList) ::
          (vt_block pObj_name m ++ (vt_block pObj_name m ++
            (withNewlines ixs ++ marker pObj_name " start IDX section\n" ::
              (withNewlines rl ++ (idx_block pObj_name rs2 ++
                marker pObj_name " end IDX section\n" ::
                  (withNewlines (f1 :: fs) ++ (anim_block pObj_name (withNewlines al) ++
                    anim_block pObj_name as2)))))))) := by
  obtain ⟨hb, hc⟩ := point_counts_words hdr V I b c hp
  obtain ⟨rs2, hrs2e⟩ := rebase_all_change V (V + m.vt_count) _ _ hrs
  obtain ⟨as2, has2e⟩ := anim_all_change I (I + m.idx_count) _ _ has
  have e1 := read_layout pObj_name m pre hdr vts i1 ixs f1 fs vt0 tris0 V I b c _ _ hL hp hrs has
  rw [wrapInt_of_inIntRange _ hr1, wrapInt_of_inIntRange _ hr2,
    layout_as_lines pObj_name m pre _ vts i1 ixs (f1 :: fs) vl rl al hvt] at e1
  have hone := merged_oneLine pObj_name m pre hdr vts i1 ixs f1 fs (V + m.vt_count)
    (I + m.idx_count) b c vl rl al hlines hname hb hc (fun l hl => (hvt1 l hl).1)
    (fun l hl => (hrs1 l hl).1) (fun l hl => (has1 l hl).1)
  have hL2 := merged_layout pObj_name m pre hdr vts i1 ixs f1 fs (V + m.vt_count)
    (I + m.idx_count) b c vl rl al hL hb hc hr1 hr2 (marks_of_name pObj_name m hname2)
    (fun l hl => (hvt1 l hl).2) hvt2
    (fun l hl => (hrs1 l hl).2) hrs2 (fun l hl => (has1 l hl).2)
  have hp2 := (point_counts_header_text (V + m.vt_count) (I + m.idx_count) b c hb hc hr1 hr2).1
  have e2 := read_layout pObj_name m _ _ _ _ _ _ _ vt1 tris1 _ _ b c rs2 as2 hL2 hp2 hrs2e has2e
  have ev : V + m.vt_count + m.vt_count = V + 2 * m.vt_count := by ring
  have ei : I + m.idx_count + m.idx_count = I + 2 * m.idx_count := by ring
  rw [ev, ei, wrapInt_of_inIntRange _ hr3, wrapInt_of_inIntRange _ hr4] at e2
  refine ⟨_, _, rs2, as2, e1, hrs2e, has2e, ?_, rfl⟩
  rw [getlines_withNewlines _ hone, e2]
  obtain ⟨k1, k2, k3, k4, k5, k6, k7⟩ := marker_newline pObj_name
  have es : summary_line pObj_name m = summary_text pObj_name m ++ "\n".toList := by
    simp [summary_line, summary_text]
  simp only [layout_lines, vt_block, idx_block, anim_block, hvt, k1, k2, k3, k4, k5, k6, k7, es,
    withNewlines, List.map_append, List.map_cons, List.map_nil, List.append_assoc,
    List.cons_append, List.nil_append]

/-- Witness of C26: `sample_fragment` merged twice into `sample_target`
under the name `wiper1`; the second header is `POINT_COUNTS 108 0 0 54`. -/
theorem repeated_merge_duplicates_witness :
    (StandardLayout [] "POINT_COUNTS 100 0 0 50".toList
      ["VT 0 0 0 0 1 0 0 0".toList, "VT 1 0 0 0 1 0 1 0".toList]
      "IDX10 0 1 0 1 0 1 0 1 0 1".toList ["IDX 1".toList] "TRIS 0 50".toList [] ∧
    point_counts "POINT_COUNTS 100 0 0 50".toList = some (100, "0".toList, "0".toList, 50) ∧
    (∀ l ∈ [] ++ "POINT_COUNTS 100 0 0 50".toList ::
        (["VT 0 0 0 0 1 0 0 0".toList, "VT 1 0 0 0 1 0 1 0".toList] ++
          "IDX10 0 1 0 1 0 1 0 1 0 1".toList :: (["IDX 1".toList] ++ "TRIS 0 50".toList :: [])),
      OneLine l) ∧
    OneLine sample_name ∧
    contains sample_name "POINT_COUNTS".toList = false ∧
    sample_fragment.xp_vt_lines = withNewlines sample_vt_texts ∧
    (∀ l ∈ sample_vt_texts, OneLine l ∧ contains l "POINT_COUNTS".toList = false) ∧
    sample_vt_texts.getLast?.map isVtLine = some true ∧
    rebase_all 100 sample_fragment.xp_idx_lines
      = some (withNewlines ["IDX 100".toList, "IDX 103".toList]) ∧
    (∀ l ∈ ["IDX 100".toList, "IDX 103".toList],
      OneLine l ∧ contains l "POINT_COUNTS".toList = false ∧ isVtLine l = false) ∧
    ["IDX 100".toList, "IDX 103".toList].getLast?.map isIdxLine = some true ∧
    anim_all 50 sample_fragment.xp_anim_footer
      = some (withNewlines ["ANIM_begin".toList, "TRIS 50 2".toList, "ANIM_end".toList]) ∧
    (∀ l ∈ ["ANIM_begin".toList, "TRIS 50 2".toList, "ANIM_end".toList],
      OneLine l ∧ contains l "POINT_COUNTS".toList = false ∧ isVtLine l = false ∧
        isIdxLine l = false) ∧
    inIntRange (100 + sample_fragment.vt_count) ∧ inIntRange (50 + sample_fragment.idx_count) ∧
    inIntRange (100 + 2 * sample_fragment.vt_count) ∧
    inIntRange (50 + 2 * sample_fragment.idx_count)) ∧
    ∃ (out1 out2 rs2 as2 : List Str),
      read_xp_cockpit_file sample_name sample_fragment
          ([] ++ "POINT_COUNTS 100 0 0 50".toList ::
            (["VT 0 0 0 0 1 0 0 0".toList, "VT 1 0 0 0 1 0 1 0".toList] ++
              "IDX10 0 1 0 1 0 1 0 1 0 1".toList :: (["IDX 1".toList] ++ "TRIS 0 50".toList :: [])))
          0 0 = some out1 ∧
      rebase_all (100 + sample_fragment.vt_count) sample_fragment.xp_idx_lines = some rs2 ∧
      anim_all (50 + sample_fragment.idx_count) sample_fragment.xp_anim_footer = some as2 ∧
      read_xp_cockpit_file sample_name sample_fragment (getlines out1.flatten) 0 0 = some out2 ∧
      out2 = withNewlines [] ++ summary_line sample_name sample_fragment ::
        summary_line sample_name sample_fragment ::
        (header_text (100 + 2 * sample_fragment.vt_count) "0".toList "0".toList
          (50 + 2 * sample_fragment.idx_count) ++ "\n".toList) ::
        (withNewlines ["VT 0 0 0 0 1 0 0 0".toList, "VT 1 0 0 0 1 0 1 0".toList] ++
          ("IDX10 0 1 0 1 0 1 0 1 0 1".toList ++ "\n".toList) ::
          (vt_block sample_name sample_fragment ++ (vt_block sample_name sample_fragment ++
            (withNewlines ["IDX 1".toList] ++ marker sample_name " start IDX section\n" ::
              (withNewlines ["IDX 100".toList, "IDX 103".toList] ++
                (idx_block sample_name rs2 ++ marker sample_name " end IDX section\n" ::
                  (withNewlines ("TRIS 0 50".toList :: []) ++
                    (anim_block sample_name
                        (withNewlines ["ANIM_begin".toList, "TRIS 50 2".toList,
                          "ANIM_end".toList]) ++
                      anim_block sample_name as2)))))))) :=
  ⟨by decide,
    repeated_merge_duplicates sample_name sample_fragment [] "POINT_COUNTS 100 0 0 50".toList
      ["VT 0 0 0 0 1 0 0 0".toList, "VT 1 0 0 0 1 0 1 0".toList]
      "IDX10 0 1 0 1 0 1 0 1 0 1".toList ["IDX 1".toList] "TRIS 0 50".toList [] 0 0 0 0 100 50
      "0".toList "0".toList sample_vt_texts ["IDX 100".toList, "IDX 103".toList]
      ["ANIM_begin".toList, "TRIS 50 2".toList, "ANIM_end".toList]
      (by decide) (by decide) (by decide) (by decide) (by decide) rfl
      (by decide) (by decide) (by rfl) (by decide) (by decide) (by rfl)
      (by decide) (by decide) (by decide) (by decide) (by decide)⟩

/-- The file that the second run on the samples leaves declares 108
vertices and 54 indices and holds two `start VT section` markers. -/
theorem second_merge_sample :
    ((read_xp_cockpit_file sample_name sample_fragment merged_sample_target 0 0).map
      (fun out => (out.filter (fun l => contains l "POINT_COUNTS".toList),
        (out.filter (fun l => l = marker sample_name " start VT section\n")).length))) =
      some (["POINT_COUNTS 108 0 0 54\n".toList], 2) := by
  decide!

/-! ## The free functions: C31, C32 -/

/-- Where `find` finds the text, the text stands. -/
theorem find_some_split (p : Str) : ∀ (s : Str) (k : Nat), find s p = some k →
    s = s.take k ++ p ++ s.drop (k + p.length) := by
  intro s
  induction s with
  | nil =>
    intro k h
    simp only [find] at h
    split_ifs at h with hp
    have : p = [] := by simpa using hp
    subst this
    simp
  | cons c cs ih =>
    intro k h
    simp only [find] at h
    split_ifs at h with hp
    · obtain rfl : 0 = k := Option.some.inj h
      obtain ⟨t, ht⟩ := List.isPrefixOf_iff_prefix.mp hp
      rw [← ht]
      simp
    · cases hf : find cs p with
      | none => rw [hf] at h; simp at h
      | some j =>
        rw [hf] at h
        obtain rfl : j + 1 = k := by simpa using h
        have := ih j hf
        have e : j + 1 + p.length = (j + p.length) + 1 := by omega
        rw [e, List.take_succ_cons, List.drop_succ_cons, List.cons_append, List.cons_append,
          ← this]

/-- The text does not occur ahead of the place where `find` finds it. -/
theorem find_some_before (p : Str) (hp : p ≠ []) : ∀ (s : Str) (k : Nat), find s p = some k →
    contains (s.take k) p = false := by
  intro s
  induction s with
  | nil =>
    intro k _
    cases p with
    | nil => exact absurd rfl hp
    | cons a p => simp [contains, find]
  | cons c cs ih =>
    intro k h
    simp only [find] at h
    split_ifs at h with hpre
    · obtain rfl : 0 = k := Option.some.inj h
      cases p with
      | nil => exact absurd rfl hp
      | cons a p => simp [contains, find]
    · cases hf : find cs p with
      | none => rw [hf] at h; simp at h
      | some j =>
        rw [hf] at h
        obtain rfl : j + 1 = k := by simpa using h
        have h1 := ih j hf
        rw [List.take_succ_cons, Bool.eq_false_iff]
        intro hc
        rw [contains_iff, List.infix_cons_iff] at hc
        rcases hc with hc | hc
        · apply hpre
          exact List.isPrefixOf_iff_prefix.mpr
            (hc.trans ((List.prefix_cons_inj c).mpr (List.take_prefix j cs)))
        · rw [← contains_iff, h1] at hc
          exact absurd hc (by simp)

/-- The place where `find` finds a text leaves room for the text. -/
theorem find_some_le (p : Str) : ∀ (s : Str) (k : Nat), find s p = some k →
    k + p.length ≤ s.length := by
  intro s
  induction s with
  | nil =>
    intro k h
    simp only [find] at h
    split_ifs at h with hp
    have : p = [] := by simpa using hp
    obtain rfl : 0 = k := Option.some.inj h
    simp [this]
  | cons c cs ih =>
    intro k h
    simp only [find] at h
    split_ifs at h with hpre
    · obtain rfl : 0 = k := Option.some.inj h
      have := (List.isPrefixOf_iff_prefix.mp hpre).length_le
      omega
    · cases hf : find cs p with
      | none => rw [hf] at h; simp at h
      | some j =>
        rw [hf] at h
        obtain rfl : j + 1 = k := by simpa using h
        have := ih j hf
        simp only [List.length_cons]
        omega


/-- With a non-empty delimiter the loop of `split_string` gives the same
pieces for every fuel above the length of the source. -/
theorem split_string_loop_fuel (d : Str) (hd : d ≠ []) : ∀ (fuel1 fuel2 : Nat) (source : Str),
    source.length < fuel1 → source.length < fuel2 →
    split_string_loop d fuel1 source = split_string_loop d fuel2 source := by
  have hlen : 1 ≤ d.length := List.length_pos.mpr hd
  intro fuel1
  induction fuel1 with
  | zero => intro fuel2 source h1; omega
  | succ f1 ih =>
    intro fuel2 source h1 h2
    cases fuel2 with
    | zero => omega
    | succ f2 =>
      simp only [split_string_loop]
      cases hf : find source d with
      | none => rfl
      | some tPos =>
        have hle := find_some_le d source tPos hf
        simp only []
        rw [ih f2 (source.drop (tPos + d.length)) (by rw [List.length_drop]; omega)
          (by rw [List.length_drop]; omega)]

/-- The pieces that the loop of `split_string` gives with enough fuel. -/
theorem split_string_loop_pieces (d : Str) (hd : d ≠ []) : ∀ (fuel : Nat) (source : Str),
    source.length < fuel →
    split_string_loop d fuel source ≠ [] ∧
    (∀ piece ∈ split_string_loop d fuel source, contains piece d = false) ∧
    join_pieces d (split_string_loop d fuel source) = source := by
  have hlen : 1 ≤ d.length := List.length_pos.mpr hd
  intro fuel
  induction fuel with
  | zero => intro source h; omega
  | succ f ih =>
    intro source h
    simp only [split_string_loop]
    cases hf : find source d with
    | none =>
      refine ⟨by simp, ?_, rfl⟩
      intro piece hp
      obtain rfl : piece = source := by simpa using hp
      simp [contains, hf]
    | some tPos =>
      have hle := find_some_le d source tPos hf
      obtain ⟨h1, h2, h3⟩ := ih (source.drop (tPos + d.length))
        (by rw [List.length_drop]; omega)
      simp only []
      refine ⟨by simp, ?_, ?_⟩
      · intro piece hp
        rcases List.mem_cons.mp hp with rfl | hp
        · exact find_some_before d hd source tPos hf
        · exact h2 piece hp
      · obtain ⟨q, qs, e⟩ := List.exists_cons_of_ne_nil h1
        rw [e] at h3 ⊢
        simp only [join_pieces]
        rw [h3]
        exact (find_some_split d source tPos hf).symm

/-- C31: the round trip of `split_string`.  For every source and every
non-empty delimiter the loop ends (every fuel above the length of the source
gives the pieces that `split_string` returns), the list of pieces is not
empty, no piece holds the delimiter, and the pieces put together with the
delimiter between them are the source. -/
theorem split_string_round_trip (source delimeter : Str) (hd : delimeter ≠ []) :
    (∀ fuel : Nat, source.length < fuel →
      split_string_loop delimeter fuel source = split_string source delimeter) ∧
    split_string source delimeter ≠ [] ∧
    (∀ piece ∈ split_string source delimeter, contains piece delimeter = false) ∧
    join_pieces delimeter (split_string source delimeter) = source :=
  ⟨fun fuel h => split_string_loop_fuel delimeter hd fuel (source.length + 1) source h
      (Nat.lt_succ_self _),
    split_string_loop_pieces delimeter hd (source.length + 1) source (Nat.lt_succ_self _)⟩

/-- Witness of C31: `a, b,, c` cut at `, ` gives `a`, `b,` and `c`. -/
theorem split_string_round_trip_witness :
    (", ".toList ≠ []) ∧
    split_string "a, b,, c".toList ", ".toList = ["a".toList, "b,".toList, "c".toList] ∧
    ((∀ fuel : Nat, "a, b,, c".toList.length < fuel →
      split_string_loop ", ".toList fuel "a, b,, c".toList
        = split_string "a, b,, c".toList ", ".toList) ∧
    split_string "a, b,, c".toList ", ".toList ≠ [] ∧
    (∀ piece ∈ split_string "a, b,, c".toList ", ".toList, contains piece ", ".toList = false) ∧
    join_pieces ", ".toList (split_string "a, b,, c".toList ", ".toList) = "a, b,, c".toList) :=
  ⟨by decide, by decide, split_string_round_trip "a, b,, c".toList ", ".toList (by decide)⟩


/-- The characters that `trim` removes are the seven white-space characters. -/
theorem isTrimChar_iff (c : Char) : isTrimChar c = true ↔ c ∈ trim_chars := by
  simp only [isTrimChar, trim_chars, Bool.or_eq_true, beq_iff_eq, List.mem_cons,
    List.mem_singleton, List.not_mem_nil, or_false, or_assoc]

/-- A text that neither starts nor ends with white space is its own `trim`. -/
theorem trim_of_tight (t : Str) (ht : Tight t) : trim t = t := by
  obtain ⟨hh, hl⟩ := ht
  have hne : t ≠ [] := by
    intro h
    rw [h] at hh
    simp at hh
  obtain ⟨ys, c, hyc⟩ : ∃ ys c, t = ys ++ [c] :=
    ⟨_, _, (List.dropLast_append_getLast hne).symm⟩
  have hc : isTrimChar c = false := by
    rw [hyc, List.getLast?_concat] at hl
    simpa using hl
  have := trim_of_parts [] ys c [] (by simp) (by simp) (by rw [← hyc]; exact hh) hc
  rw [hyc]
  simpa using this

/-- The parts of a text around its `trim`. -/
theorem trim_parts (s : Str) :
    ∃ before after : Str, s = before ++ trim s ++ after ∧
      (∀ c ∈ before, isTrimChar c = true) ∧ (∀ c ∈ after, isTrimChar c = true) := by
  refine ⟨s.takeWhile isTrimChar, (s.dropWhile isTrimChar).rtakeWhile isTrimChar, ?_,
    fun c hc => List.mem_takeWhile_imp hc, fun c hc => List.mem_rtakeWhile_imp hc⟩
  rw [trim_eq, List.append_assoc]
  have hsplit : ∀ d : Str, d.rdropWhile isTrimChar ++ d.rtakeWhile isTrimChar = d := by
    intro d
    simp only [List.rdropWhile, List.rtakeWhile, ← List.reverse_append,
      List.takeWhile_append_dropWhile, List.reverse_reverse]
  rw [hsplit, List.takeWhile_append_dropWhile]

/-- C32: what `trim` returns.  Every string is some white space, then its
`trim`, then some white space, where the `trim` is empty or begins and ends
with a character that is not white space (white space being space, tab,
newline, vertical tab, form feed, carriage return and NUL); the `trim` of a
string that is empty or all white space is empty; and `trim` is idempotent. -/
theorem trim_spec (s : Str) :
    (∃ before after : Str, s = before ++ trim s ++ after ∧
      (∀ c ∈ before, c ∈ trim_chars) ∧ (∀ c ∈ after, c ∈ trim_chars) ∧
      (trim s = [] ∨
        ((∃ a, (trim s).head? = some a ∧ a ∉ trim_chars) ∧
          (∃ b, (trim s).getLast? = some b ∧ b ∉ trim_chars)))) ∧
    ((∀ c ∈ s, c ∈ trim_chars) → trim s = []) ∧
    trim (trim s) = trim s := by
  have hnot : ∀ c : Char, isTrimChar c = false → c ∉ trim_chars := by
    intro c h hc
    rw [(isTrimChar_iff c).mpr hc] at h
    exact absurd h (by simp)
  refine ⟨?_, ?_, ?_⟩
  · obtain ⟨before, after, e, hb, ha⟩ := trim_parts s
    refine ⟨before, after, e, fun c hc => (isTrimChar_iff c).mp (hb c hc),
      fun c hc => (isTrimChar_iff c).mp (ha c hc), ?_⟩
    rcases trim_tight s with h | ⟨hh, hl⟩
    · exact Or.inl h
    · right
      constructor
      · cases hx : (trim s).head? with
        | none => rw [hx] at hh; simp at hh
        | some a =>
          rw [hx] at hh
          exact ⟨a, rfl, hnot a (by simpa using hh)⟩
      · cases hx : (trim s).getLast? with
        | none => rw [hx] at hl; simp at hl
        | some b =>
          rw [hx] at hl
          exact ⟨b, rfl, hnot b (by simpa using hl)⟩
  · intro h
    exact trim_all_trim s (fun c hc => (isTrimChar_iff c).mpr (h c hc))
  · rcases trim_tight s with h | h
    · rw [h]
      exact trim_all_trim [] (by simp)
    · exact trim_of_tight _ h

/-- An evaluation of `trim`: white space inside the text stays. -/
theorem trim_sample : trim " \t ab  c \n".toList = "ab  c".toList := by
  decide

end KitBash
